import Mathlib

set_option maxHeartbeats 2000000
set_option maxRecDepth 20000

/-!
Verification development for the workspace snapshot graph, the rebase engine
and the workflow tree of this repository.

The graph code is embedded from src/lib/dal/src/workspace_snapshot/graph.rs,
the edge weights from src/lib/dal/src/workspace_snapshot/edge_weight.rs, and
the workflow engine from src/lib/dal/src/workflow.rs.  Support modules that
the graph code imports (vector_clock.rs, node_weight.rs, change_set.rs,
conflict.rs, update.rs) are not part of the tree; their definitions are
modelled from the specification and are marked as such in their doc comments.

Modelling conventions:
  - node and edge indices of the stable graph are natural numbers; removal
    blanks a slot (`none`) and never renumbers, matching petgraph's
    `StableDiGraph` index stability;
  - the content hash is modelled as a perfect (collision-free) hash: the
    digest of a byte stream is the stream itself, and the streaming hasher
    records chunk boundaries with a length prefix, which mirrors the
    unambiguous concatenation of fixed-width hex renderings in the code;
  - fallible operations return the post-state of the graph together with an
    `Except`/`Option` result, so that the state after a failed call is part
    of the model, as it is in the Rust code.
-/

abbrev Ulid := Nat

/-- Modelled from the spec: change_set.rs is not in the tree.  A change set
carries its identifier; ulid generation is made explicit at call sites. -/
structure ChangeSet where
  id : Ulid
deriving DecidableEq

/-- Modelled from the spec: vector_clock.rs is not in the tree.  A mapping
from change-set id to a u64 counter, kept as an association list sorted by
key so that equal mappings are equal lists. -/
structure VectorClock where
  entries : List (Ulid × Nat)
deriving DecidableEq

def VectorClock.new (cs : ChangeSet) : VectorClock :=
  ⟨[(cs.id, 0)]⟩

def VectorClock.entryForId (vc : VectorClock) (k : Ulid) : Option Nat :=
  (vc.entries.find? (fun p => p.1 = k)).map (fun p => p.2)

def VectorClock.entryFor (vc : VectorClock) (cs : ChangeSet) : Option Nat :=
  vc.entryForId cs.id

def VectorClock.getD (vc : VectorClock) (k : Ulid) : Nat :=
  (vc.entryForId k).getD 0

def VectorClock.setEntryList : List (Ulid × Nat) → Ulid → Nat → List (Ulid × Nat)
  | [], k, v => [(k, v)]
  | (k1, v1) :: rest, k, v =>
    if k < k1 then (k, v) :: (k1, v1) :: rest
    else if k = k1 then (k, v) :: rest
    else (k1, v1) :: VectorClock.setEntryList rest k v

def VectorClock.setEntry (vc : VectorClock) (k : Ulid) (v : Nat) : VectorClock :=
  ⟨VectorClock.setEntryList vc.entries k v⟩

/-- Modelled from the spec: `inc` inserts at 0 then increments if the entry
is absent, otherwise increments the existing entry. -/
def VectorClock.inc (vc : VectorClock) (cs : ChangeSet) : VectorClock :=
  match vc.entryFor cs with
  | none => vc.setEntry cs.id 1
  | some v => vc.setEntry cs.id (v + 1)

/-- Modelled from the spec: `merge` takes the pointwise maximum. -/
def VectorClock.merge (a b : VectorClock) : VectorClock :=
  b.entries.foldl (fun acc p => acc.setEntry p.1 (max (acc.getD p.1) p.2)) a

/-- Modelled from the spec: true iff self is pointwise at least other and
strictly greater at some entry (absent entries count as 0). -/
def VectorClock.isNewerThan (self other : VectorClock) : Bool :=
  other.entries.all (fun p => p.2 ≤ self.getD p.1) &&
    self.entries.any (fun p => other.getD p.1 < p.2)

/-- Modelled from the spec: any entry strictly above the threshold. -/
def VectorClock.hasEntriesNewerThan (vc : VectorClock) (t : Nat) : Bool :=
  vc.entries.any (fun p => t < p.2)

/-- Rust `Option<u64>` ordering as used by the comparisons in graph.rs:
`none` is below every `some`. -/
def optNatGt : Option Nat → Option Nat → Bool
  | some a, some b => b < a
  | some _, none => true
  | none, _ => false

/-- Content hash digest, modelled as a perfect hash of the byte stream fed
to the hasher (content_hash.rs lives outside the tree; the spec only needs a
stable collision-free digest with a streaming API). -/
structure ContentHash where
  bytes : List Nat
deriving DecidableEq

def ContentHash.new (b : List Nat) : ContentHash :=
  ⟨b⟩

/-- Canonical rendering of a hash that is fed back into a hasher, standing
for `to_string().as_bytes()` on the fixed-width hex form. -/
def ContentHash.toBytes (h : ContentHash) : List Nat :=
  h.bytes

/-- Streaming hasher: records the chunks passed to `update`.  `finalize`
length-prefixes each chunk, which mirrors the fact that concatenating
fixed-width hex strings is unambiguous. -/
structure ContentHasher where
  chunks : List (List Nat)
deriving DecidableEq

def ContentHasher.init : ContentHasher :=
  ⟨[]⟩

def ContentHasher.update (h : ContentHasher) (chunk : List Nat) : ContentHasher :=
  ⟨h.chunks ++ [chunk]⟩

def ContentHasher.finalize (h : ContentHasher) : ContentHash :=
  ⟨(h.chunks.map (fun c => c.length :: c)).flatten⟩

/-- Modelled from the spec: the tagged kind of a content node; each payload
variant wraps exactly one content hash (Root carries the fixed empty one). -/
inductive ContentAddress where
  | root
  | schema (hash : ContentHash)
  | schemaVariant (hash : ContentHash)
  | component (hash : ContentHash)
  | func (hash : ContentHash)
  | prop (hash : ContentHash)
  | socket (hash : ContentHash)
deriving DecidableEq

def ContentAddress.contentHash : ContentAddress → ContentHash
  | .root => ContentHash.new []
  | .schema h => h
  | .schemaVariant h => h
  | .component h => h
  | .func h => h
  | .prop h => h
  | .socket h => h

/-- Replace the wrapped content hash, keeping the variant. -/
def ContentAddress.withHash : ContentAddress → ContentHash → ContentAddress
  | .root, _ => .root
  | .schema _, h => .schema h
  | .schemaVariant _, h => .schemaVariant h
  | .component _, h => .component h
  | .func _, h => .func h
  | .prop _, h => .prop h
  | .socket _, h => .socket h

/-- Modelled from the spec: node_weight.rs is not in the tree.  A content
node weight carries id, lineage id, content address, merkle hash and the
three vector clocks. -/
structure ContentNodeWeight where
  id : Ulid
  lineageId : Ulid
  contentAddress : ContentAddress
  merkleTreeHash : ContentHash
  vectorClockFirstSeen : VectorClock
  vectorClockRecentlySeen : VectorClock
  vectorClockWrite : VectorClock
deriving DecidableEq

/-- Modelled from the spec: an ordering node holds a sequence of ids. -/
structure OrderingNodeWeight where
  id : Ulid
  lineageId : Ulid
  order : List Ulid
  merkleTreeHash : ContentHash
  vectorClockFirstSeen : VectorClock
  vectorClockRecentlySeen : VectorClock
  vectorClockWrite : VectorClock
deriving DecidableEq

inductive NodeWeight where
  | content (w : ContentNodeWeight)
  | ordering (w : OrderingNodeWeight)
deriving DecidableEq

def NodeWeight.id : NodeWeight → Ulid
  | .content w => w.id
  | .ordering w => w.id

def NodeWeight.lineageId : NodeWeight → Ulid
  | .content w => w.lineageId
  | .ordering w => w.lineageId

/-- Content hash of the node payload; an ordering node is addressed by its
order sequence (modelled from the spec). -/
def NodeWeight.contentHash : NodeWeight → ContentHash
  | .content w => w.contentAddress.contentHash
  | .ordering w => ContentHash.new w.order

def NodeWeight.merkleTreeHash : NodeWeight → ContentHash
  | .content w => w.merkleTreeHash
  | .ordering w => w.merkleTreeHash

def NodeWeight.setMerkleTreeHash : NodeWeight → ContentHash → NodeWeight
  | .content w, h => .content { w with merkleTreeHash := h }
  | .ordering w, h => .ordering { w with merkleTreeHash := h }

def NodeWeight.vectorClockWrite : NodeWeight → VectorClock
  | .content w => w.vectorClockWrite
  | .ordering w => w.vectorClockWrite

def NodeWeight.vectorClockRecentlySeen : NodeWeight → VectorClock
  | .content w => w.vectorClockRecentlySeen
  | .ordering w => w.vectorClockRecentlySeen

def NodeWeight.vectorClockFirstSeen : NodeWeight → VectorClock
  | .content w => w.vectorClockFirstSeen
  | .ordering w => w.vectorClockFirstSeen

/-- Modelled from the spec: a copy-on-write copy advances the write and
recently-seen clocks of the acting change set (first-seen is set once and
left alone), mirroring `increment_vector_clocks` on edge weights. -/
def NodeWeight.newWithIncrementedVectorClock (w : NodeWeight) (cs : ChangeSet) : NodeWeight :=
  match w with
  | .content c => .content { c with
      vectorClockWrite := c.vectorClockWrite.inc cs
      vectorClockRecentlySeen := c.vectorClockRecentlySeen.inc cs }
  | .ordering o => .ordering { o with
      vectorClockWrite := o.vectorClockWrite.inc cs
      vectorClockRecentlySeen := o.vectorClockRecentlySeen.inc cs }

/-- Modelled from the spec: `new_content_hash` swaps the wrapped payload
hash of a content node (the COW copy that precedes it has already advanced
the clocks). -/
def NodeWeight.withNewContentHash : NodeWeight → ContentHash → NodeWeight
  | .content w, h => .content { w with contentAddress := w.contentAddress.withHash h }
  | .ordering w, _ => .ordering w

/-- Modelled from the spec: NodeWeight::new_content gives the node fresh
clocks for the creating change set; the lineage id is generated at creation
(identified here with the creation id, which is unique per creation event);
the merkle hash starts at the default digest. -/
def NodeWeight.newContent (cs : ChangeSet) (id : Ulid) (addr : ContentAddress) : NodeWeight :=
  .content {
    id := id
    lineageId := id
    contentAddress := addr
    merkleTreeHash := ContentHash.new []
    vectorClockFirstSeen := VectorClock.new cs
    vectorClockRecentlySeen := VectorClock.new cs
    vectorClockWrite := VectorClock.new cs }

/-- Edge kind as declared in src/lib/dal/src/workspace_snapshot/edge_weight.rs:
the enum has the single (default) variant `Uses`. -/
inductive EdgeWeightKindSrc where
  | uses
deriving DecidableEq

/-- Edge weight exactly as declared in edge_weight.rs: a kind plus the two
vector clocks `vector_clock_seen` and `vector_clock_write`. -/
structure EdgeWeightSrc where
  kind : EdgeWeightKindSrc
  vectorClockSeen : VectorClock
  vectorClockWrite : VectorClock
deriving DecidableEq

/-- EdgeWeight::new from edge_weight.rs: fresh seen and write clocks for the
creating change set. -/
def EdgeWeightSrc.new (cs : ChangeSet) (kind : EdgeWeightKindSrc) : EdgeWeightSrc :=
  { kind := kind
    vectorClockSeen := VectorClock.new cs
    vectorClockWrite := VectorClock.new cs }

/-- EdgeWeight::increment_vector_clocks from edge_weight.rs: advances the
seen and the write clock. -/
def EdgeWeightSrc.incrementVectorClocks (w : EdgeWeightSrc) (cs : ChangeSet) : EdgeWeightSrc :=
  { w with
    vectorClockSeen := w.vectorClockSeen.inc cs
    vectorClockWrite := w.vectorClockWrite.inc cs }

/-- EdgeWeight::new_with_incremented_vector_clocks from edge_weight.rs. -/
def EdgeWeightSrc.newWithIncrementedVectorClocks
    (w : EdgeWeightSrc) (cs : ChangeSet) : EdgeWeightSrc :=
  w.incrementVectorClocks cs

/-- Modelled from the spec: the edge kinds that graph.rs consumes
(`EdgeWeightKind::Uses` and `EdgeWeightKind::Ordering`); the edge_weight.rs
in the tree only declares `Uses`. -/
inductive EdgeWeightKind where
  | uses
  | ordering
deriving DecidableEq

/-- Modelled from the spec: the edge weight consumed by graph.rs, carrying
the three vector clocks of §3 (first-seen, write, recently-seen); the
edge_weight.rs in the tree lacks the first-seen clock that
`find_unordered_container_membership_conflicts_and_updates` reads. -/
structure EdgeWeight where
  kind : EdgeWeightKind
  vectorClockFirstSeen : VectorClock
  vectorClockRecentlySeen : VectorClock
  vectorClockWrite : VectorClock
deriving DecidableEq

/-- Modelled from the spec: a fresh edge weight starts all three clocks at
the creating change set. -/
def EdgeWeight.new (cs : ChangeSet) (kind : EdgeWeightKind) : EdgeWeight :=
  { kind := kind
    vectorClockFirstSeen := VectorClock.new cs
    vectorClockRecentlySeen := VectorClock.new cs
    vectorClockWrite := VectorClock.new cs }

/-- Modelled from the spec: advancing an edge advances its write and
recently-seen clocks; the first-seen clock is set once at creation. -/
def EdgeWeight.incrementVectorClocks (w : EdgeWeight) (cs : ChangeSet) : EdgeWeight :=
  { w with
    vectorClockRecentlySeen := w.vectorClockRecentlySeen.inc cs
    vectorClockWrite := w.vectorClockWrite.inc cs }

def EdgeWeight.newWithIncrementedVectorClocks
    (w : EdgeWeight) (cs : ChangeSet) : EdgeWeight :=
  w.incrementVectorClocks cs

/-- Conflict enum, modelled from the spec (conflict.rs is not in the tree);
the variants and their payloads follow §4.4 and the uses in graph.rs. -/
inductive Conflict where
  | nodeContent (toRebase onto : Nat)
  | modifyRemovedItem (idx : Nat)
  | removeModifiedItem (container removedItem : Nat)
  | childOrder (ours theirs : Nat)
  | childMembership (ours theirs : Nat)
deriving DecidableEq

/-- Update enum, modelled from the spec (update.rs is not in the tree). -/
inductive Update where
  | newEdge (source destination : Nat) (edgeWeight : EdgeWeight)
  | removeEdge (edgeIndex : Nat)
  | replaceSubgraph (new old : Nat)
deriving DecidableEq

/-- Dfs events as delivered by petgraph's depth_first_search. -/
inductive DfsEvent where
  | discover (u : Nat)
  | treeEdge (u v : Nat)
  | backEdge (u v : Nat)
  | crossForwardEdge (u v : Nat)
  | finish (u : Nat)
deriving DecidableEq

/-- Control flow answer of a dfs visitor (petgraph::visit::Control; Break is
never used by this code). -/
inductive DfsControl where
  | continue
  | prune
deriving DecidableEq

/-- Error enum of graph.rs (WorkspaceSnapshotGraphError); the variants that
wrap foreign errors are omitted because the modelled sub-operations are
total. -/
inductive GraphError where
  | cannotCompareOrderedAndUnorderedContainers (a b : Nat)
  | createGraphCycle
  | edgeWeightNotFound
  | graphTraversal (event : DfsEvent)
  | incompatibleNodeTypes
  | nodeWeightNotFound
  | nodeWithIdNotFound (id : Ulid)
  | tooManyOrderingForNode (idx : Nat)
  | workspaceNeedsRebase
  | workspacesConflict
deriving DecidableEq

/-- One stored edge of the stable graph: endpoints plus weight. -/
structure GraphEdge where
  src : Nat
  tgt : Nat
  weight : EdgeWeight
deriving DecidableEq

/-- The workspace snapshot graph: stable node and edge slots plus the root
index (graph.rs `WorkspaceSnapshotGraph`). -/
structure WorkspaceSnapshotGraph where
  nodes : List (Option NodeWeight)
  edges : List (Option GraphEdge)
  rootIndex : Nat
deriving DecidableEq

/-- Active (non-removed) edges with their stable indices. -/
def WorkspaceSnapshotGraph.activeEdges (g : WorkspaceSnapshotGraph) : List (Nat × GraphEdge) :=
  g.edges.enum.filterMap (fun p =>
    match p.2 with
    | some e => some (p.1, e)
    | none => none)

/-- Outgoing edges of a node, most recently inserted first, matching the
iteration order of petgraph's `edges_directed(.., Outgoing)` on a stable
graph. -/
def WorkspaceSnapshotGraph.edgesDirectedOut
    (g : WorkspaceSnapshotGraph) (u : Nat) : List (Nat × GraphEdge) :=
  ((g.activeEdges).filter (fun p => p.2.src = u)).reverse

/-- petgraph `node_weight`: some for a live slot, none otherwise; graph.rs
wraps the miss in NodeWeightNotFound. -/
def WorkspaceSnapshotGraph.getNodeWeight
    (g : WorkspaceSnapshotGraph) (i : Nat) : Except GraphError NodeWeight :=
  match g.nodes.get? i with
  | some (some w) => .ok w
  | _ => .error .nodeWeightNotFound

def WorkspaceSnapshotGraph.getEdgeWeight
    (g : WorkspaceSnapshotGraph) (i : Nat) : Option EdgeWeight :=
  match g.edges.get? i with
  | some (some e) => some e.weight
  | _ => none

/-- petgraph `update_edge`: if an edge already connects the endpoints its
weight is replaced in place, otherwise a new edge slot is appended; returns
the edge index. -/
def WorkspaceSnapshotGraph.updateEdge (g : WorkspaceSnapshotGraph)
    (a b : Nat) (w : EdgeWeight) : WorkspaceSnapshotGraph × Nat :=
  match (g.activeEdges.find? (fun p => p.2.src = a && p.2.tgt = b)) with
  | some (i, _) => ({ g with edges := g.edges.set i (some ⟨a, b, w⟩) }, i)
  | none => ({ g with edges := g.edges ++ [some ⟨a, b, w⟩] }, g.edges.length)

/-- petgraph `remove_edge` on a stable graph: blanks the slot. -/
def WorkspaceSnapshotGraph.removeEdge
    (g : WorkspaceSnapshotGraph) (i : Nat) : WorkspaceSnapshotGraph :=
  { g with edges := g.edges.set i none }

/-- petgraph raw `add_node`: appends a node slot (used by
WorkspaceSnapshotGraph::new and copy_node_index, which do not recompute the
merkle hash). -/
def WorkspaceSnapshotGraph.rawAddNode (g : WorkspaceSnapshotGraph)
    (w : NodeWeight) : WorkspaceSnapshotGraph × Nat :=
  ({ g with nodes := g.nodes ++ [some w] }, g.nodes.length)

/-- One breadth step of reachability: everything already reached plus the
targets of edges leaving it. -/
def WorkspaceSnapshotGraph.reachStep
    (g : WorkspaceSnapshotGraph) (vs : List Nat) : List Nat :=
  (vs ++ g.activeEdges.filterMap (fun p =>
    if p.2.src ∈ vs then some p.2.tgt else none)).dedup

def WorkspaceSnapshotGraph.reachIter
    (g : WorkspaceSnapshotGraph) : Nat → List Nat → List Nat
  | 0, vs => vs
  | n + 1, vs => g.reachIter n (g.reachStep vs)

/-- All nodes reachable from `a` (reflexively); iterating one step per edge
slot saturates, since a shortest path repeats no edge. -/
def WorkspaceSnapshotGraph.reachSet
    (g : WorkspaceSnapshotGraph) (a : Nat) : List Nat :=
  g.reachIter g.edges.length [a]

/-- petgraph `algo::has_path_connecting` (true when the endpoints are
equal). -/
def WorkspaceSnapshotGraph.hasPathConnecting
    (g : WorkspaceSnapshotGraph) (a b : Nat) : Bool :=
  decide (b ∈ g.reachSet a)

def WorkspaceSnapshotGraph.hasPathToRoot
    (g : WorkspaceSnapshotGraph) (n : Nat) : Bool :=
  g.hasPathConnecting g.rootIndex n

/-- graph.rs `is_acyclic_directed`, via the toposort characterisation: a
directed graph is acyclic iff no edge closes a path back to its source. -/
def WorkspaceSnapshotGraph.isAcyclicDirected (g : WorkspaceSnapshotGraph) : Bool :=
  g.activeEdges.all (fun p => !(g.hasPathConnecting p.2.tgt p.2.src))

/-- graph.rs `is_on_path_between`. -/
def WorkspaceSnapshotGraph.isOnPathBetween
    (g : WorkspaceSnapshotGraph) (a b n : Nat) : Bool :=
  g.hasPathConnecting a n && g.hasPathConnecting n b

/-- Insertion sort on naturals (the neighbor sort of
update_merkle_tree_hash). -/
def insertSortedNat (x : Nat) : List Nat → List Nat
  | [] => [x]
  | y :: ys => if x ≤ y then x :: y :: ys else y :: insertSortedNat x ys

def sortNat : List Nat → List Nat
  | [] => []
  | x :: xs => insertSortedNat x (sortNat xs)

/-- graph.rs `update_merkle_tree_hash`: feed the node content hash, then the
merkle hashes of the outgoing neighbors sorted by node index, and store the
digest on the node. -/
def WorkspaceSnapshotGraph.updateMerkleTreeHash (g : WorkspaceSnapshotGraph)
    (i : Nat) : Except GraphError WorkspaceSnapshotGraph := do
  let w ← g.getNodeWeight i
  let hasher0 := ContentHasher.init.update w.contentHash.toBytes
  let orderedNeighbors := sortNat ((g.edgesDirectedOut i).map (fun p => p.2.tgt))
  let hasher ← orderedNeighbors.foldlM (fun h t => do
    let tw ← g.getNodeWeight t
    pure (h.update tw.merkleTreeHash.toBytes)) hasher0
  pure { g with nodes := g.nodes.set i (some (w.setMerkleTreeHash hasher.finalize)) }

/-- graph.rs `add_node`: insert, then compute the initial merkle hash. -/
def WorkspaceSnapshotGraph.addNode (g : WorkspaceSnapshotGraph)
    (w : NodeWeight) : Except GraphError (WorkspaceSnapshotGraph × Nat) := do
  let (g1, i) := g.rawAddNode w
  let g2 ← g1.updateMerkleTreeHash i
  pure (g2, i)

/-- graph.rs `copy_node_index`: raw insert of the weight with incremented
vector clocks (no merkle recomputation here). -/
def WorkspaceSnapshotGraph.copyNodeIndex (g : WorkspaceSnapshotGraph)
    (cs : ChangeSet) (i : Nat) : Except GraphError (WorkspaceSnapshotGraph × Nat) := do
  let w ← g.getNodeWeight i
  pure (g.rawAddNode (w.newWithIncrementedVectorClock cs))

/-- graph.rs `cleanup`: retain exactly the nodes with a path from the root;
petgraph drops the edges incident to removed nodes. -/
def WorkspaceSnapshotGraph.cleanup (g : WorkspaceSnapshotGraph) : WorkspaceSnapshotGraph :=
  let keep := g.reachSet g.rootIndex
  { nodes := g.nodes.enum.map (fun p =>
      match p.2 with
      | some w => if p.1 ∈ keep then some w else none
      | none => none)
    edges := g.edges.map (fun oe =>
      match oe with
      | some e => if e.src ∈ keep && e.tgt ∈ keep then some e else none
      | none => none)
    rootIndex := g.rootIndex }

/-- graph.rs `get_node_index_by_id`: first index (in node-index order) that
is reachable from the root and has the id. -/
def WorkspaceSnapshotGraph.getNodeIndexById (g : WorkspaceSnapshotGraph)
    (id : Ulid) : Except GraphError Nat :=
  match g.nodes.enum.find? (fun p =>
    match p.2 with
    | some w => g.hasPathToRoot p.1 && w.id = id
    | none => false) with
  | some (i, _) => .ok i
  | none => .error (.nodeWithIdNotFound id)

/-- graph.rs `get_node_index_by_lineage`: every content node with the
lineage id, in node-index order (the lookup in the loop cannot miss, so the
result is pure). -/
def WorkspaceSnapshotGraph.getNodeIndexByLineage (g : WorkspaceSnapshotGraph)
    (lineage : Ulid) : List Nat :=
  g.nodes.enum.filterMap (fun p =>
    match p.2 with
    | some (NodeWeight.content w) => if w.lineageId = lineage then some p.1 else none
    | _ => none)

/-- Postorder DFS (petgraph DfsPostOrder): children are explored in the
order `edgesDirectedOut` yields them; a node is emitted after its
successors.  Fuel bounds the recursion depth; one unit per first visit
suffices, so nodes + edges + 2 units always do. -/
def WorkspaceSnapshotGraph.dfsPostAux (g : WorkspaceSnapshotGraph) :
    Nat → Nat → List Nat → List Nat × List Nat
  | 0, _, vis => (vis, [])
  | fuel + 1, u, vis =>
    if u ∈ vis then (vis, [])
    else
      let start : List Nat × List Nat := (u :: vis, [])
      let res := ((g.edgesDirectedOut u).map (fun p => p.2.tgt)).foldl
        (fun acc v =>
          if v ∈ acc.1 then acc
          else
            let next := g.dfsPostAux fuel v acc.1
            (next.1, acc.2 ++ next.2))
        start
      (res.1, res.2 ++ [u])

def WorkspaceSnapshotGraph.dfsPostOrder
    (g : WorkspaceSnapshotGraph) (start : Nat) : List Nat :=
  (g.dfsPostAux (g.nodes.length + g.edges.length + 2) start []).2

/-- Loop body state of `replace_references`: the graph, the old-to-new index
map, and the first error hit (the Rust `?` stops the loop and keeps the
partial state). -/
def WorkspaceSnapshotGraph.replaceReferencesAux (cs : ChangeSet) (original : Nat) :
    List Nat → WorkspaceSnapshotGraph → List (Nat × Nat) →
    WorkspaceSnapshotGraph × List (Nat × Nat) × Option GraphError
  | [], g, m => (g, m, none)
  | oldNode :: rest, g, m =>
    if g.isOnPathBetween g.rootIndex original oldNode then
      -- copy the node if unseen, or reuse the existing copy
      match
        (match (m.lookup oldNode) with
        | some found => Except.ok (g, m, found)
        | none =>
          match g.copyNodeIndex cs oldNode with
          | .error e => Except.error e
          | .ok (g1, newIdx) => Except.ok (g1, (oldNode, newIdx) :: m, newIdx)) with
      | .error e => (g, m, some e)
      | .ok (g1, m1, newIdx) =>
        -- collect the outgoing edges (every stored edge has endpoints)
        let edgesToCreate := (g1.edgesDirectedOut oldNode).map
          (fun p => (p.2.weight.newWithIncrementedVectorClocks cs, p.2.tgt))
        -- recreate each edge from the copy, mapping copied destinations
        let g2 := edgesToCreate.foldl
          (fun gAcc ed =>
            (gAcc.updateEdge newIdx ((m1.lookup ed.2).getD ed.2) ed.1).1)
          g1
        match g2.updateMerkleTreeHash newIdx with
        | .error e => (g2, m1, some e)
        | .ok g3 =>
          -- use the new version of the old root node as the root
          let g4 :=
            match m1.lookup g3.rootIndex with
            | some newRoot => { g3 with rootIndex := newRoot }
            | none => g3
          WorkspaceSnapshotGraph.replaceReferencesAux cs original rest g4 m1
    else
      WorkspaceSnapshotGraph.replaceReferencesAux cs original rest g m

/-- graph.rs `replace_references`.  The postorder sequence is computed on
the entry graph: the loop only ever adds nodes that the old root cannot
reach and edges that leave them, so the lazily advanced Rust iterator sees
the same sequence. -/
def WorkspaceSnapshotGraph.replaceReferences (g : WorkspaceSnapshotGraph)
    (cs : ChangeSet) (original newIdx : Nat) :
    WorkspaceSnapshotGraph × Option GraphError :=
  let po := g.dfsPostOrder g.rootIndex
  let res := WorkspaceSnapshotGraph.replaceReferencesAux cs original po g [(original, newIdx)]
  (res.1, res.2.2)

/-- graph.rs `add_edge`: tentatively insert the edge and undo it, failing
with CreateGraphCycle if the graph stopped being acyclic; otherwise advance
the edge clocks, copy the source node, attach the edge to the copy, rehash
it, and run replace_references. -/
def WorkspaceSnapshotGraph.addEdge (g : WorkspaceSnapshotGraph) (cs : ChangeSet)
    (fromIdx : Nat) (edgeWeight : EdgeWeight) (toIdx : Nat) :
    WorkspaceSnapshotGraph × Except GraphError Nat :=
  let (g1, tempEdge) := g.updateEdge fromIdx toIdx edgeWeight
  let wouldCreateACycle := !g1.isAcyclicDirected
  let g2 := g1.removeEdge tempEdge
  if wouldCreateACycle then (g2, .error .createGraphCycle)
  else
    let w2 := edgeWeight.incrementVectorClocks cs
    match g2.copyNodeIndex cs fromIdx with
    | .error e => (g2, .error e)
    | .ok (g3, newFromIdx) =>
      let (g4, newEdgeIdx) := g3.updateEdge newFromIdx toIdx w2
      match g4.updateMerkleTreeHash newFromIdx with
      | .error e => (g4, .error e)
      | .ok g5 =>
        match g5.replaceReferences cs fromIdx newFromIdx with
        | (g6, some e) => (g6, .error e)
        | (g6, none) => (g6, .ok newEdgeIdx)

/-- graph.rs `update_content`: resolve the id among nodes reachable from the
root, copy the node, swap its content hash, and replace references. -/
def WorkspaceSnapshotGraph.updateContent (g : WorkspaceSnapshotGraph)
    (cs : ChangeSet) (id : Ulid) (newContentHash : ContentHash) :
    WorkspaceSnapshotGraph × Option GraphError :=
  match g.getNodeIndexById id with
  | .error e => (g, some e)
  | .ok originalIdx =>
    match g.copyNodeIndex cs originalIdx with
    | .error e => (g, some e)
    | .ok (g1, newIdx) =>
      match g1.getNodeWeight newIdx with
      | .error e => (g1, some e)
      | .ok w =>
        let g2 := { g1 with
          nodes := g1.nodes.set newIdx (some (w.withNewContentHash newContentHash)) }
        g2.replaceReferences cs originalIdx newIdx

/-- graph.rs `import_subgraph`: postorder copy of the other subgraph; each
copied node goes through add_node (which rehashes it before its outgoing
edges exist), then its outgoing edges are recreated toward the copies. -/
def importEdgeStep (m1 : List (Nat × Nat)) (newIdx : Nat)
    (gAcc : WorkspaceSnapshotGraph) (p : Nat × GraphEdge) :
    Except GraphError WorkspaceSnapshotGraph :=
  match m1.lookup p.2.tgt with
  | some mapped => .ok (gAcc.updateEdge newIdx mapped p.2.weight).1
  | none => .error GraphError.nodeWeightNotFound

def WorkspaceSnapshotGraph.importSubgraphAux (other : WorkspaceSnapshotGraph) :
    List Nat → WorkspaceSnapshotGraph → List (Nat × Nat) →
    Except GraphError (WorkspaceSnapshotGraph × List (Nat × Nat))
  | [], g, m => .ok (g, m)
  | idx :: rest, g, m => do
    let w ← other.getNodeWeight idx
    let (g1, newIdx) ← g.addNode w
    let m1 := (idx, newIdx) :: m
    let g2 ← (other.edgesDirectedOut idx).foldlM (importEdgeStep m1 newIdx) g1
    WorkspaceSnapshotGraph.importSubgraphAux other rest g2 m1

def WorkspaceSnapshotGraph.importSubgraph (g : WorkspaceSnapshotGraph)
    (other : WorkspaceSnapshotGraph) (rootIdx : Nat) :
    Except GraphError (WorkspaceSnapshotGraph × Nat) := do
  let po := other.dfsPostOrder rootIdx
  let (g1, m) ← WorkspaceSnapshotGraph.importSubgraphAux other po g []
  match m.lookup rootIdx with
  | some newRoot => pure (g1, newRoot)
  | none => throw GraphError.nodeWeightNotFound

/-- graph.rs `new`: a graph holding one root content node, inserted with the
raw petgraph add_node (no merkle recomputation).  The ulid that the change
set generates for the root is passed explicitly. -/
def WorkspaceSnapshotGraph.newGraph (cs : ChangeSet) (rootId : Ulid) :
    WorkspaceSnapshotGraph :=
  { nodes := [some (NodeWeight.newContent cs rootId ContentAddress.root)]
    edges := []
    rootIndex := 0 }

/-- graph.rs `ordering_node_indexes_for_node_index`: targets of Ordering
edges whose destination weight is an Ordering node. -/
def orderingNodeIndexesForNodeIndex
    (g : WorkspaceSnapshotGraph) (i : Nat) : List Nat :=
  (g.edgesDirectedOut i).filterMap (fun p =>
    if p.2.weight.kind = EdgeWeightKind.ordering then
      match g.nodes.get? p.2.tgt with
      | some (some (NodeWeight.ordering _)) => some p.2.tgt
      | _ => none
    else none)

/-- UniqueEdgeInfo of graph.rs: kind plus target lineage. -/
abbrev UniqueEdgeInfo := EdgeWeightKind × Ulid

/-- EdgeInfo of graph.rs: target node index plus edge index. -/
structure EdgeInfo where
  targetNodeIndex : Nat
  edgeIndex : Nat
deriving DecidableEq

/-- Insert-with-overwrite for the HashMap of unique edges (last insertion
for a key wins, as in the Rust build loops). -/
def uniqueEdgeInsert (m : List (UniqueEdgeInfo × EdgeInfo))
    (k : UniqueEdgeInfo) (v : EdgeInfo) : List (UniqueEdgeInfo × EdgeInfo) :=
  if (m.find? (fun p => p.1 = k)).isSome then
    m.map (fun p => if p.1 = k then (k, v) else p)
  else m ++ [(k, v)]

/-- Unique-edge map of a container: one entry per (kind, target lineage),
built in edge-iteration order. -/
def WorkspaceSnapshotGraph.uniqueEdges (g : WorkspaceSnapshotGraph)
    (container : Nat) : Except GraphError (List (UniqueEdgeInfo × EdgeInfo)) :=
  (g.edgesDirectedOut container).foldlM
    (fun m p => do
      let tw ← g.getNodeWeight p.2.tgt
      pure (uniqueEdgeInsert m (p.2.weight.kind, tw.lineageId)
        ⟨p.2.tgt, p.1⟩))
    []

/-- Loop body of find_unordered_container_membership_conflicts_and_updates
for an edge present only in to_rebase: nothing when the edge has no
first-seen entry for onto; otherwise a ModifyRemovedItem conflict when the
target's write entry for to_rebase exceeds the root recently-seen pivot
(Option ordering), else a RemoveEdge update. -/
def unorderedOnlyToRebaseStep (self : WorkspaceSnapshotGraph)
    (toRebaseCs ontoCs : ChangeSet) (rootSeenAsOfOnto : Option Nat)
    (acc : List Conflict × List Update) (p : UniqueEdgeInfo × EdgeInfo) :
    Except GraphError (List Conflict × List Update) :=
  match self.getEdgeWeight p.2.edgeIndex with
  | none => .error GraphError.edgeWeightNotFound
  | some toRebaseEdgeWeight =>
    match self.getNodeWeight p.2.targetNodeIndex with
    | .error e => .error e
    | .ok toRebaseItemWeight =>
      -- an edge onto has never seen is new on this side: no action
      if (toRebaseEdgeWeight.vectorClockFirstSeen.entryFor ontoCs).isSome then
        if optNatGt (toRebaseItemWeight.vectorClockWrite.entryFor toRebaseCs)
            rootSeenAsOfOnto then
          .ok (acc.1 ++ [Conflict.modifyRemovedItem p.2.targetNodeIndex], acc.2)
        else
          .ok (acc.1, acc.2 ++ [Update.removeEdge p.2.edgeIndex])
      else
        .ok acc

/-- Loop body for an edge present only in onto: a NewEdge update when the
edge's first-seen entry for onto exists and strictly exceeds the (present)
root recently-seen pivot; a RemoveModifiedItem conflict when the first-seen
entry is absent, the pivot is present and the target's write clock has
entries newer than it; nothing otherwise. -/
def unorderedOnlyOntoStep (onto : WorkspaceSnapshotGraph)
    (ontoCs : ChangeSet) (toRebaseContainerIdx : Nat)
    (rootSeenAsOfOnto : Option Nat)
    (acc : List Conflict × List Update) (p : UniqueEdgeInfo × EdgeInfo) :
    Except GraphError (List Conflict × List Update) :=
  match onto.getEdgeWeight p.2.edgeIndex with
  | none => .error GraphError.edgeWeightNotFound
  | some ontoEdgeWeight =>
    match onto.getNodeWeight p.2.targetNodeIndex with
    | .error e => .error e
    | .ok ontoItemWeight =>
      match ontoEdgeWeight.vectorClockFirstSeen.entryFor ontoCs with
      | some ontoFirstSeen =>
        (match rootSeenAsOfOnto with
        | some rootSeenAsOf =>
          if rootSeenAsOf < ontoFirstSeen then
            .ok (acc.1, acc.2 ++ [Update.newEdge toRebaseContainerIdx
              p.2.targetNodeIndex ontoEdgeWeight])
          else
            .ok acc
        | none => .ok acc)
      | none =>
        match rootSeenAsOfOnto with
        | some rootSeenAsOf =>
          if ontoItemWeight.vectorClockWrite.hasEntriesNewerThan rootSeenAsOf then
            .ok (acc.1 ++ [Conflict.removeModifiedItem toRebaseContainerIdx
              p.2.targetNodeIndex], acc.2)
          else
            .ok acc
        | none => .ok acc

/-- graph.rs `find_unordered_container_membership_conflicts_and_updates`.
The iteration order over the hash-map values is the deterministic insertion
order of the model (the Rust HashMap order is unspecified); the claims are
stated per edge, so only membership matters. -/
def WorkspaceSnapshotGraph.findUnorderedContainerMembershipConflictsAndUpdates
    (self : WorkspaceSnapshotGraph) (toRebaseCs : ChangeSet)
    (toRebaseContainerIdx : Nat) (onto : WorkspaceSnapshotGraph)
    (ontoCs : ChangeSet) (ontoContainerIdx : Nat) :
    Except GraphError (List Conflict × List Update) := do
  let toRebaseEdges ← self.uniqueEdges toRebaseContainerIdx
  let ontoEdges ← onto.uniqueEdges ontoContainerIdx
  let onlyToRebaseEdges := toRebaseEdges.filter
    (fun p => (ontoEdges.find? (fun q => q.1 = p.1)).isNone)
  let onlyOntoEdges := ontoEdges.filter
    (fun p => (toRebaseEdges.find? (fun q => q.1 = p.1)).isNone)
  let rootW ← self.getNodeWeight self.rootIndex
  let rootSeenAsOfOnto := rootW.vectorClockRecentlySeen.entryFor ontoCs
  let (conflicts, updates) ← onlyToRebaseEdges.foldlM
    (unorderedOnlyToRebaseStep self toRebaseCs ontoCs rootSeenAsOfOnto) ([], [])
  let (conflicts, updates) ← onlyOntoEdges.foldlM
    (unorderedOnlyOntoStep onto ontoCs toRebaseContainerIdx rootSeenAsOfOnto)
    (conflicts, updates)
  pure (conflicts, updates)

/-- graph.rs `find_ordered_container_membership_conflicts_and_updates`. -/
def WorkspaceSnapshotGraph.findOrderedContainerMembershipConflictsAndUpdates
    (self : WorkspaceSnapshotGraph) (toRebaseCs : ChangeSet)
    (toRebaseContainerIdx toRebaseOrderingIdx : Nat)
    (onto : WorkspaceSnapshotGraph) (ontoCs : ChangeSet)
    (ontoContainerIdx ontoOrderingIdx : Nat) :
    Except GraphError (List Conflict × List Update) := do
  let ontoOrdering ←
    match onto.getNodeWeight ontoOrderingIdx with
    | .ok (NodeWeight.ordering o) => pure o
    | .ok _ => throw GraphError.incompatibleNodeTypes
    | .error e => throw e
  let toRebaseOrdering ←
    match self.getNodeWeight toRebaseOrderingIdx with
    | .ok (NodeWeight.ordering o) => pure o
    | .ok _ => throw GraphError.incompatibleNodeTypes
    | .error e => throw e
  if ontoOrdering.order = toRebaseOrdering.order then
    pure ([], [])
  else if ontoOrdering.vectorClockWrite.isNewerThan
      toRebaseOrdering.vectorClockWrite then
    -- onto supersedes: add the onto-only items, drop the to_rebase-only
    -- ones, and adopt the onto ordering
    let newItems := ontoOrdering.order.filter
      (fun x => x ∉ toRebaseOrdering.order)
    let removedItems := toRebaseOrdering.order.filter
      (fun x => x ∉ ontoOrdering.order)
    let updates1 ← (onto.edgesDirectedOut ontoContainerIdx).foldlM
      (fun (ups : List Update) p => do
        let w ← onto.getNodeWeight p.2.tgt
        if w.id ∈ newItems then
          pure (ups ++ [Update.newEdge toRebaseContainerIdx p.2.tgt p.2.weight])
        else
          pure ups)
      []
    let updates2 ← (self.edgesDirectedOut toRebaseContainerIdx).foldlM
      (fun (ups : List Update) p => do
        let w ← self.getNodeWeight p.2.tgt
        if w.id ∈ removedItems then
          pure (ups ++ [Update.removeEdge p.1])
        else
          pure ups)
      updates1
    pure ([], updates2 ++ [Update.replaceSubgraph ontoOrderingIdx toRebaseOrderingIdx])
  else if toRebaseOrdering.vectorClockWrite.isNewerThan
      ontoOrdering.vectorClockWrite then
    pure ([], [])
  else
    -- concurrent ordering writes
    let onlyOntoItems := ontoOrdering.order.filter
      (fun x => x ∉ toRebaseOrdering.order)
    let onlyToRebaseItems := toRebaseOrdering.order.filter
      (fun x => x ∉ ontoOrdering.order)
    let onlyToRebaseItemIndexes ←
      (self.edgesDirectedOut toRebaseContainerIdx).foldlM
        (fun (m : List (Ulid × Nat)) p => do
          let w ← self.getNodeWeight p.2.tgt
          if w.id ∈ onlyToRebaseItems then
            pure ((w.id, p.2.tgt) :: m.filter (fun q => q.1 ≠ w.id))
          else
            pure m)
        []
    let (conflicts, updates) ← onlyToRebaseItems.foldlM
      (fun acc item => do
        let (cfs, ups) := acc
        let itemIdx ←
          match onlyToRebaseItemIndexes.lookup item with
          | some i => pure i
          | none => throw (GraphError.nodeWithIdNotFound item)
        ((self.edgesDirectedOut toRebaseContainerIdx).filter
            (fun p => p.2.tgt = itemIdx)).foldlM
          (fun acc2 p => do
            let (cfs2, ups2) := acc2
            if (p.2.weight.vectorClockFirstSeen.entryFor ontoCs).isNone then
              -- new on the to_rebase side
              pure (cfs2, ups2)
            else do
              let iw ← self.getNodeWeight itemIdx
              if (iw.vectorClockWrite.entryFor toRebaseCs).isSome then
                pure (cfs2 ++ [Conflict.modifyRemovedItem itemIdx], ups2)
              else
                pure (cfs2, ups2 ++ [Update.removeEdge p.1]))
          (cfs, ups))
      ([], [])
    let onlyOntoItemIndexes ←
      (onto.edgesDirectedOut ontoContainerIdx).foldlM
        (fun (m : List (Ulid × Nat)) p => do
          let w ← onto.getNodeWeight p.2.tgt
          if w.id ∈ onlyOntoItems then
            pure ((w.id, p.2.tgt) :: m.filter (fun q => q.1 ≠ w.id))
          else
            pure m)
        []
    let rootW ← self.getNodeWeight self.rootIndex
    let ontoRootSeenAsOf := rootW.vectorClockRecentlySeen.entryFor ontoCs
    let (conflicts, updates) ← onlyOntoItems.foldlM
      (fun acc item => do
        let (cfs, ups) := acc
        let itemIdx ←
          match onlyOntoItemIndexes.lookup item with
          | some i => pure i
          | none => throw (GraphError.nodeWithIdNotFound item)
        ((onto.edgesDirectedOut ontoContainerIdx).filter
            (fun p => p.2.tgt = itemIdx)).foldlM
          (fun acc2 p => do
            let (cfs2, ups2) := acc2
            match p.2.weight.vectorClockFirstSeen.entryFor ontoCs with
            | some ontoFirstSeen =>
              match ontoRootSeenAsOf with
              | some rootSeenAsOf =>
                if rootSeenAsOf < ontoFirstSeen then
                  pure (cfs2, ups2 ++ [Update.newEdge toRebaseContainerIdx
                    p.2.tgt p.2.weight])
                else
                  pure (cfs2, ups2)
              | none => pure (cfs2, ups2)
            | none =>
              match onto.getNodeWeight itemIdx with
              | .ok iw =>
                match ontoRootSeenAsOf with
                | some rootSeenAsOf =>
                  if iw.vectorClockWrite.hasEntriesNewerThan rootSeenAsOf then
                    pure (cfs2 ++ [Conflict.removeModifiedItem
                      toRebaseContainerIdx itemIdx], ups2)
                  else
                    pure (cfs2, ups2)
                | none => pure (cfs2, ups2)
              | .error _ => pure (cfs2, ups2))
          (cfs, ups))
      (conflicts, updates)
    pure (conflicts, updates)

/-- Outcome of the candidate loop inside the Discover arm of
`detect_conflicts_and_updates_process_dfs_event`: either the loop ran to the
end (carrying the lazily cached onto ordering index and the
`any_content_with_lineage_has_changed` flag) or the ordered-container branch
returned Control::Continue early. -/
inductive CandidateLoopResult where
  | finished (ontoOrderingCache : Option Nat) (anyChanged : Bool)
      (conflicts : List Conflict) (updates : List Update)
  | earlyContinue (conflicts : List Conflict) (updates : List Update)
deriving DecidableEq

/-- Body of the loop over `to_rebase_node_indexes` in
`detect_conflicts_and_updates_process_dfs_event`, one candidate at a time.
The dead `onto_edges` and `onto_order_set` caches of the source (written but
never read) are omitted. -/
def detectCandidateStep (self : WorkspaceSnapshotGraph) (toRebaseCs : ChangeSet)
    (onto : WorkspaceSnapshotGraph) (ontoCs : ChangeSet) (event : DfsEvent)
    (ontoIdx : Nat) (ontoW : NodeWeight) (cand : Nat)
    (ontoOrderingCache : Option Nat) (anyChanged : Bool)
    (conflicts : List Conflict) (updates : List Update) :
    Except DfsEvent CandidateLoopResult :=
  match self.getNodeWeight cand with
  | .error _ => .error event
  | .ok toRebaseW =>
    if ontoW.merkleTreeHash = toRebaseW.merkleTreeHash then
      -- identical merkle hashes: the whole subgraph matches, skip
      .ok (.finished ontoOrderingCache anyChanged conflicts updates)
    else
      let anyChanged := true
      let (conflicts, updates) :=
        if ontoW.contentHash ≠ toRebaseW.contentHash then
          if toRebaseW.vectorClockWrite.isNewerThan ontoW.vectorClockWrite then
            -- to_rebase already saw everything in onto: nothing to do
            (conflicts, updates)
          else if ontoW.vectorClockWrite.isNewerThan toRebaseW.vectorClockWrite then
            (conflicts, updates ++ [Update.replaceSubgraph ontoIdx cand])
          else
            (conflicts ++ [Conflict.nodeContent cand ontoIdx], updates)
        else (conflicts, updates)
      -- lazily fetch the onto ordering child (at most one allowed)
      match
        (match ontoOrderingCache with
        | some i => Except.ok (some i)
        | none =>
          let idxs := orderingNodeIndexesForNodeIndex onto ontoIdx
          if idxs.length > 1 then Except.error event
          else Except.ok (idxs.get? 0)) with
      | .error e => .error e
      | .ok ontoOrderingCache =>
        let toRebaseOrderingIdxs := orderingNodeIndexesForNodeIndex self cand
        if toRebaseOrderingIdxs.length > 1 then .error event
        else
          match toRebaseOrderingIdxs.get? 0, ontoOrderingCache with
          | none, none =>
            match self.findUnorderedContainerMembershipConflictsAndUpdates
                toRebaseCs cand onto ontoCs ontoIdx with
            | .error _ => .error event
            | .ok (containerConflicts, containerUpdates) =>
              .ok (.finished ontoOrderingCache anyChanged
                (conflicts ++ containerConflicts) (updates ++ containerUpdates))
          | none, some _ => .error event
          | some _, none => .error event
          | some toRebaseOrderingIdx, some ontoOrderingIdx =>
            match self.findOrderedContainerMembershipConflictsAndUpdates
                toRebaseCs cand toRebaseOrderingIdx onto ontoCs ontoIdx
                ontoOrderingIdx with
            | .error _ => .error event
            | .ok (containerConflicts, containerUpdates) =>
              .ok (.earlyContinue
                (conflicts ++ containerConflicts) (updates ++ containerUpdates))

def detectCandidateLoop (self : WorkspaceSnapshotGraph) (toRebaseCs : ChangeSet)
    (onto : WorkspaceSnapshotGraph) (ontoCs : ChangeSet) (event : DfsEvent)
    (ontoIdx : Nat) (ontoW : NodeWeight) :
    List Nat → Option Nat → Bool → List Conflict → List Update →
    Except DfsEvent CandidateLoopResult
  | [], cache, anyChanged, conflicts, updates =>
    .ok (.finished cache anyChanged conflicts updates)
  | cand :: rest, cache, anyChanged, conflicts, updates =>
    match detectCandidateStep self toRebaseCs onto ontoCs event ontoIdx ontoW
        cand cache anyChanged conflicts updates with
    | .error e => .error e
    | .ok (.earlyContinue cfs ups) => .ok (.earlyContinue cfs ups)
    | .ok (.finished cache2 changed2 cfs ups) =>
      detectCandidateLoop self toRebaseCs onto ontoCs event ontoIdx ontoW
        rest cache2 changed2 cfs ups

/-- Candidate lookup of the Discover arm: the only candidate for a Root
content node is the to_rebase root (root lineage is not globally stable);
other content nodes look up every node with the same lineage; non-content
nodes have no candidates. -/
def detectToRebaseCandidates (self : WorkspaceSnapshotGraph)
    (ontoW : NodeWeight) : List Nat :=
  match ontoW with
  | .content cw =>
    if cw.contentAddress = ContentAddress.root then [self.rootIndex]
    else self.getNodeIndexByLineage cw.lineageId
  | .ordering _ => []

/-- graph.rs `detect_conflicts_and_updates_process_dfs_event`. -/
def detectProcessDfsEvent (self : WorkspaceSnapshotGraph)
    (toRebaseCs : ChangeSet) (onto : WorkspaceSnapshotGraph)
    (ontoCs : ChangeSet) (event : DfsEvent)
    (conflicts : List Conflict) (updates : List Update) :
    Except DfsEvent (DfsControl × List Conflict × List Update) :=
  match event with
  | .discover ontoIdx =>
    match onto.getNodeWeight ontoIdx with
    | .error _ => .error event
    | .ok ontoW =>
      match detectCandidateLoop self toRebaseCs onto ontoCs event ontoIdx ontoW
          (detectToRebaseCandidates self ontoW) none false conflicts updates with
      | .error e => .error e
      | .ok (.earlyContinue cfs ups) => .ok (.continue, cfs, ups)
      | .ok (.finished _ anyChanged cfs ups) =>
        .ok (if anyChanged then .continue else .prune, cfs, ups)
  | _ => .ok (.continue, conflicts, updates)

/-- Neighbor loop of petgraph::visit::depth_first_search: deliver TreeEdge
and recurse for undiscovered targets, BackEdge for discovered-unfinished
ones, CrossForwardEdge for finished ones.  The recursion into a child is
passed in, so the loop is structural on the neighbor list. -/
def detectDfsNeighborsWith
    (processEvent : DfsEvent → List Conflict → List Update →
      Except DfsEvent (DfsControl × List Conflict × List Update))
    (visitChild : Nat → List Nat → List Nat → List Conflict → List Update →
      Except DfsEvent (List Nat × List Nat × List Conflict × List Update)) :
    Nat → List Nat → List Nat → List Nat → List Conflict → List Update →
    Except DfsEvent (List Nat × List Nat × List Conflict × List Update)
  | _, [], disc, fin, conflicts, updates => .ok (disc, fin, conflicts, updates)
  | u, v :: vs, disc, fin, conflicts, updates =>
    if v ∉ disc then
      match processEvent (.treeEdge u v) conflicts updates with
      | .error e => .error e
      | .ok (ctl, conflicts, updates) =>
        match
          (match ctl with
          | .prune => Except.ok (disc, fin, conflicts, updates)
          | .continue => visitChild v disc fin conflicts updates) with
        | .error e => .error e
        | .ok (disc, fin, conflicts, updates) =>
          detectDfsNeighborsWith processEvent visitChild u vs disc fin
            conflicts updates
    else if v ∉ fin then
      match processEvent (.backEdge u v) conflicts updates with
      | .error e => .error e
      | .ok (_, conflicts, updates) =>
        detectDfsNeighborsWith processEvent visitChild u vs disc fin
          conflicts updates
    else
      match processEvent (.crossForwardEdge u v) conflicts updates with
      | .error e => .error e
      | .ok (_, conflicts, updates) =>
        detectDfsNeighborsWith processEvent visitChild u vs disc fin
          conflicts updates

/-- Node visit of petgraph::visit::depth_first_search specialised to the
detect visitor: Discover, then (unless pruned) the neighbor loop, then
Finish.  Fuel bounds the recursion depth; a unit is spent per first visit,
so nodes + edges + 2 units always reach saturation. -/
def detectDfsVisit (self : WorkspaceSnapshotGraph) (toRebaseCs : ChangeSet)
    (onto : WorkspaceSnapshotGraph) (ontoCs : ChangeSet) :
    Nat → Nat → List Nat → List Nat → List Conflict → List Update →
    Except DfsEvent (List Nat × List Nat × List Conflict × List Update)
  | 0, _, disc, fin, conflicts, updates => .ok (disc, fin, conflicts, updates)
  | fuel + 1, u, disc, fin, conflicts, updates =>
    match detectProcessDfsEvent self toRebaseCs onto ontoCs (.discover u)
        conflicts updates with
    | .error e => .error e
    | .ok (ctl, conflicts, updates) =>
      let disc := u :: disc
      match
        (match ctl with
        | .prune => Except.ok (disc, fin, conflicts, updates)
        | .continue =>
          detectDfsNeighborsWith
            (detectProcessDfsEvent self toRebaseCs onto ontoCs)
            (fun v d f c up =>
              detectDfsVisit self toRebaseCs onto ontoCs fuel v d f c up)
            u ((onto.edgesDirectedOut u).map (fun (p : Nat × GraphEdge) => p.2.tgt))
            disc fin conflicts updates) with
      | .error e => .error e
      | .ok (disc, fin, conflicts, updates) =>
        let fin := u :: fin
        match detectProcessDfsEvent self toRebaseCs onto ontoCs (.finish u)
            conflicts updates with
        | .error e => .error e
        | .ok (_, conflicts, updates) => .ok (disc, fin, conflicts, updates)

/-- graph.rs `detect_conflicts_and_updates`: depth-first search over the
onto graph from its root, collecting conflicts and updates; a traversal
error is wrapped in GraphTraversal. -/
def WorkspaceSnapshotGraph.detectConflictsAndUpdates
    (self : WorkspaceSnapshotGraph) (toRebaseCs : ChangeSet)
    (onto : WorkspaceSnapshotGraph) (ontoCs : ChangeSet) :
    Except GraphError (List Conflict × List Update) :=
  match detectDfsVisit self toRebaseCs onto ontoCs
      (onto.nodes.length + onto.edges.length + 2) onto.rootIndex
      [] [] [] [] with
  | .error e => .error (.graphTraversal e)
  | .ok (_, _, conflicts, updates) => .ok (conflicts, updates)

/-- WorkflowError from workflow.rs.  The enum has no RecursiveWorkflow
variant; the wrapped foreign errors are collapsed to tags. -/
inductive WorkflowError where
  | standardModel
  | serde
  | funcBinding
  | missingWorkflow (name : String)
  | missingCommand (name : String)
  | commandNotPrepared (id : Nat)
deriving DecidableEq

/-- WorkflowKind from workflow.rs. -/
inductive WorkflowKind where
  | conditional
  | exceptional
  | parallel
deriving DecidableEq

/-- WorkflowStep from workflow.rs; json argument values are modelled as
naturals. -/
inductive WorkflowStep where
  | workflow (name : String) (args : List Nat)
  | command (name : String) (args : List Nat)
deriving DecidableEq

/-- WorkflowView from workflow.rs. -/
structure WorkflowView where
  name : String
  kind : WorkflowKind
  steps : List WorkflowStep
  args : List Nat
deriving DecidableEq

/-- Func binding, modelled by its id (the only part the workflow engine
inspects). -/
structure FuncBinding where
  id : Nat
deriving DecidableEq

mutual

/-- WorkflowTreeStep from workflow.rs. -/
inductive WorkflowTreeStep where
  | workflow (tree : WorkflowTree)
  | command (funcBinding : FuncBinding)

/-- WorkflowTree from workflow.rs. -/
inductive WorkflowTree where
  | mk (name : String) (kind : WorkflowKind) (steps : List WorkflowTreeStep)

end

def WorkflowTree.name : WorkflowTree → String
  | .mk n _ _ => n

def WorkflowTree.kind : WorkflowTree → WorkflowKind
  | .mk _ k _ => k

def WorkflowTree.steps : WorkflowTree → List WorkflowTreeStep
  | .mk _ _ s => s

/-- Outcome of running embedded workflow code: a value, a typed error, or a
Rust panic (the panic message is carried so that panicking and returning an
error stay distinguishable). -/
inductive RunOutcome (α : Type) where
  | ok (value : α)
  | err (e : WorkflowError)
  | panicked (msg : String)

/-- External resolver environment of WorkflowView::resolve: what
Func::find_by_attr plus veritech_run yield for a workflow name, and what
FuncBinding::find_or_create yields for a command name (none models the
lookup misses). -/
structure WorkflowEnv where
  workflowView : String → Option WorkflowView
  commandBinding : String → Option FuncBinding

/-- Memoisation cache of resolve_inner, keyed like the Rust
`format!("workflow-args")` key by the pair. -/
abbrev WorkflowCache := List ((String × List Nat) × WorkflowTree)

/-- Step loop of WorkflowView::resolve_inner.  `resolveChild` is the
recursive call at smaller fuel.  A child workflow whose name is already on
the recursion marker makes the source panic with
"Recursive workflow found: name". -/
def resolveStepsWith (env : WorkflowEnv)
    (resolveChild : String → List Nat → List String → WorkflowCache →
      RunOutcome (WorkflowTree × WorkflowCache)) :
    List WorkflowStep → List String → WorkflowCache → List WorkflowTreeStep →
    RunOutcome (List WorkflowTreeStep × WorkflowCache)
  | [], _, cache, acc => .ok (acc, cache)
  | WorkflowStep.workflow wfName args :: rest, marker, cache, acc =>
    if wfName ∈ marker then
      .panicked ("Recursive workflow found: " ++ wfName)
    else
      (match cache.lookup (wfName, args) with
      | some tree =>
        resolveStepsWith env resolveChild rest marker cache
          (acc ++ [WorkflowTreeStep.workflow tree])
      | none =>
        match resolveChild wfName args marker cache with
        | .ok (tree, cache2) =>
          resolveStepsWith env resolveChild rest marker
            (((wfName, args), tree) :: cache2)
            (acc ++ [WorkflowTreeStep.workflow tree])
        | .err e => .err e
        | .panicked m => .panicked m)
  | WorkflowStep.command cmdName _args :: rest, marker, cache, acc =>
    match env.commandBinding cmdName with
    | none => .err (WorkflowError.missingCommand cmdName)
    | some binding =>
      resolveStepsWith env resolveChild rest marker cache
        (acc ++ [WorkflowTreeStep.command binding])

/-- WorkflowView::resolve_inner from workflow.rs: insert the name into the
recursion marker, fetch the view from the resolver, resolve each step
(failing with MissingWorkflow or MissingCommand on lookup misses, and
panicking on a recursive reference), memoising children. -/
def resolveInner (env : WorkflowEnv) :
    Nat → String → List Nat → List String → WorkflowCache →
    RunOutcome (WorkflowTree × WorkflowCache)
  | 0, _, _, _, _ => .panicked "fuel exhausted"
  | fuel + 1, name, _args, marker, cache =>
    let marker := name :: marker
    match env.workflowView name with
    | none => .err (WorkflowError.missingWorkflow name)
    | some view =>
      match resolveStepsWith env
          (fun n a m c => resolveInner env fuel n a m c)
          view.steps marker cache [] with
      | .ok (steps, cache2) =>
        .ok (WorkflowTree.mk view.name view.kind steps, cache2)
      | .err e => .err e
      | .panicked m => .panicked m

/-- WorkflowView::resolve from workflow.rs: resolve_inner with empty
arguments, marker and cache. -/
def workflowResolve (env : WorkflowEnv) (fuel : Nat) (name : String) :
    RunOutcome WorkflowTree :=
  match resolveInner env fuel name [] [] [] with
  | .ok (tree, _) => .ok tree
  | .err e => .err e
  | .panicked m => .panicked m

/-- FuncToExecute from workflow.rs, reduced to the parts the engine
inspects: the binding and the (result value, error value) pair; the func,
execution record, dispatch context and receiver are external handles. -/
structure FuncToExecute where
  funcBinding : FuncBinding
  value : Option Nat × Option Nat
deriving DecidableEq

/-- HashMap<FuncBindingId, FuncToExecute> with insertion-order iteration:
insert overwrites an existing key in place. -/
abbrev PrepMap := List (Nat × FuncToExecute)

def prepMapInsert (m : PrepMap) (k : Nat) (v : FuncToExecute) : PrepMap :=
  if (m.find? (fun p => p.1 = k)).isSome then
    m.map (fun p => if p.1 = k then (k, v) else p)
  else m ++ [(k, v)]

/-- HashMap::extend: insert every entry of the second map, overwriting. -/
def prepMapExtend (m other : PrepMap) : PrepMap :=
  other.foldl (fun acc p => prepMapInsert acc p.1 p.2) m

mutual

/-- WorkflowTree::prepare from workflow.rs: walk the steps in order; every
command leaf is recorded in the map keyed by its binding id with value
(None, None) and its receiver id is recorded; a nested workflow prepares
itself and its maps are extended into the current ones. -/
def prepareTree : WorkflowTree → PrepMap × List Nat
  | .mk _ _ steps => prepareStepsAcc steps [] []

def prepareStepsAcc : List WorkflowTreeStep → PrepMap → List Nat →
    PrepMap × List Nat
  | [], m, rxs => (m, rxs)
  | WorkflowTreeStep.command fb :: rest, m, rxs =>
    prepareStepsAcc rest (prepMapInsert m fb.id ⟨fb, (none, none)⟩)
      (rxs ++ [fb.id])
  | WorkflowTreeStep.workflow tree :: rest, m, rxs =>
    let (m1, r1) := prepareTree tree
    prepareStepsAcc rest (prepMapExtend m m1) (rxs ++ r1)

end

mutual

/-- WorkflowTree::execute from workflow.rs.  `env` gives the value that a
command's execute_critical_section produces for its binding id.
Conditional: run the steps in order, storing each command result on its
prepared record and extending the map with nested-workflow results.
Parallel: spawn commands and nested workflows (each nested workflow
capturing a clone of the map as it is at spawn time, before any result has
been stored), then join all commands in spawn order, then join all nested
workflows and extend the map with their returned maps.  Exceptional is
todo!() in the source, hence a panic. -/
def executeTree (env : Nat → Option Nat × Option Nat) :
    WorkflowTree → PrepMap → RunOutcome PrepMap
  | .mk _ kind steps, map =>
    match kind with
    | WorkflowKind.conditional => executeConditionalSteps env steps map
    | WorkflowKind.parallel =>
      match spawnParallelCommands env steps map with
      | .err e => .err e
      | .panicked m => .panicked m
      | .ok map1 => executeParallelWorkflows env steps map map1
    | WorkflowKind.exceptional => .panicked "not yet implemented"

def executeConditionalSteps (env : Nat → Option Nat × Option Nat) :
    List WorkflowTreeStep → PrepMap → RunOutcome PrepMap
  | [], map => .ok map
  | WorkflowTreeStep.command fb :: rest, map =>
    (match map.lookup fb.id with
    | none => .err (WorkflowError.commandNotPrepared fb.id)
    | some prepared =>
      executeConditionalSteps env rest
        (prepMapInsert map fb.id { prepared with value := env fb.id }))
  | WorkflowTreeStep.workflow tree :: rest, map =>
    match executeTree env tree map with
    | .err e => .err e
    | .panicked m => .panicked m
    | .ok res => executeConditionalSteps env rest (prepMapExtend map res)

/-- Spawn phase plus command join loop of the Parallel arm: each command is
checked against the prepared map at spawn time, and the join loop stores
each command's critical-section result on its record (the final map is the
same for every completion order because each command owns its own key; the
model joins in spawn order). -/
def spawnParallelCommands (env : Nat → Option Nat × Option Nat) :
    List WorkflowTreeStep → PrepMap → RunOutcome PrepMap
  | [], map => .ok map
  | WorkflowTreeStep.command fb :: rest, map =>
    (match map.lookup fb.id with
    | none => .err (WorkflowError.commandNotPrepared fb.id)
    | some prepared =>
      spawnParallelCommands env rest
        (prepMapInsert map fb.id { prepared with value := env fb.id }))
  | WorkflowTreeStep.workflow _ :: rest, map =>
    spawnParallelCommands env rest map

/-- Workflow join loop of the Parallel arm: every nested workflow was
spawned with a clone of the map as of spawn time (`mapAtSpawn`), and its
returned map is extended over the accumulated one after the command joins
finished. -/
def executeParallelWorkflows (env : Nat → Option Nat × Option Nat) :
    List WorkflowTreeStep → PrepMap → PrepMap → RunOutcome PrepMap
  | [], _, map => .ok map
  | WorkflowTreeStep.command _ :: rest, mapAtSpawn, map =>
    executeParallelWorkflows env rest mapAtSpawn map
  | WorkflowTreeStep.workflow tree :: rest, mapAtSpawn, map =>
    match executeTree env tree mapAtSpawn with
    | .err e => .err e
    | .panicked m => .panicked m
    | .ok res => executeParallelWorkflows env rest mapAtSpawn (prepMapExtend map res)

end

/-- Plumbing for scenario construction: add_edge that keeps only the graph
(failing the whole build on error). -/
def addEdgeE (g : WorkspaceSnapshotGraph) (cs : ChangeSet) (a : Nat)
    (w : EdgeWeight) (b : Nat) : Except GraphError WorkspaceSnapshotGraph :=
  match g.addEdge cs a w b with
  | (g2, .ok _) => .ok g2
  | (_, .error e) => .error e

/-- Plumbing for scenario construction: update_content as Except. -/
def updateContentE (g : WorkspaceSnapshotGraph) (cs : ChangeSet) (id : Ulid)
    (h : ContentHash) : Except GraphError WorkspaceSnapshotGraph :=
  match g.updateContent cs id h with
  | (g2, none) => .ok g2
  | (_, some e) => .error e

def graphOrEmpty : Except GraphError WorkspaceSnapshotGraph → WorkspaceSnapshotGraph
  | .ok g => g
  | .error _ => ⟨[], [], 0⟩

def csBase : ChangeSet := ⟨1⟩

def csNew : ChangeSet := ⟨2⟩

/-- The base graph of the repository test
`detect_conflicts_and_updates_simple_with_conflict`: Root uses Schema A
(ulid 101) uses Schema Variant A (102), Root uses Component A (103) which
uses the schema variant, then cleanup. -/
def conflictScenarioBase : Except GraphError WorkspaceSnapshotGraph := do
  let cs := csBase
  let g := WorkspaceSnapshotGraph.newGraph cs 100
  let (g, schemaIdx) ← g.addNode
    (NodeWeight.newContent cs 101 (.schema (ContentHash.new [1])))
  let (g, svIdx) ← g.addNode
    (NodeWeight.newContent cs 102 (.schemaVariant (ContentHash.new [2])))
  let g ← addEdgeE g cs g.rootIndex (EdgeWeight.new cs .uses) schemaIdx
  let si ← g.getNodeIndexById 101
  let g ← addEdgeE g cs si (EdgeWeight.new cs .uses) svIdx
  let (g, compIdx) ← g.addNode
    (NodeWeight.newContent cs 103 (.component (ContentHash.new [3])))
  let g ← addEdgeE g cs g.rootIndex (EdgeWeight.new cs .uses) compIdx
  let ci ← g.getNodeIndexById 103
  let svi ← g.getNodeIndexById 102
  let g ← addEdgeE g cs ci (EdgeWeight.new cs .uses) svi
  pure g.cleanup

def baseGraph : WorkspaceSnapshotGraph :=
  graphOrEmpty conflictScenarioBase

/-- The to_rebase side of the conflict scenario: the clone updates Component
A in change set 2, then cleans up (as the repository test does). -/
def conflictScenarioToRebase : WorkspaceSnapshotGraph :=
  graphOrEmpty (do
    let g ← conflictScenarioBase
    let g ← updateContentE g csNew 103 (ContentHash.new [30])
    pure g.cleanup)

/-- The onto side of the conflict scenario: the original updates Component A
in change set 1, then cleans up. -/
def conflictScenarioOnto : WorkspaceSnapshotGraph :=
  graphOrEmpty (do
    let g ← conflictScenarioBase
    let g ← updateContentE g csBase 103 (ContentHash.new [31])
    pure g.cleanup)

/-- Same two sides without the cleanup after update_content, so the stale
pre-update copy of Component A is still among the lineage candidates. -/
def conflictScenarioToRebaseNoCleanup : WorkspaceSnapshotGraph :=
  graphOrEmpty (do
    let g ← conflictScenarioBase
    updateContentE g csNew 103 (ContentHash.new [30]))

def conflictScenarioOntoNoCleanup : WorkspaceSnapshotGraph :=
  graphOrEmpty (do
    let g ← conflictScenarioBase
    updateContentE g csBase 103 (ContentHash.new [31]))

/-- Import scenario: Root uses Schema A (ulid 201) uses Schema Variant B
(202); the import is taken at Schema A, which has one child. -/
def importScenarioOtherE : Except GraphError (WorkspaceSnapshotGraph × Nat) := do
  let cs := csBase
  let g := WorkspaceSnapshotGraph.newGraph cs 200
  let (g, aIdx) ← g.addNode
    (NodeWeight.newContent cs 201 (.schema (ContentHash.new [7])))
  let (g, bIdx) ← g.addNode
    (NodeWeight.newContent cs 202 (.schemaVariant (ContentHash.new [8])))
  let g ← addEdgeE g cs g.rootIndex (EdgeWeight.new cs .uses) aIdx
  let ai ← g.getNodeIndexById 201
  let g ← addEdgeE g cs ai (EdgeWeight.new cs .uses) bIdx
  let ai2 ← g.getNodeIndexById 201
  pure (g, ai2)

def importScenarioOtherGraph : WorkspaceSnapshotGraph :=
  graphOrEmpty (do pure (← importScenarioOtherE).1)

def importScenarioRootIdx : Nat :=
  match importScenarioOtherE with
  | .ok (_, r) => r
  | .error _ => 0

def importScenarioResult : Except GraphError (WorkspaceSnapshotGraph × Nat) :=
  (WorkspaceSnapshotGraph.newGraph csNew 300).importSubgraph
    importScenarioOtherGraph importScenarioRootIdx

def importScenarioOriginalMerkle : Option ContentHash :=
  match importScenarioOtherGraph.getNodeWeight importScenarioRootIdx with
  | .ok w => some w.merkleTreeHash
  | .error _ => none

def importScenarioCopyMerkle : Option ContentHash :=
  match importScenarioResult with
  | .ok (g2, newRoot) =>
    match g2.getNodeWeight newRoot with
    | .ok w => some w.merkleTreeHash
    | .error _ => none
  | .error _ => none

/-- Hash a node would get from its content alone (no neighbors fed). -/
def contentOnlyMerkleHash (w : NodeWeight) : ContentHash :=
  (ContentHasher.init.update w.contentHash.toBytes).finalize

/-- Unordered-membership counterexample state, to_rebase side: a root whose
recently-seen entry for change set 1 is 5, and a container (index 1) with no
outgoing edges. -/
def c5EdgeW : EdgeWeight :=
  { kind := .uses,
    vectorClockFirstSeen := ⟨[(1, 3)]⟩,
    vectorClockRecentlySeen := ⟨[(1, 3)]⟩,
    vectorClockWrite := ⟨[(1, 3)]⟩ }

def c5self : WorkspaceSnapshotGraph :=
  { nodes := [
      some (NodeWeight.content {
        id := 100, lineageId := 100, contentAddress := .root,
        merkleTreeHash := ContentHash.new [],
        vectorClockFirstSeen := ⟨[(1, 0)]⟩,
        vectorClockRecentlySeen := ⟨[(1, 5)]⟩,
        vectorClockWrite := ⟨[(1, 0)]⟩ }),
      some (NodeWeight.content {
        id := 110, lineageId := 110, contentAddress := .component (ContentHash.new [1]),
        merkleTreeHash := ContentHash.new [1],
        vectorClockFirstSeen := ⟨[(1, 0)]⟩,
        vectorClockRecentlySeen := ⟨[(1, 0)]⟩,
        vectorClockWrite := ⟨[(1, 0)]⟩ })],
    edges := [],
    rootIndex := 0 }

/-- Unordered-membership counterexample state, onto side: the container
(index 1) keeps an edge to an item (index 2) that to_rebase no longer has;
the edge was first seen by change set 1 at 3 (≤ the recently-seen pivot 5)
and the item has a write entry 9 > 5. -/
def c5onto : WorkspaceSnapshotGraph :=
  { nodes := [
      some (NodeWeight.content {
        id := 100, lineageId := 100, contentAddress := .root,
        merkleTreeHash := ContentHash.new [],
        vectorClockFirstSeen := ⟨[(1, 0)]⟩,
        vectorClockRecentlySeen := ⟨[(1, 0)]⟩,
        vectorClockWrite := ⟨[(1, 0)]⟩ }),
      some (NodeWeight.content {
        id := 110, lineageId := 110, contentAddress := .component (ContentHash.new [1]),
        merkleTreeHash := ContentHash.new [1],
        vectorClockFirstSeen := ⟨[(1, 0)]⟩,
        vectorClockRecentlySeen := ⟨[(1, 0)]⟩,
        vectorClockWrite := ⟨[(1, 0)]⟩ }),
      some (NodeWeight.content {
        id := 120, lineageId := 120, contentAddress := .component (ContentHash.new [2]),
        merkleTreeHash := ContentHash.new [2],
        vectorClockFirstSeen := ⟨[(1, 0)]⟩,
        vectorClockRecentlySeen := ⟨[(1, 0)]⟩,
        vectorClockWrite := ⟨[(1, 9)]⟩ })],
    edges := [some ⟨1, 2, c5EdgeW⟩],
    rootIndex := 0 }

def c5RootSeenAsOfOnto : Option Nat :=
  match c5self.getNodeWeight c5self.rootIndex with
  | .ok w => w.vectorClockRecentlySeen.entryFor ⟨1⟩
  | .error _ => none

def c5ItemWriteNewer : Bool :=
  match c5onto.getNodeWeight 2 with
  | .ok w => w.vectorClockWrite.hasEntriesNewerThan 5
  | .error _ => false

/-- Workflow environment with a single workflow "a" whose only step is a
reference to "a" itself. -/
def recursiveWorkflowEnv : WorkflowEnv :=
  { workflowView := fun n =>
      if n = "a" then
        some { name := "a", kind := .conditional,
               steps := [WorkflowStep.workflow "a" []], args := [] }
      else none
    commandBinding := fun _ => none }

/-- Parallel fan-out workflow of spec scenario 6: two commands plus a nested
conditional workflow with one command, all with distinct binding ids. -/
def nestedConditionalW2 : WorkflowTree :=
  .mk "w2" .conditional [WorkflowTreeStep.command ⟨3⟩]

def parallelWorkflowW : WorkflowTree :=
  .mk "w" .parallel
    [WorkflowTreeStep.command ⟨1⟩, WorkflowTreeStep.command ⟨2⟩,
     WorkflowTreeStep.workflow nestedConditionalW2]

/-- C6: the EdgeWeight declared in edge_weight.rs carries exactly a kind and
the two clocks seen and write — EdgeWeight::new fills just those — while the
edge weight the rebase engine consumes (modelled from the spec) has the
separate first-seen clock that `vector_clock_first_seen` reads. -/
theorem edge_weight_src_has_only_seen_and_write_clocks :
    ∀ (cs : ChangeSet) (k : EdgeWeightKindSrc),
      EdgeWeightSrc.new cs k =
        { kind := k
          vectorClockSeen := VectorClock.new cs
          vectorClockWrite := VectorClock.new cs } ∧
      (EdgeWeight.new cs .uses).vectorClockFirstSeen = VectorClock.new cs := by
  intro cs k
  exact ⟨rfl, rfl⟩

/-- C8: resolving the self-referential workflow "a" panics with
"Recursive workflow found: a" instead of returning a RecursiveWorkflow
error (WorkflowError has no such variant). -/
theorem workflow_resolve_panics_on_recursion :
    ∀ fuel : Nat,
      workflowResolve recursiveWorkflowEnv (fuel + 1) "a" =
        RunOutcome.panicked "Recursive workflow found: a" := by
  intro fuel
  rfl

/-- C9: prepare of the parallel fan-out workflow gives exactly the three
entries keyed by binding id with value (None, None), but execute hands the
nested workflow a clone of the map taken at spawn time and extends the
result map with it after the command joins, so the recorded results of the
two parallel commands are overwritten back to (None, None); only the nested
command keeps its critical-section result. -/
theorem workflow_parallel_execute_drops_command_results :
    prepareTree parallelWorkflowW =
      ([(1, ⟨⟨1⟩, (none, none)⟩), (2, ⟨⟨2⟩, (none, none)⟩),
        (3, ⟨⟨3⟩, (none, none)⟩)], [1, 2, 3]) ∧
    ∀ env : Nat → Option Nat × Option Nat,
      executeTree env parallelWorkflowW (prepareTree parallelWorkflowW).1 =
        .ok [(1, ⟨⟨1⟩, (none, none)⟩), (2, ⟨⟨2⟩, (none, none)⟩),
             (3, ⟨⟨3⟩, env 3⟩)] := by
  exact ⟨rfl, fun env => rfl⟩

/-- C3 counterexample: on the two clones of the conflict scenario without
cleanup, symmetric concurrent update_content yields one NodeContent
conflict and one ReplaceSubgraph update (for the stale pre-update copy at
index 8 of the to_rebase side), not zero updates. -/
theorem detect_concurrent_update_without_cleanup_emits_update :
    conflictScenarioToRebaseNoCleanup.detectConflictsAndUpdates csNew
      conflictScenarioOntoNoCleanup csBase =
      .ok ([Conflict.nodeContent 10 10], [Update.replaceSubgraph 10 8]) := by
  rfl

/-- C7 counterexample: importing the subgraph at Schema A copies the root of
the subgraph with a merkle hash recomputed before its outgoing edge exists,
so the copy hashes its content alone and differs from the original. -/
theorem import_subgraph_root_merkle_differs :
    importScenarioOriginalMerkle = some (ContentHash.new [1, 7, 2, 1, 8]) ∧
    importScenarioCopyMerkle = some (ContentHash.new [1, 7]) ∧
    importScenarioCopyMerkle ≠ importScenarioOriginalMerkle := by
  refine ⟨rfl, rfl, ?_⟩
  decide

/-- C5 counterexample: the onto-only edge has a first-seen entry for onto
(3) that does not exceed the to_rebase root recently-seen pivot (5), and its
target has a write entry 9 newer than the pivot; the claim then demands a
RemoveModifiedItem conflict, but the code emits nothing because the
RemoveModifiedItem branch only runs when the first-seen entry is absent. -/
theorem unordered_only_onto_stale_first_seen_emits_nothing :
    c5onto.uniqueEdges 1 = .ok [((EdgeWeightKind.uses, 120), ⟨2, 0⟩)] ∧
    c5self.uniqueEdges 1 = .ok [] ∧
    c5RootSeenAsOfOnto = some 5 ∧
    c5EdgeW.vectorClockFirstSeen.entryFor ⟨1⟩ = some 3 ∧
    optNatGt (c5EdgeW.vectorClockFirstSeen.entryFor ⟨1⟩) c5RootSeenAsOfOnto = false ∧
    c5ItemWriteNewer = true ∧
    c5self.findUnorderedContainerMembershipConflictsAndUpdates ⟨2⟩ 1 c5onto ⟨1⟩ 1 =
      .ok ([], []) := by
  exact ⟨rfl, rfl, rfl, rfl, rfl, rfl, rfl⟩

def nodeWeightOrDefault (r : Except GraphError NodeWeight) : NodeWeight :=
  match r with
  | .ok w => w
  | .error _ => NodeWeight.newContent ⟨0⟩ 0 ContentAddress.root

def conflictOntoComp : NodeWeight :=
  nodeWeightOrDefault (conflictScenarioOnto.getNodeWeight 10)

def conflictToRebaseComp : NodeWeight :=
  nodeWeightOrDefault (conflictScenarioToRebase.getNodeWeight 10)

/-- C3: during detect_conflicts_and_updates, for an onto node and a
to_rebase candidate whose merkle and content hashes differ and whose
containers are unordered with no membership differences, the node-level
comparison emits nothing when to_rebase's write clock is newer, exactly one
ReplaceSubgraph when onto's write clock is newer, and exactly one
NodeContent conflict when the clocks are concurrent; and on the cleaned-up
clones of the conflict scenario the whole comparison yields exactly one
NodeContent conflict and zero updates. -/
theorem detect_node_content_comparison_cases :
    (∀ (self onto : WorkspaceSnapshotGraph) (toRebaseCs ontoCs : ChangeSet)
        (event : DfsEvent) (ontoIdx cand : Nat) (ontoW trW : NodeWeight)
        (anyChanged : Bool) (conflicts : List Conflict) (updates : List Update),
      self.getNodeWeight cand = .ok trW →
      ontoW.merkleTreeHash ≠ trW.merkleTreeHash →
      ontoW.contentHash ≠ trW.contentHash →
      orderingNodeIndexesForNodeIndex onto ontoIdx = [] →
      orderingNodeIndexesForNodeIndex self cand = [] →
      self.findUnorderedContainerMembershipConflictsAndUpdates toRebaseCs cand
        onto ontoCs ontoIdx = .ok ([], []) →
      detectCandidateStep self toRebaseCs onto ontoCs event ontoIdx ontoW cand
        none anyChanged conflicts updates =
        .ok (.finished none true
          (if trW.vectorClockWrite.isNewerThan ontoW.vectorClockWrite then
            conflicts
           else if ontoW.vectorClockWrite.isNewerThan trW.vectorClockWrite then
            conflicts
           else conflicts ++ [Conflict.nodeContent cand ontoIdx])
          (if trW.vectorClockWrite.isNewerThan ontoW.vectorClockWrite then
            updates
           else if ontoW.vectorClockWrite.isNewerThan trW.vectorClockWrite then
            updates ++ [Update.replaceSubgraph ontoIdx cand]
           else updates))) ∧
    conflictScenarioToRebase.detectConflictsAndUpdates csNew
      conflictScenarioOnto csBase = .ok ([Conflict.nodeContent 10 10], []) := by
  constructor
  · intro self onto toRebaseCs ontoCs event ontoIdx cand ontoW trW anyChanged
      conflicts updates h1 h2 h3 h4 h5 h6
    simp only [detectCandidateStep, h1, if_neg h2, if_pos h3, h4, h5, h6,
      List.length_nil, List.get?]
    by_cases hb1 : trW.vectorClockWrite.isNewerThan ontoW.vectorClockWrite = true
    · simp [hb1]
    · by_cases hb2 : ontoW.vectorClockWrite.isNewerThan trW.vectorClockWrite = true
      · simp [hb1, hb2]
      · simp [hb1, hb2]
  · rfl

/-- Witness instantiating the three-way comparison on the cleaned conflict
scenario at the two component copies (indices 10 and 10), whose clocks are
concurrent. -/
theorem detect_node_content_comparison_cases_witness :
    detectCandidateStep conflictScenarioToRebase csNew conflictScenarioOnto
      csBase (DfsEvent.discover 10) 10 conflictOntoComp 10 none false [] [] =
      .ok (.finished none true [Conflict.nodeContent 10 10] []) := by
  have h := detect_node_content_comparison_cases.1 conflictScenarioToRebase
    conflictScenarioOnto csNew csBase (DfsEvent.discover 10) 10 10
    conflictOntoComp conflictToRebaseComp false [] [] (by rfl) (by decide)
    (by decide) (by rfl) (by rfl) (by rfl)
  rw [h]
  rfl

def candidateMerkleMatches (self : WorkspaceSnapshotGraph)
    (ontoW : NodeWeight) (cand : Nat) : Bool :=
  match self.getNodeWeight cand with
  | .ok w => w.merkleTreeHash == ontoW.merkleTreeHash
  | .error _ => false

lemma detectCandidateLoop_all_merkle_equal
    (self : WorkspaceSnapshotGraph) (toRebaseCs : ChangeSet)
    (onto : WorkspaceSnapshotGraph) (ontoCs : ChangeSet) (event : DfsEvent)
    (ontoIdx : Nat) (ontoW : NodeWeight) :
    ∀ (cands : List Nat) (cache : Option Nat) (anyChanged : Bool)
      (conflicts : List Conflict) (updates : List Update),
      cands.all (candidateMerkleMatches self ontoW) = true →
      detectCandidateLoop self toRebaseCs onto ontoCs event ontoIdx ontoW
        cands cache anyChanged conflicts updates =
        .ok (.finished cache anyChanged conflicts updates) := by
  intro cands
  induction cands with
  | nil => intro cache anyChanged conflicts updates _; rfl
  | cons cand rest ih =>
    intro cache anyChanged conflicts updates hall
    rw [List.all_cons, Bool.and_eq_true] at hall
    obtain ⟨hhead, htail⟩ := hall
    unfold candidateMerkleMatches at hhead
    cases hw : self.getNodeWeight cand with
    | error e => rw [hw] at hhead; exact absurd hhead (by simp)
    | ok w =>
      rw [hw] at hhead
      have hmerkle : ontoW.merkleTreeHash = w.merkleTreeHash :=
        (beq_iff_eq.mp hhead).symm
      simp only [detectCandidateLoop, detectCandidateStep, hw, if_pos hmerkle]
      exact ih cache anyChanged conflicts updates htail

lemma detectDfsVisit_prune_step (self : WorkspaceSnapshotGraph)
    (toRebaseCs : ChangeSet) (onto : WorkspaceSnapshotGraph)
    (ontoCs : ChangeSet) (fuel u : Nat) (disc fin : List Nat)
    (conflicts cfs2 : List Conflict) (updates : List Update) :
    ∀ (ups2 : List Update),
    detectProcessDfsEvent self toRebaseCs onto ontoCs (.discover u)
      conflicts updates = .ok (.prune, cfs2, ups2) →
    detectDfsVisit self toRebaseCs onto ontoCs (fuel + 1) u disc fin
      conflicts updates = .ok (u :: disc, u :: fin, cfs2, ups2) := by
  intro ups2 h
  simp only [detectDfsVisit, h]
  rfl

def rootIsContentRoot (g : WorkspaceSnapshotGraph) : Bool :=
  match g.getNodeWeight g.rootIndex with
  | .ok (NodeWeight.content cw) => decide (cw.contentAddress = ContentAddress.root)
  | _ => false

/-- C4: detect_conflicts_and_updates is reflexive — comparing a snapshot
whose root is a Root content node against itself yields no conflicts and no
updates — and, in general, whenever every to_rebase candidate for a
discovered onto node has the onto node's merkle hash, the Discover event is
answered with Prune and emits nothing. -/
theorem detect_reflexive_and_prunes_identical :
    (∀ (s : WorkspaceSnapshotGraph) (cs : ChangeSet),
      rootIsContentRoot s = true →
      s.detectConflictsAndUpdates cs s cs = .ok ([], [])) ∧
    (∀ (self onto : WorkspaceSnapshotGraph) (toRebaseCs ontoCs : ChangeSet)
        (ontoIdx : Nat) (ontoW : NodeWeight)
        (conflicts : List Conflict) (updates : List Update),
      onto.getNodeWeight ontoIdx = .ok ontoW →
      (detectToRebaseCandidates self ontoW).all
        (candidateMerkleMatches self ontoW) = true →
      detectProcessDfsEvent self toRebaseCs onto ontoCs (.discover ontoIdx)
        conflicts updates = .ok (.prune, conflicts, updates)) := by
  have hprune : ∀ (self onto : WorkspaceSnapshotGraph)
      (toRebaseCs ontoCs : ChangeSet) (ontoIdx : Nat) (ontoW : NodeWeight)
      (conflicts : List Conflict) (updates : List Update),
      onto.getNodeWeight ontoIdx = .ok ontoW →
      (detectToRebaseCandidates self ontoW).all
        (candidateMerkleMatches self ontoW) = true →
      detectProcessDfsEvent self toRebaseCs onto ontoCs (.discover ontoIdx)
        conflicts updates = .ok (.prune, conflicts, updates) := by
    intro self onto toRebaseCs ontoCs ontoIdx ontoW conflicts updates hw hall
    have hloop := detectCandidateLoop_all_merkle_equal self toRebaseCs onto
      ontoCs (DfsEvent.discover ontoIdx) ontoIdx ontoW
      (detectToRebaseCandidates self ontoW) none false conflicts updates hall
    simp only [detectProcessDfsEvent, hw, hloop]
    rfl
  refine ⟨?_, hprune⟩
  intro s cs h
  unfold rootIsContentRoot at h
  cases hw : s.getNodeWeight s.rootIndex with
  | error e => rw [hw] at h; exact absurd h (by simp)
  | ok w =>
    cases w with
    | ordering o => rw [hw] at h; exact absurd h (by simp)
    | content cw =>
      rw [hw] at h
      have hstep : detectProcessDfsEvent s cs s cs
          (.discover s.rootIndex) [] [] = .ok (.prune, [], []) := by
        apply hprune s s cs cs s.rootIndex (NodeWeight.content cw) [] [] hw
        have haddr : cw.contentAddress = ContentAddress.root := of_decide_eq_true h
        simp [detectToRebaseCandidates, haddr, candidateMerkleMatches, hw]
      have hvisit := detectDfsVisit_prune_step s cs s cs
        (s.nodes.length + s.edges.length + 1) s.rootIndex [] [] [] [] [] []
        hstep
      show (match detectDfsVisit s cs s cs
          (s.nodes.length + s.edges.length + 2) s.rootIndex [] [] [] [] with
        | .error e => Except.error (GraphError.graphTraversal e)
        | .ok (_, _, conflicts, updates) => Except.ok (conflicts, updates)) =
        Except.ok ([], [])
      rw [show s.nodes.length + s.edges.length + 2 =
        (s.nodes.length + s.edges.length + 1) + 1 from rfl, hvisit]

/-- Witness applying reflexivity to the cleaned base graph of the conflict
scenario and the prune property to its root discover event. -/
theorem detect_reflexive_and_prunes_identical_witness :
    baseGraph.detectConflictsAndUpdates csBase baseGraph csBase =
      .ok ([], []) ∧
    detectProcessDfsEvent baseGraph csBase baseGraph csBase
      (.discover baseGraph.rootIndex) [] [] = .ok (.prune, [], []) := by
  constructor
  · exact detect_reflexive_and_prunes_identical.1 baseGraph csBase (by rfl)
  · exact detect_reflexive_and_prunes_identical.2 baseGraph baseGraph csBase
      csBase baseGraph.rootIndex
      (nodeWeightOrDefault (baseGraph.getNodeWeight baseGraph.rootIndex))
      [] [] (by rfl) (by rfl)

/-- Emissions of the amended claim for an edge present only in to_rebase
(conflict part): ModifyRemovedItem exactly when the first-seen entry for
onto exists and the target's write entry for to_rebase exceeds the pivot. -/
def unorderedOnlyToRebaseEmittedConflicts (self : WorkspaceSnapshotGraph)
    (toRebaseCs ontoCs : ChangeSet) (rootSeen : Option Nat)
    (p : UniqueEdgeInfo × EdgeInfo) : List Conflict :=
  match self.getEdgeWeight p.2.edgeIndex, self.getNodeWeight p.2.targetNodeIndex with
  | some w, .ok iw =>
    if (w.vectorClockFirstSeen.entryFor ontoCs).isSome then
      if optNatGt (iw.vectorClockWrite.entryFor toRebaseCs) rootSeen then
        [Conflict.modifyRemovedItem p.2.targetNodeIndex]
      else []
    else []
  | _, _ => []

/-- Emissions of the amended claim for an edge present only in to_rebase
(update part): RemoveEdge exactly when the first-seen entry for onto exists
and the target's write entry does not exceed the pivot. -/
def unorderedOnlyToRebaseEmittedUpdates (self : WorkspaceSnapshotGraph)
    (toRebaseCs ontoCs : ChangeSet) (rootSeen : Option Nat)
    (p : UniqueEdgeInfo × EdgeInfo) : List Update :=
  match self.getEdgeWeight p.2.edgeIndex, self.getNodeWeight p.2.targetNodeIndex with
  | some w, .ok iw =>
    if (w.vectorClockFirstSeen.entryFor ontoCs).isSome then
      if optNatGt (iw.vectorClockWrite.entryFor toRebaseCs) rootSeen then []
      else [Update.removeEdge p.2.edgeIndex]
    else []
  | _, _ => []

/-- Emissions of the amended claim for an edge present only in onto
(conflict part): RemoveModifiedItem only when the first-seen entry for onto
is absent, the pivot is present and the target's write clock has entries
newer than it. -/
def unorderedOnlyOntoEmittedConflicts (onto : WorkspaceSnapshotGraph)
    (ontoCs : ChangeSet) (toRebaseContainerIdx : Nat) (rootSeen : Option Nat)
    (p : UniqueEdgeInfo × EdgeInfo) : List Conflict :=
  match onto.getEdgeWeight p.2.edgeIndex, onto.getNodeWeight p.2.targetNodeIndex with
  | some w, .ok iw =>
    match w.vectorClockFirstSeen.entryFor ontoCs, rootSeen with
    | some _, _ => []
    | none, some rs =>
      if iw.vectorClockWrite.hasEntriesNewerThan rs then
        [Conflict.removeModifiedItem toRebaseContainerIdx p.2.targetNodeIndex]
      else []
    | none, none => []
  | _, _ => []

/-- Emissions of the amended claim for an edge present only in onto (update
part): NewEdge exactly when the first-seen entry for onto and the pivot are
both present and first-seen is strictly greater. -/
def unorderedOnlyOntoEmittedUpdates (onto : WorkspaceSnapshotGraph)
    (ontoCs : ChangeSet) (toRebaseContainerIdx : Nat) (rootSeen : Option Nat)
    (p : UniqueEdgeInfo × EdgeInfo) : List Update :=
  match onto.getEdgeWeight p.2.edgeIndex, onto.getNodeWeight p.2.targetNodeIndex with
  | some w, .ok _ =>
    match w.vectorClockFirstSeen.entryFor ontoCs, rootSeen with
    | some fs, some rs =>
      if rs < fs then
        [Update.newEdge toRebaseContainerIdx p.2.targetNodeIndex w]
      else []
    | _, _ => []
  | _, _ => []

lemma except_bind_ok {α β ε : Type} (a : α) (f : α → Except ε β) :
    ((Except.ok a : Except ε α) >>= f) = f a := rfl

lemma except_bind_err {α β ε : Type} (e : ε) (f : α → Except ε β) :
    ((Except.error e : Except ε α) >>= f) = Except.error e := rfl

lemma unorderedOnlyToRebaseStep_ok (self : WorkspaceSnapshotGraph)
    (toRebaseCs ontoCs : ChangeSet) (rootSeen : Option Nat)
    (acc : List Conflict × List Update) (p : UniqueEdgeInfo × EdgeInfo)
    (C : List Conflict) (U : List Update) :
    unorderedOnlyToRebaseStep self toRebaseCs ontoCs rootSeen acc p =
      .ok (C, U) →
    C = acc.1 ++ unorderedOnlyToRebaseEmittedConflicts self toRebaseCs ontoCs rootSeen p ∧
    U = acc.2 ++ unorderedOnlyToRebaseEmittedUpdates self toRebaseCs ontoCs rootSeen p := by
  intro h
  unfold unorderedOnlyToRebaseStep at h
  unfold unorderedOnlyToRebaseEmittedConflicts unorderedOnlyToRebaseEmittedUpdates
  cases hew : self.getEdgeWeight p.2.edgeIndex with
  | none => simp [hew] at h
  | some w =>
    cases hnw : self.getNodeWeight p.2.targetNodeIndex with
    | error e => simp [hew, hnw] at h
    | ok iw =>
      simp only [hew, hnw] at h
      simp only [hew, hnw]
      by_cases h1 : (w.vectorClockFirstSeen.entryFor ontoCs).isSome = true
      · by_cases h2 : optNatGt (iw.vectorClockWrite.entryFor toRebaseCs) rootSeen = true
        · rw [if_pos h1, if_pos h2] at h
          cases h
          simp [h1, h2]
        · rw [if_pos h1, if_neg (by simp [h2])] at h
          cases h
          simp [h1, h2]
      · rw [if_neg (by simp [h1])] at h
        cases h
        simp [h1]

lemma unorderedOnlyOntoStep_ok (onto : WorkspaceSnapshotGraph)
    (ontoCs : ChangeSet) (toRebaseContainerIdx : Nat) (rootSeen : Option Nat)
    (acc : List Conflict × List Update) (p : UniqueEdgeInfo × EdgeInfo)
    (C : List Conflict) (U : List Update) :
    unorderedOnlyOntoStep onto ontoCs toRebaseContainerIdx rootSeen acc p =
      .ok (C, U) →
    C = acc.1 ++ unorderedOnlyOntoEmittedConflicts onto ontoCs toRebaseContainerIdx rootSeen p ∧
    U = acc.2 ++ unorderedOnlyOntoEmittedUpdates onto ontoCs toRebaseContainerIdx rootSeen p := by
  obtain ⟨cfs, ups⟩ := acc
  intro h
  unfold unorderedOnlyOntoStep at h
  unfold unorderedOnlyOntoEmittedConflicts unorderedOnlyOntoEmittedUpdates
  cases hew : onto.getEdgeWeight p.2.edgeIndex with
  | none => simp [hew] at h
  | some w =>
    cases hnw : onto.getNodeWeight p.2.targetNodeIndex with
    | error e => simp [hew, hnw] at h
    | ok iw =>
      simp only [hew, hnw] at h
      simp only [hew, hnw]
      split at h
      next fs heq =>
        simp only [heq]
        cases rootSeen with
        | some rs =>
          by_cases hlt : rs < fs
          · simp only [hlt, if_true, Except.ok.injEq, Prod.mk.injEq] at h
            obtain ⟨h1, h2⟩ := h
            subst h1
            subst h2
            simp [hlt]
          · simp only [hlt, if_false, Except.ok.injEq, Prod.mk.injEq] at h
            obtain ⟨h1, h2⟩ := h
            subst h1
            subst h2
            simp [hlt]
        | none =>
          simp only [Except.ok.injEq, Prod.mk.injEq] at h
          obtain ⟨h1, h2⟩ := h
          subst h1
          subst h2
          simp
      next heq =>
        simp only [heq]
        cases rootSeen with
        | some rs =>
          by_cases hnewer : iw.vectorClockWrite.hasEntriesNewerThan rs = true
          · simp only [hnewer, if_true, Except.ok.injEq, Prod.mk.injEq] at h
            obtain ⟨h1, h2⟩ := h
            subst h1
            subst h2
            simp [hnewer]
          · simp only [hnewer, Bool.false_eq_true, if_false, Except.ok.injEq,
              Prod.mk.injEq] at h
            obtain ⟨h1, h2⟩ := h
            subst h1
            subst h2
            simp [hnewer]
        | none =>
          simp only [Except.ok.injEq, Prod.mk.injEq] at h
          obtain ⟨h1, h2⟩ := h
          subst h1
          subst h2
          simp

lemma foldlM_unorderedOnlyToRebase (self : WorkspaceSnapshotGraph)
    (toRebaseCs ontoCs : ChangeSet) (rootSeen : Option Nat) :
    ∀ (l : List (UniqueEdgeInfo × EdgeInfo)) (acc : List Conflict × List Update)
      (C : List Conflict) (U : List Update),
    l.foldlM (unorderedOnlyToRebaseStep self toRebaseCs ontoCs rootSeen) acc =
      .ok (C, U) →
    C = acc.1 ++ l.flatMap (unorderedOnlyToRebaseEmittedConflicts self toRebaseCs ontoCs rootSeen) ∧
    U = acc.2 ++ l.flatMap (unorderedOnlyToRebaseEmittedUpdates self toRebaseCs ontoCs rootSeen) := by
  intro l
  induction l with
  | nil =>
    intro acc C U h
    simp only [List.foldlM_nil] at h
    cases h
    simp
  | cons p rest ih =>
    intro acc C U h
    rw [List.foldlM_cons] at h
    cases hstep : unorderedOnlyToRebaseStep self toRebaseCs ontoCs rootSeen acc p with
    | error e => rw [hstep] at h; exact absurd h (by simp [except_bind_err])
    | ok acc2 =>
      rw [hstep, except_bind_ok] at h
      obtain ⟨hC, hU⟩ := ih acc2 C U h
      obtain ⟨hC2, hU2⟩ := unorderedOnlyToRebaseStep_ok self toRebaseCs ontoCs
        rootSeen acc p acc2.1 acc2.2 (by rw [hstep])
      constructor
      · rw [hC, hC2, List.flatMap_cons, List.append_assoc]
      · rw [hU, hU2, List.flatMap_cons, List.append_assoc]

lemma foldlM_unorderedOnlyOnto (onto : WorkspaceSnapshotGraph)
    (ontoCs : ChangeSet) (toRebaseContainerIdx : Nat) (rootSeen : Option Nat) :
    ∀ (l : List (UniqueEdgeInfo × EdgeInfo)) (acc : List Conflict × List Update)
      (C : List Conflict) (U : List Update),
    l.foldlM (unorderedOnlyOntoStep onto ontoCs toRebaseContainerIdx rootSeen) acc =
      .ok (C, U) →
    C = acc.1 ++ l.flatMap (unorderedOnlyOntoEmittedConflicts onto ontoCs toRebaseContainerIdx rootSeen) ∧
    U = acc.2 ++ l.flatMap (unorderedOnlyOntoEmittedUpdates onto ontoCs toRebaseContainerIdx rootSeen) := by
  intro l
  induction l with
  | nil =>
    intro acc C U h
    simp only [List.foldlM_nil] at h
    cases h
    simp
  | cons p rest ih =>
    intro acc C U h
    rw [List.foldlM_cons] at h
    cases hstep : unorderedOnlyOntoStep onto ontoCs toRebaseContainerIdx rootSeen acc p with
    | error e => rw [hstep] at h; exact absurd h (by simp [except_bind_err])
    | ok acc2 =>
      rw [hstep, except_bind_ok] at h
      obtain ⟨hC, hU⟩ := ih acc2 C U h
      obtain ⟨hC2, hU2⟩ := unorderedOnlyOntoStep_ok onto ontoCs
        toRebaseContainerIdx rootSeen acc p acc2.1 acc2.2 (by rw [hstep])
      constructor
      · rw [hC, hC2, List.flatMap_cons, List.append_assoc]
      · rw [hU, hU2, List.flatMap_cons, List.append_assoc]

/-- C5: per-edge case analysis of unordered container reconciliation (the
amended claim).  Whenever the function succeeds, the emitted conflicts and
updates are exactly the per-edge emissions: for edges only in to_rebase,
nothing without a first-seen entry for onto, otherwise ModifyRemovedItem
when the target write entry for to_rebase exceeds the root recently-seen
pivot and RemoveEdge otherwise; for edges only in onto, NewEdge exactly when
the first-seen entry and the pivot are present with first-seen greater, and
RemoveModifiedItem exactly when the first-seen entry is absent, the pivot is
present, and the target write clock has entries newer than the pivot. -/
theorem unordered_container_membership_case_analysis :
    ∀ (self onto : WorkspaceSnapshotGraph) (toRebaseCs ontoCs : ChangeSet)
      (trIdx onIdx : Nat) (trE onE : List (UniqueEdgeInfo × EdgeInfo))
      (rootW : NodeWeight) (C : List Conflict) (U : List Update),
    self.uniqueEdges trIdx = .ok trE →
    onto.uniqueEdges onIdx = .ok onE →
    self.getNodeWeight self.rootIndex = .ok rootW →
    self.findUnorderedContainerMembershipConflictsAndUpdates toRebaseCs trIdx
      onto ontoCs onIdx = .ok (C, U) →
    C = (trE.filter (fun p => (onE.find? (fun q => q.1 = p.1)).isNone)).flatMap
          (unorderedOnlyToRebaseEmittedConflicts self toRebaseCs ontoCs
            (rootW.vectorClockRecentlySeen.entryFor ontoCs)) ++
        (onE.filter (fun p => (trE.find? (fun q => q.1 = p.1)).isNone)).flatMap
          (unorderedOnlyOntoEmittedConflicts onto ontoCs trIdx
            (rootW.vectorClockRecentlySeen.entryFor ontoCs)) ∧
    U = (trE.filter (fun p => (onE.find? (fun q => q.1 = p.1)).isNone)).flatMap
          (unorderedOnlyToRebaseEmittedUpdates self toRebaseCs ontoCs
            (rootW.vectorClockRecentlySeen.entryFor ontoCs)) ++
        (onE.filter (fun p => (trE.find? (fun q => q.1 = p.1)).isNone)).flatMap
          (unorderedOnlyOntoEmittedUpdates onto ontoCs trIdx
            (rootW.vectorClockRecentlySeen.entryFor ontoCs)) := by
  intro self onto toRebaseCs ontoCs trIdx onIdx trE onE rootW C U h1 h2 h3 h4
  unfold WorkspaceSnapshotGraph.findUnorderedContainerMembershipConflictsAndUpdates at h4
  rw [h1] at h4
  simp only [except_bind_ok] at h4
  rw [h2] at h4
  simp only [except_bind_ok] at h4
  rw [h3] at h4
  simp only [except_bind_ok] at h4
  cases hf1 : (trE.filter (fun p => (onE.find? (fun q => q.1 = p.1)).isNone)).foldlM
      (unorderedOnlyToRebaseStep self toRebaseCs ontoCs
        (rootW.vectorClockRecentlySeen.entryFor ontoCs)) ([], []) with
  | error e => rw [hf1] at h4; exact absurd h4 (by simp [except_bind_err])
  | ok acc1 =>
    obtain ⟨c1, u1⟩ := acc1
    rw [hf1] at h4
    simp only [except_bind_ok] at h4
    cases hf2 : (onE.filter (fun p => (trE.find? (fun q => q.1 = p.1)).isNone)).foldlM
        (unorderedOnlyOntoStep onto ontoCs trIdx
          (rootW.vectorClockRecentlySeen.entryFor ontoCs)) (c1, u1) with
    | error e => rw [hf2] at h4; exact absurd h4 (by simp [except_bind_err])
    | ok acc2 =>
      obtain ⟨c2, u2⟩ := acc2
      rw [hf2] at h4
      simp only [except_bind_ok] at h4
      cases h4
      obtain ⟨hC1, hU1⟩ := foldlM_unorderedOnlyToRebase self toRebaseCs ontoCs
        (rootW.vectorClockRecentlySeen.entryFor ontoCs) _ ([], []) c1 u1 hf1
      obtain ⟨hC2, hU2⟩ := foldlM_unorderedOnlyOnto onto ontoCs trIdx
        (rootW.vectorClockRecentlySeen.entryFor ontoCs) _ (c1, u1) C U hf2
      simp only [List.nil_append] at hC1 hU1
      constructor
      · rw [hC2, hC1]
      · rw [hU2, hU1]

/-- Witness instantiating the case analysis at the counterexample state,
where the single onto-only edge has a present-but-stale first-seen entry
(3 ≤ pivot 5), so neither a NewEdge nor a RemoveModifiedItem is emitted. -/
theorem unordered_container_membership_case_analysis_witness :
    ([] : List Conflict) =
      (([] : List (UniqueEdgeInfo × EdgeInfo)).flatMap
        (unorderedOnlyToRebaseEmittedConflicts c5self ⟨2⟩ ⟨1⟩ (some 5))) ++
      ([((EdgeWeightKind.uses, 120), (⟨2, 0⟩ : EdgeInfo))].flatMap
        (unorderedOnlyOntoEmittedConflicts c5onto ⟨1⟩ 1 (some 5))) ∧
    ([] : List Update) =
      (([] : List (UniqueEdgeInfo × EdgeInfo)).flatMap
        (unorderedOnlyToRebaseEmittedUpdates c5self ⟨2⟩ ⟨1⟩ (some 5))) ∧
    ([] : List Update) =
      (([] : List (UniqueEdgeInfo × EdgeInfo)).flatMap
        (unorderedOnlyToRebaseEmittedUpdates c5self ⟨2⟩ ⟨1⟩ (some 5))) ++
      ([((EdgeWeightKind.uses, 120), (⟨2, 0⟩ : EdgeInfo))].flatMap
        (unorderedOnlyOntoEmittedUpdates c5onto ⟨1⟩ 1 (some 5))) := by
  have h := unordered_container_membership_case_analysis c5self c5onto ⟨2⟩ ⟨1⟩
    1 1 [] [((EdgeWeightKind.uses, 120), ⟨2, 0⟩)]
    (nodeWeightOrDefault (c5self.getNodeWeight c5self.rootIndex)) [] []
    (by rfl) (by rfl) (by rfl) (by rfl)
  refine ⟨?_, by rfl, ?_⟩
  · exact h.1.trans (by rfl)
  · exact h.2.trans (by rfl)

/-- Every stored edge leaves a node slot that exists. -/
def edgesSrcInRange (g : WorkspaceSnapshotGraph) : Prop :=
  ∀ i e, g.edges.get? i = some (some e) → e.src < g.nodes.length

lemma list_set_concat_length {α : Type} (l : List α) (a b : α) :
    (l ++ [a]).set l.length b = l ++ [b] := by
  induction l with
  | nil => rfl
  | cons x xs ih => simp [List.set, ih]

lemma activeEdges_mem_iff (g : WorkspaceSnapshotGraph) (i : Nat) (e : GraphEdge) :
    (i, e) ∈ g.activeEdges ↔ g.edges.get? i = some (some e) := by
  unfold WorkspaceSnapshotGraph.activeEdges
  rw [List.mem_filterMap]
  constructor
  · rintro ⟨⟨j, oe⟩, hmem, hcase⟩
    cases oe with
    | none => simp at hcase
    | some e2 =>
      simp only [Option.some.injEq, Prod.mk.injEq] at hcase
      obtain ⟨rfl, rfl⟩ := hcase
      rw [List.get?_eq_getElem?]
      exact (List.mk_mem_enum_iff_getElem?).mp hmem
  · intro hget
    refine ⟨(i, some e), ?_, rfl⟩
    rw [List.mk_mem_enum_iff_getElem?, ← List.get?_eq_getElem?]
    exact hget

lemma edgesDirectedOut_fresh (g : WorkspaceSnapshotGraph) (w : NodeWeight)
    (h : edgesSrcInRange g) :
    WorkspaceSnapshotGraph.edgesDirectedOut
      { g with nodes := g.nodes ++ [some w] } g.nodes.length = [] := by
  unfold WorkspaceSnapshotGraph.edgesDirectedOut
  rw [List.reverse_eq_nil_iff, List.filter_eq_nil_iff]
  rintro ⟨i, e⟩ hp
  have hget : g.edges.get? i = some (some e) :=
    (activeEdges_mem_iff { g with nodes := g.nodes ++ [some w] } i e).mp hp
  have := h i e hget
  simp only [decide_eq_true_eq]
  omega

lemma addNode_fresh (g : WorkspaceSnapshotGraph) (w : NodeWeight)
    (h : edgesSrcInRange g) :
    g.addNode w = .ok
      ({ g with nodes := g.nodes ++ [some (w.setMerkleTreeHash (contentOnlyMerkleHash w))] },
       g.nodes.length) := by
  unfold WorkspaceSnapshotGraph.addNode WorkspaceSnapshotGraph.rawAddNode
  unfold WorkspaceSnapshotGraph.updateMerkleTreeHash
  have hget : WorkspaceSnapshotGraph.getNodeWeight
      { g with nodes := g.nodes ++ [some w] } g.nodes.length = .ok w := by
    unfold WorkspaceSnapshotGraph.getNodeWeight
    rw [List.get?_concat_length]
  simp only [hget, edgesDirectedOut_fresh g w h, except_bind_ok]
  simp only [List.map_nil, sortNat, List.foldlM_nil, except_bind_ok]
  simp only [Except.map, list_set_concat_length]
  rfl

lemma updateEdge_nodes (g : WorkspaceSnapshotGraph) (a b : Nat) (w : EdgeWeight) :
    ((g.updateEdge a b w).1).nodes = g.nodes := by
  unfold WorkspaceSnapshotGraph.updateEdge
  cases g.activeEdges.find? (fun p => p.2.src = a && p.2.tgt = b) with
  | none => rfl
  | some q => rfl

lemma updateEdge_range (g : WorkspaceSnapshotGraph) (a b : Nat) (w : EdgeWeight)
    (hg : edgesSrcInRange g) (ha : a < g.nodes.length) :
    edgesSrcInRange ((g.updateEdge a b w).1) := by
  unfold WorkspaceSnapshotGraph.updateEdge
  cases hfind : g.activeEdges.find? (fun p => p.2.src = a && p.2.tgt = b) with
  | none =>
    intro i e hi
    simp only at hi
    by_cases hlt : i < g.edges.length
    · rw [List.get?_append hlt] at hi
      exact hg i e hi
    · have hi2 : i = g.edges.length := by
        rcases Nat.lt_or_ge i (g.edges.length + 1) with h1 | h1
        · omega
        · rw [List.get?_eq_none.mpr (by simp; omega)] at hi
          cases hi
      subst hi2
      rw [List.get?_concat_length] at hi
      cases hi
      exact ha
  | some q =>
    obtain ⟨j, e0⟩ := q
    intro i e hi
    simp only at hi
    by_cases hij : j = i
    · subst hij
      rw [List.get?_set_eq] at hi
      cases hget : g.edges.get? j with
      | none => rw [hget] at hi; cases hi
      | some oe =>
        rw [hget] at hi
        simp only [Option.map_some, Option.some.injEq] at hi
        cases hi
        exact ha
    · rw [List.get?_set_ne _ _ hij] at hi
      exact hg i e hi

lemma importEdgeStep_fold_nodes (m1 : List (Nat × Nat)) (newIdx : Nat) :
    ∀ (l : List (Nat × GraphEdge)) (gAcc g2 : WorkspaceSnapshotGraph),
    l.foldlM (importEdgeStep m1 newIdx) gAcc = .ok g2 →
    g2.nodes = gAcc.nodes ∧
    (edgesSrcInRange gAcc → newIdx < gAcc.nodes.length → edgesSrcInRange g2) := by
  intro l
  induction l with
  | nil =>
    intro gAcc g2 h
    simp only [List.foldlM_nil] at h
    cases h
    exact ⟨rfl, fun h _ => h⟩
  | cons p rest ih =>
    intro gAcc g2 h
    rw [List.foldlM_cons] at h
    unfold importEdgeStep at h
    cases hlook : m1.lookup p.2.tgt with
    | none => rw [hlook] at h; exact absurd h (by simp [except_bind_err])
    | some mapped =>
      rw [hlook, except_bind_ok] at h
      obtain ⟨hnodes, hrange⟩ := ih _ g2 h
      rw [updateEdge_nodes] at hnodes
      refine ⟨hnodes, fun hg hidx => ?_⟩
      apply hrange
      · exact updateEdge_range gAcc newIdx mapped p.2.weight hg hidx
      · rw [updateEdge_nodes]; exact hidx

lemma lookup_mem {β : Type} : ∀ (m : List (Nat × β)) (k : Nat) (v : β),
    m.lookup k = some v → (k, v) ∈ m := by
  intro m
  induction m with
  | nil => intro k v h; cases h
  | cons q rest ih =>
    obtain ⟨a, b⟩ := q
    intro k v h
    rw [List.lookup_cons] at h
    by_cases hk : (k == a) = true
    · simp only [hk] at h
      cases h
      have hka : k = a := beq_iff_eq.mp hk
      subst hka
      exact List.mem_cons_self _ _
    · simp only [Bool.not_eq_true] at hk
      simp only [hk] at h
      exact List.mem_cons_of_mem _ (ih k v h)

lemma importSubgraphAux_invariant (other : WorkspaceSnapshotGraph) :
    ∀ (po : List Nat) (g : WorkspaceSnapshotGraph) (m : List (Nat × Nat))
      (g2 : WorkspaceSnapshotGraph) (m2 : List (Nat × Nat)),
    WorkspaceSnapshotGraph.importSubgraphAux other po g m = .ok (g2, m2) →
    edgesSrcInRange g →
    (∀ q ∈ m, ∃ w, other.getNodeWeight q.1 = .ok w ∧
      g.nodes.get? q.2 = some (some (w.setMerkleTreeHash (contentOnlyMerkleHash w)))) →
    edgesSrcInRange g2 ∧
    ∀ q ∈ m2, ∃ w, other.getNodeWeight q.1 = .ok w ∧
      g2.nodes.get? q.2 = some (some (w.setMerkleTreeHash (contentOnlyMerkleHash w))) := by
  intro po
  induction po with
  | nil =>
    intro g m g2 m2 h hrange hm
    unfold WorkspaceSnapshotGraph.importSubgraphAux at h
    cases h
    exact ⟨hrange, hm⟩
  | cons idx rest ih =>
    intro g m g2 m2 h hrange hm
    unfold WorkspaceSnapshotGraph.importSubgraphAux at h
    cases hw : other.getNodeWeight idx with
    | error e => rw [hw] at h; exact absurd h (by simp [except_bind_err])
    | ok w =>
      simp only [hw, except_bind_ok, addNode_fresh g w hrange] at h
      cases hfold : ((other.edgesDirectedOut idx).foldlM
          (importEdgeStep ((idx, g.nodes.length) :: m) g.nodes.length)
          { g with nodes := g.nodes ++
              [some (w.setMerkleTreeHash (contentOnlyMerkleHash w))] }) with
      | error e => simp only [hfold, except_bind_err] at h; cases h
      | ok gB =>
        simp only [hfold, except_bind_ok] at h
        obtain ⟨hnodes, hrangeB⟩ := importEdgeStep_fold_nodes _ _ _ _ _ hfold
        have hrangeA : edgesSrcInRange { g with nodes := g.nodes ++
            [some (w.setMerkleTreeHash (contentOnlyMerkleHash w))] } := by
          intro i e hi
          have := hrange i e hi
          simp only [List.length_append, List.length_singleton]
          omega
        have hlenA : g.nodes.length < (g.nodes ++
            [some (w.setMerkleTreeHash (contentOnlyMerkleHash w))]).length := by
          simp
        apply ih gB ((idx, g.nodes.length) :: m) g2 m2 h
          (hrangeB hrangeA hlenA)
        intro q hq
        cases hq with
        | head =>
          refine ⟨w, hw, ?_⟩
          rw [hnodes]
          exact List.get?_concat_length _ _
        | tail _ hq2 =>
          obtain ⟨wq, hwq, hgetq⟩ := hm q hq2
          refine ⟨wq, hwq, ?_⟩
          rw [hnodes]
          have hlt : q.2 < g.nodes.length := by
            have := List.get?_eq_some.mp hgetq
            exact this.1
          rw [List.get?_append hlt]
          exact hgetq

/-- C7 (amended): whenever import_subgraph succeeds on a well-formed target
graph, the copy of the subgraph root carries the original weight with its
merkle hash recomputed from the content hash alone (the recomputation in
add_node happens before the copied outgoing edges exist and is never
refreshed), so Merkle equality with the original holds only for childless
nodes. -/
theorem import_subgraph_copies_hash_content_only :
    ∀ (g other : WorkspaceSnapshotGraph) (r : Nat) (w : NodeWeight)
      (g2 : WorkspaceSnapshotGraph) (newRoot : Nat),
    edgesSrcInRange g →
    other.getNodeWeight r = .ok w →
    g.importSubgraph other r = .ok (g2, newRoot) →
    g2.getNodeWeight newRoot =
      .ok (w.setMerkleTreeHash (contentOnlyMerkleHash w)) := by
  intro g other r w g2 newRoot hrange hw h
  unfold WorkspaceSnapshotGraph.importSubgraph at h
  cases haux : WorkspaceSnapshotGraph.importSubgraphAux other
      (other.dfsPostOrder r) g [] with
  | error e => simp only [haux, except_bind_err] at h; cases h
  | ok res =>
    obtain ⟨g1, m⟩ := res
    simp only [haux, except_bind_ok] at h
    cases hlook : m.lookup r with
    | none => simp only [hlook] at h; cases h
    | some nr =>
      simp only [hlook] at h
      cases h
      obtain ⟨_, hinv⟩ := importSubgraphAux_invariant other
        (other.dfsPostOrder r) g [] g2 m haux hrange (by intro q hq; cases hq)
      obtain ⟨w2, hw2, hget⟩ := hinv (r, newRoot) (lookup_mem m r newRoot hlook)
      rw [hw] at hw2
      cases hw2
      unfold WorkspaceSnapshotGraph.getNodeWeight
      rw [hget]

def importScenarioResultGraph : WorkspaceSnapshotGraph :=
  match importScenarioResult with
  | .ok (g, _) => g
  | .error _ => ⟨[], [], 0⟩

def importScenarioNewRoot : Nat :=
  match importScenarioResult with
  | .ok (_, r) => r
  | .error _ => 0

/-- Witness instantiating the content-only-merkle property of imported
copies on the concrete import scenario. -/
theorem import_subgraph_copies_hash_content_only_witness :
    importScenarioResultGraph.getNodeWeight importScenarioNewRoot =
      .ok ((nodeWeightOrDefault
          (importScenarioOtherGraph.getNodeWeight importScenarioRootIdx)).setMerkleTreeHash
        (contentOnlyMerkleHash (nodeWeightOrDefault
          (importScenarioOtherGraph.getNodeWeight importScenarioRootIdx)))) := by
  exact import_subgraph_copies_hash_content_only
    (WorkspaceSnapshotGraph.newGraph csNew 300) importScenarioOtherGraph
    importScenarioRootIdx
    (nodeWeightOrDefault (importScenarioOtherGraph.getNodeWeight importScenarioRootIdx))
    importScenarioResultGraph importScenarioNewRoot
    (by intro i e h; cases h) (by rfl) (by rfl)

/-- At most one edge per ordered pair of endpoints among the live edge
slots. -/
def noDupEdges (el : List (Option GraphEdge)) : Prop :=
  ∀ i j e f, i ≠ j → el.get? i = some (some e) → el.get? j = some (some f) →
    ¬(e.src = f.src ∧ e.tgt = f.tgt)

lemma updateEdge_noDup (g : WorkspaceSnapshotGraph) (a b : Nat) (w : EdgeWeight)
    (h : noDupEdges g.edges) : noDupEdges ((g.updateEdge a b w).1).edges := by
  unfold WorkspaceSnapshotGraph.updateEdge
  cases hfind : g.activeEdges.find? (fun p => p.2.src = a && p.2.tgt = b) with
  | some q =>
    obtain ⟨i0, e0⟩ := q
    have hpred := List.find?_some hfind
    simp only [Bool.and_eq_true, decide_eq_true_eq] at hpred
    have hmem : g.edges.get? i0 = some (some e0) :=
      (activeEdges_mem_iff g i0 e0).mp (List.mem_of_find?_eq_some hfind)
    intro i j e f hij hi hj
    simp only at hi hj
    by_cases hii : i0 = i
    · subst hii
      rw [List.get?_set_eq, hmem] at hi
      simp only [Option.map_some, Option.some.injEq] at hi
      cases hi
      rw [List.get?_set_ne _ _ (by omega)] at hj
      intro ⟨h1, h2⟩
      exact h i0 j e0 f hij hmem hj ⟨hpred.1.trans h1, hpred.2.trans h2⟩
    · rw [List.get?_set_ne _ _ hii] at hi
      by_cases hjj : i0 = j
      · subst hjj
        rw [List.get?_set_eq, hmem] at hj
        simp only [Option.map_some, Option.some.injEq] at hj
        cases hj
        intro ⟨h1, h2⟩
        exact h i i0 e e0 hij hi hmem ⟨h1.trans hpred.1.symm, h2.trans hpred.2.symm⟩
      · rw [List.get?_set_ne _ _ hjj] at hj
        exact h i j e f hij hi hj
  | none =>
    have hnone := List.find?_eq_none.mp hfind
    intro i j e f hij hi hj
    simp only at hi hj
    by_cases hilt : i < g.edges.length
    · rw [List.get?_append hilt] at hi
      by_cases hjlt : j < g.edges.length
      · rw [List.get?_append hjlt] at hj
        exact h i j e f hij hi hj
      · have hj2 : j = g.edges.length := by
          rcases Nat.lt_or_ge j (g.edges.length + 1) with h1 | h1
          · omega
          · rw [List.get?_eq_none.mpr (by simp; omega)] at hj
            cases hj
        subst hj2
        rw [List.get?_concat_length] at hj
        cases hj
        intro ⟨h1, h2⟩
        exact absurd (show ((fun p => p.2.src = a && p.2.tgt = b) (i, e)) = true by
            simp only [Bool.and_eq_true, decide_eq_true_eq]
            exact ⟨h1, h2⟩)
          (by simpa using hnone (i, e) ((activeEdges_mem_iff g i e).mpr hi))
    · have hi2 : i = g.edges.length := by
        rcases Nat.lt_or_ge i (g.edges.length + 1) with h1 | h1
        · omega
        · rw [List.get?_eq_none.mpr (by simp; omega)] at hi
          cases hi
      subst hi2
      rw [List.get?_concat_length] at hi
      cases hi
      by_cases hjlt : j < g.edges.length
      · rw [List.get?_append hjlt] at hj
        intro ⟨h1, h2⟩
        exact absurd (show ((fun p => p.2.src = a && p.2.tgt = b) (j, f)) = true by
            simp only [Bool.and_eq_true, decide_eq_true_eq]
            exact ⟨h1.symm, h2.symm⟩)
          (by simpa using hnone (j, f) ((activeEdges_mem_iff g j f).mpr hj))
      · have hj2 : j = g.edges.length := by
          rcases Nat.lt_or_ge j (g.edges.length + 1) with h1 | h1
          · omega
          · rw [List.get?_eq_none.mpr (by simp; omega)] at hj
            cases hj
        omega

lemma foldl_noDup {α : Type} (step : WorkspaceSnapshotGraph → α → WorkspaceSnapshotGraph)
    (hstep : ∀ g x, noDupEdges g.edges → noDupEdges ((step g x).edges)) :
    ∀ (l : List α) (g : WorkspaceSnapshotGraph),
      noDupEdges g.edges → noDupEdges ((l.foldl step g).edges) := by
  intro l
  induction l with
  | nil => intro g h; exact h
  | cons x rest ih =>
    intro g h
    rw [List.foldl_cons]
    exact ih _ (hstep g x h)

lemma removeEdge_noDup (g : WorkspaceSnapshotGraph) (i : Nat)
    (h : noDupEdges g.edges) : noDupEdges ((g.removeEdge i).edges) := by
  intro a b e f hab ha hb
  simp only [WorkspaceSnapshotGraph.removeEdge] at ha hb
  by_cases hia : i = a
  · subst hia
    rw [List.get?_set_eq] at ha
    cases hg : g.edges.get? i with
    | none => rw [hg] at ha; cases ha
    | some oe =>
      rw [hg] at ha
      simp only [Option.map_some, Option.some.injEq] at ha
      cases ha
  · rw [List.get?_set_ne _ _ hia] at ha
    by_cases hib : i = b
    · subst hib
      rw [List.get?_set_eq] at hb
      cases hg : g.edges.get? i with
      | none => rw [hg] at hb; cases hb
      | some oe =>
        rw [hg] at hb
        simp only [Option.map_some, Option.some.injEq] at hb
        cases hb
    · rw [List.get?_set_ne _ _ hib] at hb
      exact h a b e f hab ha hb

lemma cleanup_noDup (g : WorkspaceSnapshotGraph)
    (h : noDupEdges g.edges) : noDupEdges g.cleanup.edges := by
  have key : ∀ k e, g.cleanup.edges.get? k = some (some e) →
      g.edges.get? k = some (some e) := by
    intro k e hk
    simp only [WorkspaceSnapshotGraph.cleanup, List.get?_map] at hk
    cases hg : g.edges.get? k with
    | none => rw [hg] at hk; cases hk
    | some oe =>
      rw [hg, Option.map_some'] at hk
      injection hk with hk2
      cases oe with
      | none => cases hk2
      | some e2 =>
        have hk3 : (if (decide (e2.src ∈ g.reachSet g.rootIndex) &&
            decide (e2.tgt ∈ g.reachSet g.rootIndex)) = true
            then some e2 else none) = some e := hk2
        by_cases hc : (decide (e2.src ∈ g.reachSet g.rootIndex) &&
            decide (e2.tgt ∈ g.reachSet g.rootIndex)) = true
        · rw [if_pos hc] at hk3
          cases hk3
          rfl
        · rw [if_neg hc] at hk3
          cases hk3
  intro a b e f hab ha hb
  exact h a b e f hab (key a e ha) (key b f hb)

lemma updateMerkleTreeHash_edges (g : WorkspaceSnapshotGraph) (i : Nat)
    (g2 : WorkspaceSnapshotGraph) (h : g.updateMerkleTreeHash i = .ok g2) :
    g2.edges = g.edges := by
  unfold WorkspaceSnapshotGraph.updateMerkleTreeHash at h
  cases hw : g.getNodeWeight i with
  | error e => rw [hw] at h; exact absurd h (by simp [except_bind_err])
  | ok w =>
    simp only [hw, except_bind_ok] at h
    cases hfold : (sortNat ((g.edgesDirectedOut i).map (fun p => p.2.tgt))).foldlM
        (fun hh t => do
          let tw ← g.getNodeWeight t
          pure (hh.update tw.merkleTreeHash.toBytes))
        (ContentHasher.init.update w.contentHash.toBytes) with
    | error e =>
      rw [hfold, except_bind_err] at h
      cases h
    | ok hasher =>
      rw [hfold, except_bind_ok] at h
      injection h with h1
      rw [← h1]

lemma copyNodeIndex_edges (g : WorkspaceSnapshotGraph) (cs : ChangeSet) (i : Nat)
    (g2 : WorkspaceSnapshotGraph) (n : Nat) (h : g.copyNodeIndex cs i = .ok (g2, n)) :
    g2.edges = g.edges := by
  unfold WorkspaceSnapshotGraph.copyNodeIndex at h
  cases hw : g.getNodeWeight i with
  | error e => rw [hw] at h; exact absurd h (by simp [except_bind_err])
  | ok w =>
    rw [hw, except_bind_ok] at h
    simp only [WorkspaceSnapshotGraph.rawAddNode] at h
    injection h with h1
    injection h1 with h2 h3
    rw [← h2]

lemma addNode_edges (g : WorkspaceSnapshotGraph) (w : NodeWeight)
    (g2 : WorkspaceSnapshotGraph) (i : Nat) (h : g.addNode w = .ok (g2, i)) :
    g2.edges = g.edges := by
  unfold WorkspaceSnapshotGraph.addNode at h
  simp only [WorkspaceSnapshotGraph.rawAddNode] at h
  cases hm : WorkspaceSnapshotGraph.updateMerkleTreeHash
      { g with nodes := g.nodes ++ [some w] } g.nodes.length with
  | error e => rw [hm] at h; exact absurd h (by simp [except_bind_err])
  | ok gm =>
    rw [hm, except_bind_ok] at h
    injection h with h1
    injection h1 with h2 h3
    rw [← h2]
    exact updateMerkleTreeHash_edges { g with nodes := g.nodes ++ [some w] }
      g.nodes.length gm hm

lemma replaceRefTail_noDup (cs : ChangeSet) (original oldNode : Nat) (rest : List Nat)
    (ih : ∀ (g : WorkspaceSnapshotGraph) (m : List (Nat × Nat)), noDupEdges g.edges →
      noDupEdges ((WorkspaceSnapshotGraph.replaceReferencesAux cs original rest g m).1).edges)
    (g1 : WorkspaceSnapshotGraph) (m1 : List (Nat × Nat)) (newIdx : Nat)
    (h1 : noDupEdges g1.edges) :
    noDupEdges ((match
        (((g1.edgesDirectedOut oldNode).map
          (fun (p : Nat × GraphEdge) =>
            (p.2.weight.newWithIncrementedVectorClocks cs, p.2.tgt))).foldl
          (fun (gAcc : WorkspaceSnapshotGraph) (ed : EdgeWeight × Nat) =>
            (gAcc.updateEdge newIdx ((m1.lookup ed.2).getD ed.2) ed.1).1)
          g1).updateMerkleTreeHash newIdx with
      | .error e =>
        ((((g1.edgesDirectedOut oldNode).map
          (fun (p : Nat × GraphEdge) =>
            (p.2.weight.newWithIncrementedVectorClocks cs, p.2.tgt))).foldl
          (fun (gAcc : WorkspaceSnapshotGraph) (ed : EdgeWeight × Nat) =>
            (gAcc.updateEdge newIdx ((m1.lookup ed.2).getD ed.2) ed.1).1)
          g1), m1, some e)
      | .ok g3 =>
        WorkspaceSnapshotGraph.replaceReferencesAux cs original rest
          (match m1.lookup g3.rootIndex with
           | some newRoot => { g3 with rootIndex := newRoot }
           | none => g3) m1).1.edges) := by
  have h2 : noDupEdges ((((g1.edgesDirectedOut oldNode).map
      (fun (p : Nat × GraphEdge) =>
        (p.2.weight.newWithIncrementedVectorClocks cs, p.2.tgt))).foldl
      (fun (gAcc : WorkspaceSnapshotGraph) (ed : EdgeWeight × Nat) =>
        (gAcc.updateEdge newIdx ((m1.lookup ed.2).getD ed.2) ed.1).1)
      g1).edges) :=
    foldl_noDup
      (fun (gAcc : WorkspaceSnapshotGraph) (ed : EdgeWeight × Nat) =>
        (gAcc.updateEdge newIdx ((m1.lookup ed.2).getD ed.2) ed.1).1)
      (fun g x hx => updateEdge_noDup g newIdx ((m1.lookup x.2).getD x.2) x.1 hx)
      _ g1 h1
  cases hmk : (((g1.edgesDirectedOut oldNode).map
      (fun (p : Nat × GraphEdge) =>
        (p.2.weight.newWithIncrementedVectorClocks cs, p.2.tgt))).foldl
      (fun (gAcc : WorkspaceSnapshotGraph) (ed : EdgeWeight × Nat) =>
        (gAcc.updateEdge newIdx ((m1.lookup ed.2).getD ed.2) ed.1).1)
      g1).updateMerkleTreeHash newIdx with
  | error e => exact h2
  | ok g3 =>
    have h3 : g3.edges = ((((g1.edgesDirectedOut oldNode).map
        (fun p => (p.2.weight.newWithIncrementedVectorClocks cs, p.2.tgt))).foldl
        (fun gAcc ed => (gAcc.updateEdge newIdx ((m1.lookup ed.2).getD ed.2) ed.1).1)
        g1).edges) := updateMerkleTreeHash_edges _ _ _ hmk
    show noDupEdges ((WorkspaceSnapshotGraph.replaceReferencesAux cs original rest
        (match m1.lookup g3.rootIndex with
         | some newRoot => { g3 with rootIndex := newRoot }
         | none => g3) m1).1.edges)
    cases m1.lookup g3.rootIndex with
    | some newRoot =>
      apply ih { g3 with rootIndex := newRoot } m1
      show noDupEdges g3.edges
      rw [h3]
      exact h2
    | none =>
      apply ih g3 m1
      rw [h3]
      exact h2

lemma replaceReferencesAux_noDup (cs : ChangeSet) (original : Nat) :
    ∀ (po : List Nat) (g : WorkspaceSnapshotGraph) (m : List (Nat × Nat)),
    noDupEdges g.edges →
    noDupEdges ((WorkspaceSnapshotGraph.replaceReferencesAux cs original po g m).1).edges := by
  intro po
  induction po with
  | nil => intro g m h; exact h
  | cons oldNode rest ih =>
    intro g m h
    simp only [WorkspaceSnapshotGraph.replaceReferencesAux]
    by_cases hpath : g.isOnPathBetween g.rootIndex original oldNode = true
    · rw [if_pos hpath]
      cases hlook : m.lookup oldNode with
      | some found =>
        exact replaceRefTail_noDup cs original oldNode rest ih g m found h
      | none =>
        cases hcopy : g.copyNodeIndex cs oldNode with
        | error e =>
          exact h
        | ok q =>
          obtain ⟨gc, ni⟩ := q
          have hgc : gc.edges = g.edges := copyNodeIndex_edges g cs oldNode gc ni hcopy
          exact replaceRefTail_noDup cs original oldNode rest ih gc ((oldNode, ni) :: m) ni
            (by rw [hgc]; exact h)
    · rw [if_neg hpath]
      exact ih g m h

/-- A public mutation of the snapshot graph (the operations the claim ranges
over: add_node, add_edge, update_content, cleanup, import_subgraph; `new` is
the starting state of a run).  A failed fallible operation keeps the
pre-call graph. -/
inductive GraphOp where
  | addNode (w : NodeWeight)
  | addEdge (cs : ChangeSet) (fromIdx : Nat) (w : EdgeWeight) (toIdx : Nat)
  | updateContent (cs : ChangeSet) (id : Ulid) (newHash : ContentHash)
  | cleanup
  | importSubgraph (other : WorkspaceSnapshotGraph) (rootIdx : Nat)

def applyGraphOp (g : WorkspaceSnapshotGraph) : GraphOp → WorkspaceSnapshotGraph
  | .addNode w =>
    match g.addNode w with
    | .ok (g2, _) => g2
    | .error _ => g
  | .addEdge cs a w b => (g.addEdge cs a w b).1
  | .updateContent cs id newHash => (g.updateContent cs id newHash).1
  | .cleanup => g.cleanup
  | .importSubgraph other r =>
    match g.importSubgraph other r with
    | .ok (g2, _) => g2
    | .error _ => g

/-- The graph obtained from `WorkspaceSnapshotGraph::new` by a sequence of
public mutations. -/
def runGraphOps (cs : ChangeSet) (rootId : Ulid) (ops : List GraphOp) :
    WorkspaceSnapshotGraph :=
  ops.foldl applyGraphOp (WorkspaceSnapshotGraph.newGraph cs rootId)

lemma replaceReferences_noDup (g : WorkspaceSnapshotGraph) (cs : ChangeSet)
    (original newIdx : Nat) (h : noDupEdges g.edges) :
    noDupEdges (((g.replaceReferences cs original newIdx).1).edges) := by
  unfold WorkspaceSnapshotGraph.replaceReferences
  exact replaceReferencesAux_noDup cs original _ g [(original, newIdx)] h

lemma addEdgeTail_noDup (cs : ChangeSet) (fromIdx b newFromIdx : Nat)
    (w2 : EdgeWeight) (g3 : WorkspaceSnapshotGraph) (h3 : noDupEdges g3.edges) :
    noDupEdges ((match
        ((g3.updateEdge newFromIdx b w2).1).updateMerkleTreeHash newFromIdx with
      | .error e => ((g3.updateEdge newFromIdx b w2).1, Except.error e)
      | .ok g5 =>
        match g5.replaceReferences cs fromIdx newFromIdx with
        | (g6, some e) => (g6, Except.error e)
        | (g6, none) =>
          (g6, (Except.ok (g3.updateEdge newFromIdx b w2).2 :
            Except GraphError Nat))).1.edges) := by
  have h4 : noDupEdges ((g3.updateEdge newFromIdx b w2).1).edges :=
    updateEdge_noDup g3 newFromIdx b w2 h3
  cases hmk : ((g3.updateEdge newFromIdx b w2).1).updateMerkleTreeHash newFromIdx with
  | error e => exact h4
  | ok g5 =>
    have h5 : noDupEdges g5.edges := by
      rw [updateMerkleTreeHash_edges _ _ _ hmk]
      exact h4
    have h6 := replaceReferences_noDup g5 cs fromIdx newFromIdx h5
    show noDupEdges ((match g5.replaceReferences cs fromIdx newFromIdx with
      | (g6, some e) => (g6, Except.error e)
      | (g6, none) =>
        (g6, (Except.ok (g3.updateEdge newFromIdx b w2).2 :
          Except GraphError Nat))).1.edges)
    cases hrr : g5.replaceReferences cs fromIdx newFromIdx with
    | mk g6 oe =>
      rw [hrr] at h6
      cases oe with
      | some e => exact h6
      | none => exact h6

lemma addEdge_noDup (g : WorkspaceSnapshotGraph) (cs : ChangeSet) (a : Nat)
    (w : EdgeWeight) (b : Nat) (h : noDupEdges g.edges) :
    noDupEdges (((g.addEdge cs a w b).1).edges) := by
  have h1 : noDupEdges ((g.updateEdge a b w).1).edges := updateEdge_noDup g a b w h
  unfold WorkspaceSnapshotGraph.addEdge
  generalize hup : g.updateEdge a b w = q
  rw [hup] at h1
  obtain ⟨g1, tempEdge⟩ := q
  have h2 : noDupEdges ((g1.removeEdge tempEdge).edges) :=
    removeEdge_noDup g1 tempEdge h1
  show noDupEdges ((if (!g1.isAcyclicDirected) = true then
      (g1.removeEdge tempEdge,
       (Except.error GraphError.createGraphCycle : Except GraphError Nat))
    else
      match (g1.removeEdge tempEdge).copyNodeIndex cs a with
      | .error e => (g1.removeEdge tempEdge, Except.error e)
      | .ok (g3, newFromIdx) =>
        match ((g3.updateEdge newFromIdx b
            (w.incrementVectorClocks cs)).1).updateMerkleTreeHash newFromIdx with
        | .error e => ((g3.updateEdge newFromIdx b (w.incrementVectorClocks cs)).1,
            Except.error e)
        | .ok g5 =>
          match g5.replaceReferences cs a newFromIdx with
          | (g6, some e) => (g6, Except.error e)
          | (g6, none) => (g6, Except.ok (g3.updateEdge newFromIdx b
              (w.incrementVectorClocks cs)).2)).1.edges)
  by_cases hcyc : (!g1.isAcyclicDirected) = true
  · rw [if_pos hcyc]
    exact h2
  · rw [if_neg hcyc]
    cases hcopy : (g1.removeEdge tempEdge).copyNodeIndex cs a with
    | error e => exact h2
    | ok q2 =>
      obtain ⟨g3, newFromIdx⟩ := q2
      have h3 : noDupEdges g3.edges := by
        rw [copyNodeIndex_edges _ _ _ _ _ hcopy]
        exact h2
      exact addEdgeTail_noDup cs a b newFromIdx (w.incrementVectorClocks cs) g3 h3

lemma updateContent_noDup (g : WorkspaceSnapshotGraph) (cs : ChangeSet)
    (id : Ulid) (nh : ContentHash) (h : noDupEdges g.edges) :
    noDupEdges (((g.updateContent cs id nh).1).edges) := by
  unfold WorkspaceSnapshotGraph.updateContent
  cases g.getNodeIndexById id with
  | error e => exact h
  | ok originalIdx =>
    show noDupEdges ((match g.copyNodeIndex cs originalIdx with
      | .error e => (g, some e)
      | .ok (g1, newIdx) =>
        match g1.getNodeWeight newIdx with
        | .error e => (g1, some e)
        | .ok w =>
          WorkspaceSnapshotGraph.replaceReferences
            { g1 with nodes := g1.nodes.set newIdx (some (w.withNewContentHash nh)) }
            cs originalIdx newIdx).1.edges)
    cases hcopy : g.copyNodeIndex cs originalIdx with
    | error e => exact h
    | ok q =>
      obtain ⟨g1, newIdx⟩ := q
      have h1 : noDupEdges g1.edges := by
        rw [copyNodeIndex_edges _ _ _ _ _ hcopy]
        exact h
      show noDupEdges ((match g1.getNodeWeight newIdx with
        | .error e => (g1, some e)
        | .ok w =>
          WorkspaceSnapshotGraph.replaceReferences
            { g1 with nodes := g1.nodes.set newIdx (some (w.withNewContentHash nh)) }
            cs originalIdx newIdx).1.edges)
      cases g1.getNodeWeight newIdx with
      | error e => exact h1
      | ok w =>
        exact replaceReferences_noDup
          { g1 with nodes := g1.nodes.set newIdx (some (w.withNewContentHash nh)) }
          cs originalIdx newIdx h1

lemma importEdgeStep_fold_noDup (m1 : List (Nat × Nat)) (newIdx : Nat) :
    ∀ (l : List (Nat × GraphEdge)) (gAcc g2 : WorkspaceSnapshotGraph),
    l.foldlM (importEdgeStep m1 newIdx) gAcc = .ok g2 →
    noDupEdges gAcc.edges → noDupEdges g2.edges := by
  intro l
  induction l with
  | nil =>
    intro gAcc g2 h hd
    simp only [List.foldlM_nil] at h
    cases h
    exact hd
  | cons p rest ih =>
    intro gAcc g2 h hd
    rw [List.foldlM_cons] at h
    unfold importEdgeStep at h
    cases hlook : m1.lookup p.2.tgt with
    | none => rw [hlook] at h; exact absurd h (by simp [except_bind_err])
    | some mapped =>
      rw [hlook, except_bind_ok] at h
      exact ih _ g2 h (updateEdge_noDup gAcc newIdx mapped p.2.weight hd)

lemma importSubgraphAux_noDup (other : WorkspaceSnapshotGraph) :
    ∀ (po : List Nat) (g : WorkspaceSnapshotGraph) (m : List (Nat × Nat))
      (g2 : WorkspaceSnapshotGraph) (m2 : List (Nat × Nat)),
    WorkspaceSnapshotGraph.importSubgraphAux other po g m = .ok (g2, m2) →
    noDupEdges g.edges → noDupEdges g2.edges := by
  intro po
  induction po with
  | nil =>
    intro g m g2 m2 h hd
    unfold WorkspaceSnapshotGraph.importSubgraphAux at h
    cases h
    exact hd
  | cons idx rest ih =>
    intro g m g2 m2 h hd
    unfold WorkspaceSnapshotGraph.importSubgraphAux at h
    cases hw : other.getNodeWeight idx with
    | error e => rw [hw] at h; exact absurd h (by simp [except_bind_err])
    | ok w =>
      simp only [hw, except_bind_ok] at h
      cases hadd : g.addNode w with
      | error e => simp only [hadd, except_bind_err] at h; cases h
      | ok q =>
        obtain ⟨gA, ni⟩ := q
        simp only [hadd, except_bind_ok] at h
        have hA : noDupEdges gA.edges := by
          rw [addNode_edges _ _ _ _ hadd]
          exact hd
        cases hfold : (other.edgesDirectedOut idx).foldlM
            (importEdgeStep ((idx, ni) :: m) ni) gA with
        | error e => rw [hfold, except_bind_err] at h; cases h
        | ok gB =>
          rw [hfold, except_bind_ok] at h
          exact ih gB ((idx, ni) :: m) g2 m2 h
            (importEdgeStep_fold_noDup _ _ _ _ _ hfold hA)

lemma importSubgraph_noDup (g other : WorkspaceSnapshotGraph) (r : Nat)
    (g2 : WorkspaceSnapshotGraph) (n : Nat)
    (h : g.importSubgraph other r = .ok (g2, n)) (hd : noDupEdges g.edges) :
    noDupEdges g2.edges := by
  unfold WorkspaceSnapshotGraph.importSubgraph at h
  cases haux : WorkspaceSnapshotGraph.importSubgraphAux other
      (other.dfsPostOrder r) g [] with
  | error e => simp only [haux, except_bind_err] at h; cases h
  | ok q =>
    obtain ⟨g1, m⟩ := q
    simp only [haux, except_bind_ok] at h
    have h1 : noDupEdges g1.edges :=
      importSubgraphAux_noDup other _ g [] g1 m haux hd
    cases hlook : m.lookup r with
    | some newRoot =>
      rw [hlook] at h
      injection h with h2
      injection h2 with h3 h4
      rw [← h3]
      exact h1
    | none =>
      rw [hlook] at h
      cases h

lemma noDupEdges_nil : noDupEdges [] := by
  intro i j e f hij hi hj
  rw [List.get?_nil] at hi
  cases hi

lemma applyGraphOp_noDup (g : WorkspaceSnapshotGraph) (op : GraphOp)
    (h : noDupEdges g.edges) : noDupEdges ((applyGraphOp g op).edges) := by
  cases op with
  | addNode w =>
    simp only [applyGraphOp]
    cases hadd : g.addNode w with
    | error e => exact h
    | ok q =>
      obtain ⟨g2, i⟩ := q
      show noDupEdges g2.edges
      rw [addNode_edges _ _ _ _ hadd]
      exact h
  | addEdge cs a w b => exact addEdge_noDup g cs a w b h
  | updateContent cs id nh => exact updateContent_noDup g cs id nh h
  | cleanup => exact cleanup_noDup g h
  | importSubgraph other r =>
    simp only [applyGraphOp]
    cases himp : g.importSubgraph other r with
    | error e => exact h
    | ok q =>
      obtain ⟨g2, n⟩ := q
      exact importSubgraph_noDup g other r g2 n himp h

/-- C10: for every ordered pair of node indices, the snapshot graph holds at
most one edge from the first to the second at all times: starting from
`WorkspaceSnapshotGraph::new`, after any sequence of public mutations
(add_node, add_edge, update_content, cleanup, import_subgraph) no two live
edge slots share both their source and target — every insertion (add_edge's
tentative and final edges, replace_references' re-parenting,
import_subgraph's copies) goes through the update-in-place primitive
update_edge, which replaces the existing edge between the endpoints instead
of creating a parallel one. -/
theorem graph_at_most_one_edge_per_direction :
    ∀ (cs : ChangeSet) (rootId : Ulid) (ops : List GraphOp),
    noDupEdges (runGraphOps cs rootId ops).edges := by
  intro cs rootId ops
  unfold runGraphOps
  exact foldl_noDup applyGraphOp applyGraphOp_noDup ops
    (WorkspaceSnapshotGraph.newGraph cs rootId) noDupEdges_nil

/-- One directed edge step: some live edge slot goes from `x` to `y`. -/
def stepRel (g : WorkspaceSnapshotGraph) (x y : Nat) : Prop :=
  ∃ i e, g.edges.get? i = some (some e) ∧ e.src = x ∧ e.tgt = y

lemma mem_reachStep (g : WorkspaceSnapshotGraph) (vs : List Nat) (x : Nat) :
    x ∈ g.reachStep vs ↔ x ∈ vs ∨ ∃ s ∈ vs, stepRel g s x := by
  unfold WorkspaceSnapshotGraph.reachStep
  rw [List.mem_dedup, List.mem_append]
  constructor
  · rintro (hx | hx)
    · exact Or.inl hx
    · rw [List.mem_filterMap] at hx
      obtain ⟨p, hp, hpx⟩ := hx
      by_cases hs : p.2.src ∈ vs
      · rw [if_pos hs] at hpx
        injection hpx with hpx2
        refine Or.inr ⟨p.2.src, hs, p.1, p.2, ?_, rfl, hpx2⟩
        exact (activeEdges_mem_iff g p.1 p.2).mp (by
          have : (p.1, p.2) = p := rfl
          rw [this]; exact hp)
      · rw [if_neg hs] at hpx
        cases hpx
  · rintro (hx | ⟨s, hs, i, e, hget, hsrc, htgt⟩)
    · exact Or.inl hx
    · refine Or.inr ?_
      rw [List.mem_filterMap]
      refine ⟨(i, e), (activeEdges_mem_iff g i e).mpr hget, ?_⟩
      rw [if_pos (by rw [hsrc]; exact hs)]
      rw [htgt]

lemma reachIter_succ_outer (g : WorkspaceSnapshotGraph) :
    ∀ (n : Nat) (vs : List Nat),
      g.reachIter (n + 1) vs = g.reachStep (g.reachIter n vs) := by
  intro n
  induction n with
  | zero => intro vs; rfl
  | succ k ih =>
    intro vs
    show g.reachIter (k + 1) (g.reachStep vs) = _
    rw [ih (g.reachStep vs)]
    rfl

lemma mem_reachIter_of_mem (g : WorkspaceSnapshotGraph) :
    ∀ (n : Nat) (vs : List Nat) (x : Nat), x ∈ vs → x ∈ g.reachIter n vs := by
  intro n
  induction n with
  | zero => intro vs x hx; exact hx
  | succ k ih =>
    intro vs x hx
    show x ∈ g.reachIter k (g.reachStep vs)
    exact ih _ x ((mem_reachStep g vs x).mpr (Or.inl hx))

lemma reachIter_sound (g : WorkspaceSnapshotGraph) :
    ∀ (n : Nat) (vs : List Nat) (y : Nat), y ∈ g.reachIter n vs →
      ∃ v ∈ vs, Relation.ReflTransGen (stepRel g) v y := by
  intro n
  induction n with
  | zero => intro vs y hy; exact ⟨y, hy, Relation.ReflTransGen.refl⟩
  | succ k ih =>
    intro vs y hy
    obtain ⟨v, hv, hrtg⟩ := ih (g.reachStep vs) y hy
    rcases (mem_reachStep g vs v).mp hv with hv2 | ⟨s, hs, hstep⟩
    · exact ⟨v, hv2, hrtg⟩
    · exact ⟨s, hs, Relation.ReflTransGen.head hstep hrtg⟩

lemma reachSet_sound (g : WorkspaceSnapshotGraph) (x y : Nat)
    (h : y ∈ g.reachSet x) : Relation.ReflTransGen (stepRel g) x y := by
  obtain ⟨v, hv, hrtg⟩ := reachIter_sound g g.edges.length [x] y h
  rw [List.mem_singleton] at hv
  rw [← hv]
  exact hrtg

lemma stepRel_tgt_mem (g : WorkspaceSnapshotGraph) (s x : Nat) (h : stepRel g s x) :
    x ∈ g.activeEdges.map (fun p => p.2.tgt) := by
  obtain ⟨i, e, hget, hsrc, htgt⟩ := h
  rw [List.mem_map]
  exact ⟨(i, e), (activeEdges_mem_iff g i e).mpr hget, htgt⟩

lemma reachIter_elems (g : WorkspaceSnapshotGraph) :
    ∀ (n : Nat) (vs : List Nat) (x : Nat), x ∈ g.reachIter n vs →
      x ∈ vs ∨ x ∈ g.activeEdges.map (fun p => p.2.tgt) := by
  intro n
  induction n with
  | zero => intro vs x hx; exact Or.inl hx
  | succ k ih =>
    intro vs x hx
    rcases ih (g.reachStep vs) x hx with h2 | h2
    · rcases (mem_reachStep g vs x).mp h2 with h3 | ⟨s, _, hstep⟩
      · exact Or.inl h3
      · exact Or.inr (stepRel_tgt_mem g s x hstep)
    · exact Or.inr h2

lemma activeEdges_length_le (g : WorkspaceSnapshotGraph) :
    g.activeEdges.length ≤ g.edges.length := by
  unfold WorkspaceSnapshotGraph.activeEdges
  calc (g.edges.enum.filterMap _).length ≤ g.edges.enum.length :=
        List.length_filterMap_le _ _
    _ = g.edges.length := List.enum_length

lemma reachIter_card_bound (g : WorkspaceSnapshotGraph) (a : Nat) (n : Nat) :
    ((g.reachIter n [a]).toFinset).card ≤ g.edges.length + 1 := by
  have hsub : (g.reachIter n [a]).toFinset ⊆
      insert a ((g.activeEdges.map (fun p => p.2.tgt)).toFinset) := by
    intro x hx
    rw [List.mem_toFinset] at hx
    rcases reachIter_elems g n [a] x hx with h | h
    · rw [List.mem_singleton] at h
      rw [h]
      exact Finset.mem_insert_self _ _
    · exact Finset.mem_insert_of_mem (List.mem_toFinset.mpr h)
  calc ((g.reachIter n [a]).toFinset).card
      ≤ (insert a ((g.activeEdges.map (fun p => p.2.tgt)).toFinset)).card :=
        Finset.card_le_card hsub
    _ ≤ ((g.activeEdges.map (fun p => p.2.tgt)).toFinset).card + 1 :=
        Finset.card_insert_le _ _
    _ ≤ (g.activeEdges.map (fun p => p.2.tgt)).length + 1 := by
        have := (g.activeEdges.map (fun p => p.2.tgt)).toFinset_card_le
        omega
    _ ≤ g.edges.length + 1 := by
        rw [List.length_map]
        have := activeEdges_length_le g
        omega

lemma reachStep_mem_congr (g g' : WorkspaceSnapshotGraph)
    (hstep : ∀ x y, stepRel g x y ↔ stepRel g' x y)
    (vs ws : List Nat) (hvs : ∀ v, v ∈ vs ↔ v ∈ ws) (x : Nat) :
    x ∈ g.reachStep vs ↔ x ∈ g'.reachStep ws := by
  rw [mem_reachStep, mem_reachStep]
  constructor
  · rintro (h | ⟨s, hs, h⟩)
    · exact Or.inl ((hvs x).mp h)
    · exact Or.inr ⟨s, (hvs s).mp hs, (hstep s x).mp h⟩
  · rintro (h | ⟨s, hs, h⟩)
    · exact Or.inl ((hvs x).mpr h)
    · exact Or.inr ⟨s, (hvs s).mpr hs, (hstep s x).mpr h⟩

lemma reachIter_mem_congr (g g' : WorkspaceSnapshotGraph)
    (hstep : ∀ x y, stepRel g x y ↔ stepRel g' x y) :
    ∀ (n : Nat) (vs ws : List Nat), (∀ v, v ∈ vs ↔ v ∈ ws) →
      ∀ x, x ∈ g.reachIter n vs ↔ x ∈ g'.reachIter n ws := by
  intro n
  induction n with
  | zero => intro vs ws hvs x; exact hvs x
  | succ k ih =>
    intro vs ws hvs x
    show x ∈ g.reachIter k (g.reachStep vs) ↔ x ∈ g'.reachIter k (g'.reachStep ws)
    exact ih (g.reachStep vs) (g'.reachStep ws)
      (fun v => reachStep_mem_congr g g' hstep vs ws hvs v) x

lemma reachIter_add (g : WorkspaceSnapshotGraph) :
    ∀ (m n : Nat) (vs : List Nat),
      g.reachIter (n + m) vs = g.reachIter m (g.reachIter n vs) := by
  intro m
  induction m with
  | zero => intro n vs; rfl
  | succ k ih =>
    intro n vs
    have h1 : n + (k + 1) = (n + k) + 1 := rfl
    rw [h1, reachIter_succ_outer, ih n vs, ← reachIter_succ_outer]

lemma reachIter_fuel_mono (g : WorkspaceSnapshotGraph) (a : Nat) (n : Nat) (x : Nat)
    (h : x ∈ g.reachIter n [a]) : x ∈ g.reachIter (n + 1) [a] := by
  rw [reachIter_succ_outer]
  exact (mem_reachStep g _ x).mpr (Or.inl h)

lemma reachIter_saturates (g : WorkspaceSnapshotGraph) (a : Nat) :
    ∀ x, x ∈ g.reachStep (g.reachIter g.edges.length [a]) ↔
      x ∈ g.reachIter g.edges.length [a] := by
  by_cases hstab : ∃ i, i ≤ g.edges.length ∧
      ∀ x, x ∈ g.reachIter (i + 1) [a] ↔ x ∈ g.reachIter i [a]
  · obtain ⟨i, hiE, hst⟩ := hstab
    have hid : ∀ x y, stepRel g x y ↔ stepRel g x y := fun x y => Iff.rfl
    have key : ∀ (j : Nat) (x : Nat),
        x ∈ g.reachIter (i + j) [a] ↔ x ∈ g.reachIter i [a] := by
      intro j
      induction j with
      | zero => intro x; rfl
      | succ k ih =>
        intro x
        have h1 : i + (k + 1) = (i + k) + 1 := rfl
        rw [h1, reachIter_succ_outer]
        have h2 : x ∈ g.reachStep (g.reachIter (i + k) [a]) ↔
            x ∈ g.reachStep (g.reachIter i [a]) :=
          reachStep_mem_congr g g hid _ _ ih x
        rw [h2, ← reachIter_succ_outer]
        exact hst x
    have hE : i + (g.edges.length - i) = g.edges.length := by omega
    have hEmem : ∀ x, x ∈ g.reachIter g.edges.length [a] ↔
        x ∈ g.reachIter i [a] := by
      intro x
      rw [← hE]
      exact key (g.edges.length - i) x
    intro x
    have h3 : x ∈ g.reachStep (g.reachIter g.edges.length [a]) ↔
        x ∈ g.reachStep (g.reachIter i [a]) :=
      reachStep_mem_congr g g hid _ _ hEmem x
    rw [h3, ← reachIter_succ_outer, hst x, ← hEmem x]
  · exfalso
    push_neg at hstab
    have hgrow : ∀ i, i ≤ g.edges.length →
        ((g.reachIter i [a]).toFinset).card < ((g.reachIter (i + 1) [a]).toFinset).card := by
      intro i hi
      obtain ⟨x, hx⟩ := hstab i hi
      have hsub : (g.reachIter i [a]).toFinset ⊆ (g.reachIter (i + 1) [a]).toFinset := by
        intro y hy
        rw [List.mem_toFinset] at hy ⊢
        exact reachIter_fuel_mono g a i y hy
      apply Finset.card_lt_card
      rw [Finset.ssubset_iff_of_subset hsub]
      rcases hx with ⟨h1, h2⟩ | ⟨h1, h2⟩
      · exact ⟨x, List.mem_toFinset.mpr h1, fun hc =>
          h2 (List.mem_toFinset.mp hc)⟩
      · exact absurd (reachIter_fuel_mono g a i x h2) h1
    have hchain : ∀ i, i ≤ g.edges.length + 1 →
        i + 1 ≤ ((g.reachIter i [a]).toFinset).card := by
      intro i
      induction i with
      | zero =>
        intro _
        have : (g.reachIter 0 [a]) = [a] := rfl
        rw [this]
        simp
      | succ k ih =>
        intro hk
        have h1 := ih (by omega)
        have h2 := hgrow k (by omega)
        omega
    have h1 := hchain (g.edges.length + 1) (le_refl _)
    have h2 := reachIter_card_bound g a (g.edges.length + 1)
    omega

lemma reachSet_complete (g : WorkspaceSnapshotGraph) (a y : Nat)
    (h : Relation.ReflTransGen (stepRel g) a y) : y ∈ g.reachSet a := by
  induction h with
  | refl => exact mem_reachIter_of_mem g _ [a] a (List.mem_singleton.mpr rfl)
  | tail h1 h2 ih =>
    exact (reachIter_saturates g a _).mp
      ((mem_reachStep g _ _).mpr (Or.inr ⟨_, ih, h2⟩))

lemma isAcyclic_eq_true_iff (g : WorkspaceSnapshotGraph) :
    g.isAcyclicDirected = true ↔
      ∀ p ∈ g.activeEdges, g.hasPathConnecting p.2.tgt p.2.src = false := by
  unfold WorkspaceSnapshotGraph.isAcyclicDirected
  rw [List.all_eq_true]
  constructor
  · intro h p hp
    have := h p hp
    simp only [Bool.not_eq_true'] at this
    exact this
  · intro h p hp
    simp only [Bool.not_eq_true']
    exact h p hp

lemma hasPath_congr (g g' : WorkspaceSnapshotGraph)
    (hstep : ∀ x y, stepRel g x y ↔ stepRel g' x y)
    (hlen : g.edges.length = g'.edges.length) (x y : Nat) :
    g.hasPathConnecting x y = g'.hasPathConnecting x y := by
  unfold WorkspaceSnapshotGraph.hasPathConnecting WorkspaceSnapshotGraph.reachSet
  rw [hlen]
  exact decide_eq_decide.mpr
    (reachIter_mem_congr g g' hstep g'.edges.length [x] [x] (fun v => Iff.rfl) y)

lemma isAcyclic_of_stepRel_congr (g g' : WorkspaceSnapshotGraph)
    (hstep : ∀ x y, stepRel g' x y ↔ stepRel g x y)
    (hlen : g'.edges.length = g.edges.length)
    (h : g.isAcyclicDirected = true) : g'.isAcyclicDirected = true := by
  rw [isAcyclic_eq_true_iff] at h ⊢
  intro p hp
  have hpstep : stepRel g' p.2.src p.2.tgt :=
    ⟨p.1, p.2, (activeEdges_mem_iff g' p.1 p.2).mp (by
      have : (p.1, p.2) = p := rfl
      rw [this]; exact hp), rfl, rfl⟩
  obtain ⟨j, e, hj, hsrc, htgt⟩ := (hstep _ _).mp hpstep
  have hge : g.hasPathConnecting e.tgt e.src = false :=
    h (j, e) ((activeEdges_mem_iff g j e).mpr hj)
  rw [hasPath_congr g' g hstep hlen, ← htgt, ← hsrc]
  exact hge

lemma stepRel_set_samePair (g : WorkspaceSnapshotGraph) (i : Nat)
    (e0 enew : GraphEdge) (hget : g.edges.get? i = some (some e0))
    (hsrc : enew.src = e0.src) (htgt : enew.tgt = e0.tgt) :
    ∀ x y,
      stepRel { g with edges := g.edges.set i (some enew) } x y ↔ stepRel g x y := by
  intro x y
  constructor
  · rintro ⟨j, e, hj, hesrc, hetgt⟩
    simp only at hj
    by_cases hij : i = j
    · subst hij
      rw [List.get?_set_eq, hget] at hj
      simp only [Option.map_some, Option.some.injEq] at hj
      cases hj
      exact ⟨i, e0, hget, by rw [← hsrc]; exact hesrc, by rw [← htgt]; exact hetgt⟩
    · rw [List.get?_set_ne _ _ hij] at hj
      exact ⟨j, e, hj, hesrc, hetgt⟩
  · rintro ⟨j, e, hj, hesrc, hetgt⟩
    by_cases hij : i = j
    · subst hij
      rw [hget] at hj
      injection hj with hj2
      injection hj2 with hj3
      refine ⟨i, enew, ?_, by rw [hsrc, hj3]; exact hesrc,
        by rw [htgt, hj3]; exact hetgt⟩
      simp only
      rw [List.get?_set_eq, hget]
      rfl
    · refine ⟨j, e, ?_, hesrc, hetgt⟩
      simp only
      rw [List.get?_set_ne _ _ hij]
      exact hj

lemma activeEdges_append_none (g : WorkspaceSnapshotGraph) :
    ({ g with edges := g.edges ++ [none] } :
      WorkspaceSnapshotGraph).activeEdges = g.activeEdges := by
  unfold WorkspaceSnapshotGraph.activeEdges
  simp only
  rw [List.enum_append, List.filterMap_append]
  have h2 : (List.enumFrom g.edges.length [(none : Option GraphEdge)]).filterMap
      (fun p =>
        match p.2 with
        | some e => some (p.1, e)
        | none => none) = [] := rfl
  rw [h2, List.append_nil]

/-- Reverse lookup of the old-to-new index map: copies are sent back to the
node they were copied from, anything else to itself. -/
def chi (m : List (Nat × Nat)) (x : Nat) : Nat :=
  match m.find? (fun q => q.2 == x) with
  | some q => q.1
  | none => x

lemma chi_head (m : List (Nat × Nat)) (o n : Nat) : chi ((o, n) :: m) n = o := by
  unfold chi
  rw [List.find?_cons_of_pos _ (by simp)]

lemma chi_cons_ne (m : List (Nat × Nat)) (o n x : Nat) (h : n ≠ x) :
    chi ((o, n) :: m) x = chi m x := by
  unfold chi
  rw [List.find?_cons_of_neg _ (by simp [h])]

lemma chi_of_not_value (m : List (Nat × Nat)) (x : Nat)
    (h : ∀ q ∈ m, q.2 ≠ x) : chi m x = x := by
  unfold chi
  rw [List.find?_eq_none.mpr (by
    intro q hq
    simp only [beq_iff_eq]
    exact h q hq)]

lemma chi_lt (m : List (Nat × Nat)) (x L : Nat) (hx : x < L)
    (hvals : ∀ q ∈ m, L ≤ q.2) : chi m x = x :=
  chi_of_not_value m x (fun q hq => by have := hvals q hq; omega)

lemma chi_value_of_nodup :
    ∀ (m : List (Nat × Nat)) (k v : Nat), (k, v) ∈ m →
      (m.map Prod.snd).Nodup → chi m v = k := by
  intro m
  induction m with
  | nil => intro k v hmem _; cases hmem
  | cons q rest ih =>
    obtain ⟨a, b⟩ := q
    intro k v hmem hnodup
    rw [List.map_cons, List.nodup_cons] at hnodup
    cases hmem with
    | head =>
      unfold chi
      rw [List.find?_cons_of_pos _ (by simp)]
    | tail _ hmem2 =>
      by_cases hbv : b = v
      · subst hbv
        exact absurd (List.mem_map.mpr ⟨(k, b), hmem2, rfl⟩) hnodup.1
      · rw [chi_cons_ne rest a b v hbv]
        exact ih k v hmem2 hnodup.2

lemma copyNodeIndex_spec (g : WorkspaceSnapshotGraph) (cs : ChangeSet) (i : Nat)
    (g2 : WorkspaceSnapshotGraph) (n : Nat) (h : g.copyNodeIndex cs i = .ok (g2, n)) :
    ∃ w, g.getNodeWeight i = .ok w ∧
      g2 = { g with nodes := g.nodes ++ [some (w.newWithIncrementedVectorClock cs)] } ∧
      n = g.nodes.length := by
  unfold WorkspaceSnapshotGraph.copyNodeIndex at h
  cases hw : g.getNodeWeight i with
  | error e => rw [hw] at h; exact absurd h (by simp [except_bind_err])
  | ok w =>
    rw [hw, except_bind_ok] at h
    simp only [WorkspaceSnapshotGraph.rawAddNode] at h
    injection h with h1
    injection h1 with h2 h3
    exact ⟨w, rfl, h2.symm, h3.symm⟩

lemma updateMerkleTreeHash_spec (g : WorkspaceSnapshotGraph) (i : Nat)
    (g2 : WorkspaceSnapshotGraph) (h : g.updateMerkleTreeHash i = .ok g2) :
    g2.edges = g.edges ∧ g2.nodes.length = g.nodes.length ∧
      g2.rootIndex = g.rootIndex := by
  unfold WorkspaceSnapshotGraph.updateMerkleTreeHash at h
  cases hw : g.getNodeWeight i with
  | error e => rw [hw] at h; exact absurd h (by simp [except_bind_err])
  | ok w =>
    simp only [hw, except_bind_ok] at h
    cases hfold : (sortNat ((g.edgesDirectedOut i).map (fun p => p.2.tgt))).foldlM
        (fun hh t => do
          let tw ← g.getNodeWeight t
          pure (hh.update tw.merkleTreeHash.toBytes))
        (ContentHasher.init.update w.contentHash.toBytes) with
    | error e =>
      rw [hfold, except_bind_err] at h
      cases h
    | ok hasher =>
      rw [hfold, except_bind_ok] at h
      injection h with h1
      rw [← h1]
      exact ⟨rfl, List.length_set _ _ _, rfl⟩

lemma updateEdge_get_cases (g : WorkspaceSnapshotGraph) (a b : Nat) (w : EdgeWeight) :
    ∀ i e, ((g.updateEdge a b w).1).edges.get? i = some (some e) →
      (∃ e', g.edges.get? i = some (some e') ∧ e'.src = e.src ∧ e'.tgt = e.tgt) ∨
      (e.src = a ∧ e.tgt = b) := by
  intro i e hi
  unfold WorkspaceSnapshotGraph.updateEdge at hi
  cases hfind : g.activeEdges.find? (fun p => p.2.src = a && p.2.tgt = b) with
  | some q =>
    obtain ⟨i0, e0⟩ := q
    rw [hfind] at hi
    simp only at hi
    by_cases hii : i0 = i
    · subst hii
      rw [List.get?_set_eq] at hi
      cases hget : g.edges.get? i0 with
      | none => rw [hget] at hi; cases hi
      | some oe =>
        rw [hget] at hi
        simp only [Option.map_some, Option.some.injEq] at hi
        cases hi
        exact Or.inr ⟨rfl, rfl⟩
    · rw [List.get?_set_ne _ _ hii] at hi
      exact Or.inl ⟨e, hi, rfl, rfl⟩
  | none =>
    rw [hfind] at hi
    simp only at hi
    by_cases hlt : i < g.edges.length
    · rw [List.get?_append hlt] at hi
      exact Or.inl ⟨e, hi, rfl, rfl⟩
    · have hi2 : i = g.edges.length := by
        rcases Nat.lt_or_ge i (g.edges.length + 1) with h1 | h1
        · omega
        · rw [List.get?_eq_none.mpr (by simp; omega)] at hi
          cases hi
      subst hi2
      rw [List.get?_concat_length] at hi
      cases hi
      exact Or.inr ⟨rfl, rfl⟩

lemma updateEdge_inserts_stepRel (g : WorkspaceSnapshotGraph) (a b : Nat)
    (w : EdgeWeight) : stepRel ((g.updateEdge a b w).1) a b := by
  unfold WorkspaceSnapshotGraph.updateEdge
  cases hfind : g.activeEdges.find? (fun p => p.2.src = a && p.2.tgt = b) with
  | some q =>
    obtain ⟨i0, e0⟩ := q
    have hmem : g.edges.get? i0 = some (some e0) :=
      (activeEdges_mem_iff g i0 e0).mp (List.mem_of_find?_eq_some hfind)
    refine ⟨i0, ⟨a, b, w⟩, ?_, rfl, rfl⟩
    simp only
    rw [List.get?_set_eq, hmem]
    rfl
  | none =>
    refine ⟨g.edges.length, ⟨a, b, w⟩, ?_, rfl, rfl⟩
    simp only
    exact List.get?_concat_length _ _

lemma removeEdge_stepRel_sub (g : WorkspaceSnapshotGraph) (i : Nat) (x y : Nat)
    (h : stepRel (g.removeEdge i) x y) : stepRel g x y := by
  obtain ⟨j, e, hj, hsrc, htgt⟩ := h
  simp only [WorkspaceSnapshotGraph.removeEdge] at hj
  by_cases hij : i = j
  · subst hij
    rw [List.get?_set_eq] at hj
    cases hget : g.edges.get? i with
    | none => rw [hget] at hj; cases hj
    | some oe =>
      rw [hget] at hj
      simp only [Option.map_some, Option.some.injEq] at hj
      cases hj
  · rw [List.get?_set_ne _ _ hij] at hj
    exact ⟨j, e, hj, hsrc, htgt⟩

lemma edgesDirectedOut_mem (g : WorkspaceSnapshotGraph) (u : Nat) (p : Nat × GraphEdge)
    (hp : p ∈ g.edgesDirectedOut u) :
    g.edges.get? p.1 = some (some p.2) ∧ p.2.src = u := by
  unfold WorkspaceSnapshotGraph.edgesDirectedOut at hp
  rw [List.mem_reverse, List.mem_filter] at hp
  refine ⟨?_, by simpa using hp.2⟩
  have : (p.1, p.2) = p := rfl
  rw [← this] at hp
  exact (activeEdges_mem_iff g p.1 p.2).mp hp.1

lemma dfsPostAux_lt (g : WorkspaceSnapshotGraph) (L : Nat)
    (htgts : ∀ i e, g.edges.get? i = some (some e) → e.tgt < L) :
    ∀ (fuel : Nat) (u : Nat) (vis : List Nat), u < L →
      ∀ x ∈ (g.dfsPostAux fuel u vis).2, x < L := by
  intro fuel
  induction fuel with
  | zero =>
    intro u vis hu x hx
    cases hx
  | succ k ih =>
    intro u vis hu x hx
    rw [WorkspaceSnapshotGraph.dfsPostAux] at hx
    by_cases hin : u ∈ vis
    · rw [if_pos hin] at hx
      cases hx
    · rw [if_neg hin] at hx
      have hx2 : x ∈ (((g.edgesDirectedOut u).map (fun p => p.2.tgt)).foldl
          (fun acc v => if v ∈ acc.1 then acc else
            ((g.dfsPostAux k v acc.1).1, acc.2 ++ (g.dfsPostAux k v acc.1).2))
          (u :: vis, ([] : List Nat))).2 ++ [u] := hx
      have hch : ∀ v ∈ (g.edgesDirectedOut u).map (fun p => p.2.tgt), v < L := by
        intro v hv
        rw [List.mem_map] at hv
        obtain ⟨p, hp, hpv⟩ := hv
        have := htgts p.1 p.2 (edgesDirectedOut_mem g u p hp).1
        omega
      have fold_lt : ∀ (children : List Nat) (acc : List Nat × List Nat),
          (∀ v ∈ children, v < L) → (∀ y ∈ acc.2, y < L) →
          ∀ y ∈ (children.foldl (fun acc v => if v ∈ acc.1 then acc else
              ((g.dfsPostAux k v acc.1).1, acc.2 ++ (g.dfsPostAux k v acc.1).2))
              acc).2, y < L := by
        intro children
        induction children with
        | nil => intro acc _ hacc y hy; exact hacc y hy
        | cons c rest ihc =>
          intro acc hchl hacc y hy
          rw [List.foldl_cons] at hy
          refine ihc _ (fun v hv => hchl v (List.mem_cons_of_mem _ hv)) ?_ y hy
          by_cases hc : c ∈ acc.1
          · rw [if_pos hc]
            exact hacc
          · rw [if_neg hc]
            intro z hz
            rcases List.mem_append.mp hz with hz2 | hz2
            · exact hacc z hz2
            · exact ih c acc.1 (hchl c (List.mem_cons_self _ _)) z hz2
      rcases List.mem_append.mp hx2 with hx3 | hx3
      · exact fold_lt _ _ hch (fun y hy => by cases hy) x hx3
      · rw [List.mem_singleton] at hx3
        rw [hx3]
        exact hu

lemma dfsPostOrder_lt (g : WorkspaceSnapshotGraph) (L : Nat)
    (htgts : ∀ i e, g.edges.get? i = some (some e) → e.tgt < L)
    (s : Nat) (hs : s < L) : ∀ x ∈ g.dfsPostOrder s, x < L := by
  intro x hx
  exact dfsPostAux_lt g L htgts _ s [] hs x hx

/-- Invariant carried through `replace_references`: the reverse copy map
sends every live edge to an edge pair of the reference graph `E0`, copy
indices are fresh (at or above `L`, below the node count) with distinct
values, edge endpoints stay in range and copied originals are below `L`. -/
def homInv (E0 : Nat → Nat → Prop) (L : Nat)
    (g : WorkspaceSnapshotGraph) (m : List (Nat × Nat)) : Prop :=
  (∀ i e, g.edges.get? i = some (some e) → E0 (chi m e.src) (chi m e.tgt)) ∧
  (m.map Prod.snd).Nodup ∧
  (∀ q ∈ m, q.2 < g.nodes.length) ∧
  (∀ i e, g.edges.get? i = some (some e) →
    e.src < g.nodes.length ∧ e.tgt < g.nodes.length) ∧
  (∀ q ∈ m, L ≤ q.2) ∧
  L ≤ g.nodes.length ∧
  (∀ q ∈ m, q.1 < L)

lemma homInv_congr (E0 : Nat → Nat → Prop) (L : Nat)
    (g g' : WorkspaceSnapshotGraph) (m : List (Nat × Nat))
    (he : g'.edges = g.edges) (hn : g'.nodes.length = g.nodes.length)
    (h : homInv E0 L g m) : homInv E0 L g' m := by
  obtain ⟨H1, H2, H3, H4, H5, H6, H7⟩ := h
  refine ⟨?_, H2, ?_, ?_, H5, ?_, H7⟩
  · intro i e hi
    rw [he] at hi
    exact H1 i e hi
  · intro q hq
    rw [hn]
    exact H3 q hq
  · intro i e hi
    rw [he] at hi
    rw [hn]
    exact H4 i e hi
  · rw [hn]
    exact H6

lemma foldl_updateEdge_hom (E0 : Nat → Nat → Prop) (m1 : List (Nat × Nat))
    (newIdx NL : Nat) (hnew : newIdx < NL) :
    ∀ (l : List (EdgeWeight × Nat)) (gAcc : WorkspaceSnapshotGraph),
    gAcc.nodes.length = NL →
    (∀ ed ∈ l, E0 (chi m1 newIdx) (chi m1 ((m1.lookup ed.2).getD ed.2)) ∧
      ((m1.lookup ed.2).getD ed.2) < NL) →
    (∀ i e, gAcc.edges.get? i = some (some e) → E0 (chi m1 e.src) (chi m1 e.tgt)) →
    (∀ i e, gAcc.edges.get? i = some (some e) → e.src < NL ∧ e.tgt < NL) →
    ((l.foldl (fun (gA : WorkspaceSnapshotGraph) (ed : EdgeWeight × Nat) =>
        (gA.updateEdge newIdx ((m1.lookup ed.2).getD ed.2) ed.1).1) gAcc).nodes
      = gAcc.nodes ∧
    (∀ i e, (l.foldl (fun (gA : WorkspaceSnapshotGraph) (ed : EdgeWeight × Nat) =>
        (gA.updateEdge newIdx ((m1.lookup ed.2).getD ed.2) ed.1).1) gAcc).edges.get? i
        = some (some e) → E0 (chi m1 e.src) (chi m1 e.tgt)) ∧
    (∀ i e, (l.foldl (fun (gA : WorkspaceSnapshotGraph) (ed : EdgeWeight × Nat) =>
        (gA.updateEdge newIdx ((m1.lookup ed.2).getD ed.2) ed.1).1) gAcc).edges.get? i
        = some (some e) → e.src < NL ∧ e.tgt < NL)) := by
  intro l
  induction l with
  | nil => intro gAcc hlen hl h1 h4; exact ⟨rfl, h1, h4⟩
  | cons ed rest ih =>
    intro gAcc hlen hl h1 h4
    rw [List.foldl_cons]
    have hed := hl ed (List.mem_cons_self _ _)
    have h1' : ∀ i e,
        ((gAcc.updateEdge newIdx ((m1.lookup ed.2).getD ed.2) ed.1).1).edges.get? i
          = some (some e) → E0 (chi m1 e.src) (chi m1 e.tgt) := by
      intro i e hi
      rcases updateEdge_get_cases gAcc newIdx ((m1.lookup ed.2).getD ed.2) ed.1 i e hi with
        ⟨e', he', hsrc, htgt⟩ | ⟨hsrc, htgt⟩
      · rw [← hsrc, ← htgt]
        exact h1 i e' he'
      · rw [hsrc, htgt]
        exact hed.1
    have h4' : ∀ i e,
        ((gAcc.updateEdge newIdx ((m1.lookup ed.2).getD ed.2) ed.1).1).edges.get? i
          = some (some e) → e.src < NL ∧ e.tgt < NL := by
      intro i e hi
      rcases updateEdge_get_cases gAcc newIdx ((m1.lookup ed.2).getD ed.2) ed.1 i e hi with
        ⟨e', he', hsrc, htgt⟩ | ⟨hsrc, htgt⟩
      · rw [← hsrc, ← htgt]
        exact h4 i e' he'
      · rw [hsrc, htgt]
        exact ⟨hnew, hed.2⟩
    have hrest := ih ((gAcc.updateEdge newIdx ((m1.lookup ed.2).getD ed.2) ed.1).1)
      (by rw [updateEdge_nodes]; exact hlen)
      (fun e2 he2 => hl e2 (List.mem_cons_of_mem _ he2)) h1' h4'
    refine ⟨?_, hrest.2.1, hrest.2.2⟩
    rw [hrest.1, updateEdge_nodes]

lemma replaceRefTail_hom (cs : ChangeSet) (original oldNode : Nat)
    (E0 : Nat → Nat → Prop) (L : Nat) (rest : List Nat)
    (ih : ∀ (g : WorkspaceSnapshotGraph) (m : List (Nat × Nat)), homInv E0 L g m →
      homInv E0 L (WorkspaceSnapshotGraph.replaceReferencesAux cs original rest g m).1
        (WorkspaceSnapshotGraph.replaceReferencesAux cs original rest g m).2.1)
    (g1 : WorkspaceSnapshotGraph) (m1 : List (Nat × Nat)) (newIdx : Nat)
    (hInv : homInv E0 L g1 m1)
    (holdNode : oldNode < L)
    (hchiNew : chi m1 newIdx = oldNode)
    (hnewLt : newIdx < g1.nodes.length) :
    homInv E0 L
      (match
          (((g1.edgesDirectedOut oldNode).map
            (fun (p : Nat × GraphEdge) =>
              (p.2.weight.newWithIncrementedVectorClocks cs, p.2.tgt))).foldl
            (fun (gAcc : WorkspaceSnapshotGraph) (ed : EdgeWeight × Nat) =>
              (gAcc.updateEdge newIdx ((m1.lookup ed.2).getD ed.2) ed.1).1)
            g1).updateMerkleTreeHash newIdx with
        | .error e =>
          ((((g1.edgesDirectedOut oldNode).map
            (fun (p : Nat × GraphEdge) =>
              (p.2.weight.newWithIncrementedVectorClocks cs, p.2.tgt))).foldl
            (fun (gAcc : WorkspaceSnapshotGraph) (ed : EdgeWeight × Nat) =>
              (gAcc.updateEdge newIdx ((m1.lookup ed.2).getD ed.2) ed.1).1)
            g1), m1, some e)
        | .ok g3 =>
          WorkspaceSnapshotGraph.replaceReferencesAux cs original rest
            (match m1.lookup g3.rootIndex with
             | some newRoot => { g3 with rootIndex := newRoot }
             | none => g3) m1).1
      (match
          (((g1.edgesDirectedOut oldNode).map
            (fun (p : Nat × GraphEdge) =>
              (p.2.weight.newWithIncrementedVectorClocks cs, p.2.tgt))).foldl
            (fun (gAcc : WorkspaceSnapshotGraph) (ed : EdgeWeight × Nat) =>
              (gAcc.updateEdge newIdx ((m1.lookup ed.2).getD ed.2) ed.1).1)
            g1).updateMerkleTreeHash newIdx with
        | .error e =>
          ((((g1.edgesDirectedOut oldNode).map
            (fun (p : Nat × GraphEdge) =>
              (p.2.weight.newWithIncrementedVectorClocks cs, p.2.tgt))).foldl
            (fun (gAcc : WorkspaceSnapshotGraph) (ed : EdgeWeight × Nat) =>
              (gAcc.updateEdge newIdx ((m1.lookup ed.2).getD ed.2) ed.1).1)
            g1), m1, some e)
        | .ok g3 =>
          WorkspaceSnapshotGraph.replaceReferencesAux cs original rest
            (match m1.lookup g3.rootIndex with
             | some newRoot => { g3 with rootIndex := newRoot }
             | none => g3) m1).2.1 := by
  obtain ⟨H1, H2, H3, H4, H5, H6, H7⟩ := hInv
  have hl : ∀ ed ∈ ((g1.edgesDirectedOut oldNode).map
      (fun (p : Nat × GraphEdge) =>
        (p.2.weight.newWithIncrementedVectorClocks cs, p.2.tgt))),
      E0 (chi m1 newIdx) (chi m1 ((m1.lookup ed.2).getD ed.2)) ∧
      ((m1.lookup ed.2).getD ed.2) < g1.nodes.length := by
    intro ed hed
    rw [List.mem_map] at hed
    obtain ⟨p, hp, hpe⟩ := hed
    obtain ⟨hget, hsrc⟩ := edgesDirectedOut_mem g1 oldNode p hp
    have hE := H1 p.1 p.2 hget
    rw [hsrc, chi_lt m1 oldNode L holdNode H5] at hE
    have hed2 : ed.2 = p.2.tgt := by rw [← hpe]
    constructor
    · rw [hchiNew]
      cases hlk : m1.lookup ed.2 with
      | none =>
        show E0 oldNode (chi m1 ed.2)
        rw [hed2]
        exact hE
      | some nd =>
        show E0 oldNode (chi m1 nd)
        have hmem := lookup_mem m1 ed.2 nd hlk
        rw [chi_value_of_nodup m1 ed.2 nd hmem H2]
        rw [← hed2] at hE
        rw [chi_lt m1 ed.2 L (H7 _ hmem) H5] at hE
        exact hE
    · cases hlk : m1.lookup ed.2 with
      | none =>
        show ed.2 < g1.nodes.length
        rw [hed2]
        exact (H4 p.1 p.2 hget).2
      | some nd =>
        show nd < g1.nodes.length
        exact H3 (ed.2, nd) (lookup_mem m1 ed.2 nd hlk)
  have hfold := foldl_updateEdge_hom E0 m1 newIdx g1.nodes.length hnewLt
    ((g1.edgesDirectedOut oldNode).map
      (fun (p : Nat × GraphEdge) =>
        (p.2.weight.newWithIncrementedVectorClocks cs, p.2.tgt)))
    g1 rfl hl H1 H4
  have hInvFold : homInv E0 L
      (((g1.edgesDirectedOut oldNode).map
        (fun (p : Nat × GraphEdge) =>
          (p.2.weight.newWithIncrementedVectorClocks cs, p.2.tgt))).foldl
        (fun (gAcc : WorkspaceSnapshotGraph) (ed : EdgeWeight × Nat) =>
          (gAcc.updateEdge newIdx ((m1.lookup ed.2).getD ed.2) ed.1).1)
        g1) m1 := by
    refine ⟨hfold.2.1, H2, ?_, ?_, H5, ?_, H7⟩
    · intro q hq
      rw [hfold.1]
      exact H3 q hq
    · intro i e hi
      rw [hfold.1]
      exact hfold.2.2 i e hi
    · rw [hfold.1]
      exact H6
  cases hmk : (((g1.edgesDirectedOut oldNode).map
      (fun (p : Nat × GraphEdge) =>
        (p.2.weight.newWithIncrementedVectorClocks cs, p.2.tgt))).foldl
      (fun (gAcc : WorkspaceSnapshotGraph) (ed : EdgeWeight × Nat) =>
        (gAcc.updateEdge newIdx ((m1.lookup ed.2).getD ed.2) ed.1).1)
      g1).updateMerkleTreeHash newIdx with
  | error e => exact hInvFold
  | ok g3 =>
    obtain ⟨hge, hgl, hgr⟩ := updateMerkleTreeHash_spec _ _ _ hmk
    have hInv3 : homInv E0 L g3 m1 := homInv_congr E0 L _ g3 m1 hge hgl hInvFold
    show homInv E0 L
        (WorkspaceSnapshotGraph.replaceReferencesAux cs original rest
          (match m1.lookup g3.rootIndex with
           | some newRoot => { g3 with rootIndex := newRoot }
           | none => g3) m1).1
        (WorkspaceSnapshotGraph.replaceReferencesAux cs original rest
          (match m1.lookup g3.rootIndex with
           | some newRoot => { g3 with rootIndex := newRoot }
           | none => g3) m1).2.1
    cases m1.lookup g3.rootIndex with
    | some newRoot =>
      exact ih { g3 with rootIndex := newRoot } m1
        (homInv_congr E0 L g3 _ m1 rfl rfl hInv3)
    | none => exact ih g3 m1 hInv3

lemma replaceReferencesAux_hom (cs : ChangeSet) (original : Nat)
    (E0 : Nat → Nat → Prop) (L : Nat) :
    ∀ (po : List Nat) (g : WorkspaceSnapshotGraph) (m : List (Nat × Nat)),
    (∀ x ∈ po, x < L) → homInv E0 L g m →
    homInv E0 L (WorkspaceSnapshotGraph.replaceReferencesAux cs original po g m).1
      (WorkspaceSnapshotGraph.replaceReferencesAux cs original po g m).2.1 := by
  intro po
  induction po with
  | nil => intro g m _ h; exact h
  | cons oldNode rest ih =>
    intro g m hpo hInv
    have hrest : ∀ x ∈ rest, x < L := fun x hx => hpo x (List.mem_cons_of_mem _ hx)
    have holdNode : oldNode < L := hpo oldNode (List.mem_cons_self _ _)
    have ih2 : ∀ (g2 : WorkspaceSnapshotGraph) (m2 : List (Nat × Nat)),
        homInv E0 L g2 m2 →
        homInv E0 L
          (WorkspaceSnapshotGraph.replaceReferencesAux cs original rest g2 m2).1
          (WorkspaceSnapshotGraph.replaceReferencesAux cs original rest g2 m2).2.1 :=
      fun g2 m2 h2 => ih g2 m2 hrest h2
    simp only [WorkspaceSnapshotGraph.replaceReferencesAux]
    by_cases hpath : g.isOnPathBetween g.rootIndex original oldNode = true
    · rw [if_pos hpath]
      cases hlook : m.lookup oldNode with
      | some found =>
        have hchiNew : chi m found = oldNode :=
          chi_value_of_nodup m oldNode found (lookup_mem m oldNode found hlook)
            hInv.2.1
        have hnewLt : found < g.nodes.length :=
          hInv.2.2.1 (oldNode, found) (lookup_mem m oldNode found hlook)
        exact replaceRefTail_hom cs original oldNode E0 L rest ih2 g m found
          hInv holdNode hchiNew hnewLt
      | none =>
        cases hcopy : g.copyNodeIndex cs oldNode with
        | error e => exact hInv
        | ok q =>
          obtain ⟨gc, ni⟩ := q
          obtain ⟨w0, hw0, hgc, hni⟩ := copyNodeIndex_spec g cs oldNode gc ni hcopy
          obtain ⟨H1, H2, H3, H4, H5, H6, H7⟩ := hInv
          have hgcn : gc.nodes.length = g.nodes.length + 1 := by
            rw [hgc]
            simp
          have hgce : gc.edges = g.edges := by rw [hgc]
          have hInv2 : homInv E0 L gc ((oldNode, ni) :: m) := by
            refine ⟨?_, ?_, ?_, ?_, ?_, ?_, ?_⟩
            · intro i e hi
              rw [hgce] at hi
              have h4 := H4 i e hi
              rw [chi_cons_ne m oldNode ni e.src (by omega),
                chi_cons_ne m oldNode ni e.tgt (by omega)]
              exact H1 i e hi
            · rw [List.map_cons, List.nodup_cons]
              refine ⟨?_, H2⟩
              intro hc
              rw [List.mem_map] at hc
              obtain ⟨q2, hq2, hq2v⟩ := hc
              have := H3 q2 hq2
              omega
            · intro q2 hq2
              rw [hgcn]
              cases hq2 with
              | head => omega
              | tail _ hq3 =>
                have := H3 q2 hq3
                omega
            · intro i e hi
              rw [hgce] at hi
              have := H4 i e hi
              rw [hgcn]
              omega
            · intro q2 hq2
              cases hq2 with
              | head => omega
              | tail _ hq3 => exact H5 q2 hq3
            · rw [hgcn]
              omega
            · intro q2 hq2
              cases hq2 with
              | head => exact holdNode
              | tail _ hq3 => exact H7 q2 hq3
          have hchiNew : chi ((oldNode, ni) :: m) ni = oldNode := chi_head m oldNode ni
          have hnewLt : ni < gc.nodes.length := by
            rw [hgcn]
            omega
          exact replaceRefTail_hom cs original oldNode E0 L rest ih2 gc
            ((oldNode, ni) :: m) ni hInv2 holdNode hchiNew hnewLt
    · rw [if_neg hpath]
      exact ih2 g m hInv

lemma rtg_map {r r' : Nat → Nat → Prop} (φ : Nat → Nat)
    (h : ∀ x y, r x y → r' (φ x) (φ y)) :
    ∀ a b, Relation.ReflTransGen r a b → Relation.ReflTransGen r' (φ a) (φ b) := by
  intro a b hab
  induction hab with
  | refl => exact Relation.ReflTransGen.refl
  | tail h1 h2 ih => exact Relation.ReflTransGen.tail ih (h _ _ h2)

lemma acyclic_of_hom (g' gt : WorkspaceSnapshotGraph) (φ : Nat → Nat)
    (hmap : ∀ x y, stepRel g' x y → stepRel gt (φ x) (φ y))
    (hacyc : gt.isAcyclicDirected = true) : g'.isAcyclicDirected = true := by
  rw [isAcyclic_eq_true_iff] at hacyc ⊢
  intro p hp
  cases hpath : g'.hasPathConnecting p.2.tgt p.2.src with
  | false => rfl
  | true =>
    exfalso
    have hmem : p.2.src ∈ g'.reachSet p.2.tgt := by
      unfold WorkspaceSnapshotGraph.hasPathConnecting at hpath
      exact of_decide_eq_true hpath
    have hrtg := reachSet_sound g' p.2.tgt p.2.src hmem
    have hrtg2 := rtg_map φ hmap _ _ hrtg
    have hedge : stepRel g' p.2.src p.2.tgt :=
      ⟨p.1, p.2, (activeEdges_mem_iff g' p.1 p.2).mp (by
        have hpe : (p.1, p.2) = p := rfl
        rw [hpe]; exact hp), rfl, rfl⟩
    obtain ⟨j, e, hj, hsrc, htgt⟩ := hmap _ _ hedge
    have hfalse := hacyc (j, e) ((activeEdges_mem_iff gt j e).mpr hj)
    have hmem2 : φ p.2.src ∈ gt.reachSet (φ p.2.tgt) := reachSet_complete gt _ _ hrtg2
    have htrue : gt.hasPathConnecting e.tgt e.src = true := by
      unfold WorkspaceSnapshotGraph.hasPathConnecting
      rw [htgt, hsrc]
      exact decide_eq_true hmem2
    rw [htrue] at hfalse
    cases hfalse

lemma updateEdge_root (g : WorkspaceSnapshotGraph) (a b : Nat) (w : EdgeWeight) :
    ((g.updateEdge a b w).1).rootIndex = g.rootIndex := by
  unfold WorkspaceSnapshotGraph.updateEdge
  cases g.activeEdges.find? (fun p => p.2.src = a && p.2.tgt = b) with
  | none => rfl
  | some q => rfl

lemma removeEdge_get (g : WorkspaceSnapshotGraph) (i : Nat) :
    ∀ j e, (g.removeEdge i).edges.get? j = some (some e) →
      g.edges.get? j = some (some e) := by
  intro j e hj
  simp only [WorkspaceSnapshotGraph.removeEdge] at hj
  by_cases hij : i = j
  · subst hij
    rw [List.get?_set_eq] at hj
    cases hget : g.edges.get? i with
    | none => rw [hget] at hj; cases hj
    | some oe =>
      rw [hget] at hj
      simp only [Option.map_some, Option.some.injEq] at hj
      cases hj
  · rw [List.get?_set_ne _ _ hij] at hj
    exact hj

lemma addEdge_ok_acyclic (g : WorkspaceSnapshotGraph) (cs : ChangeSet) (a b : Nat)
    (w : EdgeWeight) (n : Nat)
    (hend : ∀ i e, g.edges.get? i = some (some e) →
      e.src < g.nodes.length ∧ e.tgt < g.nodes.length)
    (ha : a < g.nodes.length) (hb : b < g.nodes.length)
    (hroot : g.rootIndex < g.nodes.length)
    (hok : (g.addEdge cs a w b).2 = .ok n) :
    ((g.addEdge cs a w b).1).isAcyclicDirected = true := by
  have hins := updateEdge_inserts_stepRel g a b w
  have hnodes1 := updateEdge_nodes g a b w
  have hroot1 := updateEdge_root g a b w
  have hcases1 := updateEdge_get_cases g a b w
  unfold WorkspaceSnapshotGraph.addEdge at hok ⊢
  obtain ⟨g1, tempEdge, hup⟩ : ∃ g1 tempEdge, g.updateEdge a b w = (g1, tempEdge) :=
    ⟨(g.updateEdge a b w).1, (g.updateEdge a b w).2, rfl⟩
  rw [hup] at hok hins hnodes1 hroot1 hcases1 ⊢
  have hins2 : stepRel g1 a b := hins
  have hnodes2 : g1.nodes = g.nodes := hnodes1
  have hroot2 : g1.rootIndex = g.rootIndex := hroot1
  have hcases2 : ∀ i e, g1.edges.get? i = some (some e) →
      (∃ e', g.edges.get? i = some (some e') ∧ e'.src = e.src ∧ e'.tgt = e.tgt) ∨
      (e.src = a ∧ e.tgt = b) := hcases1
  have hok2 : (if (!g1.isAcyclicDirected) = true then
        (g1.removeEdge tempEdge,
         (Except.error GraphError.createGraphCycle : Except GraphError Nat))
      else
        match (g1.removeEdge tempEdge).copyNodeIndex cs a with
        | .error e => (g1.removeEdge tempEdge, Except.error e)
        | .ok (g3, newFromIdx) =>
          match ((g3.updateEdge newFromIdx b
              (w.incrementVectorClocks cs)).1).updateMerkleTreeHash newFromIdx with
          | .error e => ((g3.updateEdge newFromIdx b (w.incrementVectorClocks cs)).1,
              Except.error e)
          | .ok g5 =>
            match g5.replaceReferences cs a newFromIdx with
            | (g6, some e) => (g6, Except.error e)
            | (g6, none) => (g6, Except.ok (g3.updateEdge newFromIdx b
                (w.incrementVectorClocks cs)).2)).2 = Except.ok n := hok
  show (if (!g1.isAcyclicDirected) = true then
        (g1.removeEdge tempEdge,
         (Except.error GraphError.createGraphCycle : Except GraphError Nat))
      else
        match (g1.removeEdge tempEdge).copyNodeIndex cs a with
        | .error e => (g1.removeEdge tempEdge, Except.error e)
        | .ok (g3, newFromIdx) =>
          match ((g3.updateEdge newFromIdx b
              (w.incrementVectorClocks cs)).1).updateMerkleTreeHash newFromIdx with
          | .error e => ((g3.updateEdge newFromIdx b (w.incrementVectorClocks cs)).1,
              Except.error e)
          | .ok g5 =>
            match g5.replaceReferences cs a newFromIdx with
            | (g6, some e) => (g6, Except.error e)
            | (g6, none) => (g6, Except.ok (g3.updateEdge newFromIdx b
                (w.incrementVectorClocks cs)).2)).1.isAcyclicDirected = true
  by_cases hcycB : (!g1.isAcyclicDirected) = true
  · rw [if_pos hcycB] at hok2
    simp at hok2
  · rw [if_neg hcycB] at hok2 ⊢
    have hacyc1 : g1.isAcyclicDirected = true := by
      cases hb1 : g1.isAcyclicDirected with
      | true => rfl
      | false => exact absurd (by rw [hb1]; rfl) hcycB
    cases hcopy : (g1.removeEdge tempEdge).copyNodeIndex cs a with
    | error e =>
      rw [hcopy] at hok2
      simp at hok2
    | ok q2 =>
      obtain ⟨g3, newFromIdx⟩ := q2
      rw [hcopy] at hok2
      have hok3 : (match ((g3.updateEdge newFromIdx b
          (w.incrementVectorClocks cs)).1).updateMerkleTreeHash newFromIdx with
        | .error e => ((g3.updateEdge newFromIdx b (w.incrementVectorClocks cs)).1,
            Except.error e)
        | .ok g5 =>
          match g5.replaceReferences cs a newFromIdx with
          | (g6, some e) => (g6, Except.error e)
          | (g6, none) => (g6, Except.ok (g3.updateEdge newFromIdx b
              (w.incrementVectorClocks cs)).2)).2 = Except.ok n := hok2
      show (match ((g3.updateEdge newFromIdx b
          (w.incrementVectorClocks cs)).1).updateMerkleTreeHash newFromIdx with
        | .error e => ((g3.updateEdge newFromIdx b (w.incrementVectorClocks cs)).1,
            Except.error e)
        | .ok g5 =>
          match g5.replaceReferences cs a newFromIdx with
          | (g6, some e) => (g6, Except.error e)
          | (g6, none) => (g6, Except.ok (g3.updateEdge newFromIdx b
              (w.incrementVectorClocks cs)).2)).1.isAcyclicDirected = true
      obtain ⟨w0, hw0, hg3, hnfi⟩ := copyNodeIndex_spec _ cs a g3 newFromIdx hcopy
      have hnfi2 : newFromIdx = g.nodes.length := by
        rw [hnfi]
        show g1.nodes.length = g.nodes.length
        rw [hnodes2]
      have hg3nodes : g3.nodes.length = g.nodes.length + 1 := by
        rw [hg3]
        show ((g1.removeEdge tempEdge).nodes ++ _).length = _
        rw [List.length_append]
        show g1.nodes.length + 1 = _
        rw [hnodes2]
      have hg3edges : g3.edges = (g1.removeEdge tempEdge).edges := by rw [hg3]
      have hg3root : g3.rootIndex = g.rootIndex := by
        rw [hg3]
        show g1.rootIndex = g.rootIndex
        exact hroot2
      cases hmk : ((g3.updateEdge newFromIdx b
          (w.incrementVectorClocks cs)).1).updateMerkleTreeHash newFromIdx with
      | error e =>
        rw [hmk] at hok3
        simp at hok3
      | ok g5 =>
        rw [hmk] at hok3
        have hok4 : (match g5.replaceReferences cs a newFromIdx with
          | (g6, some e) => (g6, Except.error e)
          | (g6, none) => (g6, Except.ok (g3.updateEdge newFromIdx b
              (w.incrementVectorClocks cs)).2)).2 = Except.ok n := hok3
        show (match g5.replaceReferences cs a newFromIdx with
          | (g6, some e) => (g6, Except.error e)
          | (g6, none) => (g6, Except.ok (g3.updateEdge newFromIdx b
              (w.incrementVectorClocks cs)).2)).1.isAcyclicDirected = true
        obtain ⟨hg5e, hg5n, hg5r⟩ := updateMerkleTreeHash_spec _ _ _ hmk
        cases hrr : g5.replaceReferences cs a newFromIdx with
        | mk g6 oe =>
          rw [hrr] at hok4
          cases oe with
          | some e => simp at hok4
          | none =>
            show g6.isAcyclicDirected = true
            unfold WorkspaceSnapshotGraph.replaceReferences at hrr
            have hrr2 : ((WorkspaceSnapshotGraph.replaceReferencesAux cs a
                (g5.dfsPostOrder g5.rootIndex) g5 [(a, newFromIdx)]).1,
              (WorkspaceSnapshotGraph.replaceReferencesAux cs a
                (g5.dfsPostOrder g5.rootIndex) g5 [(a, newFromIdx)]).2.2) =
              (g6, (none : Option GraphError)) := hrr
            have hg6 : (WorkspaceSnapshotGraph.replaceReferencesAux cs a
                (g5.dfsPostOrder g5.rootIndex) g5 [(a, newFromIdx)]).1 = g6 :=
              congrArg Prod.fst hrr2
            have hg1ends : ∀ i e, g1.edges.get? i = some (some e) →
                e.src < g.nodes.length ∧ e.tgt < g.nodes.length := by
              intro i e hi
              rcases hcases2 i e hi with ⟨e', he', hs, ht⟩ | ⟨hs, ht⟩
              · rw [← hs, ← ht]
                exact hend i e' he'
              · rw [hs, ht]
                exact ⟨ha, hb⟩
            have hg2ends : ∀ i e,
                (g1.removeEdge tempEdge).edges.get? i = some (some e) →
                e.src < g.nodes.length ∧ e.tgt < g.nodes.length :=
              fun i e hi => hg1ends i e (removeEdge_get g1 tempEdge i e hi)
            have hg4cases := updateEdge_get_cases g3 newFromIdx b
              (w.incrementVectorClocks cs)
            have hlen5 : g5.nodes.length = g.nodes.length + 1 := by
              rw [hg5n, updateEdge_nodes, hg3nodes]
            have htgtsL : ∀ i e, g5.edges.get? i = some (some e) →
                e.tgt < g.nodes.length := by
              intro i e hi
              rw [hg5e] at hi
              rcases hg4cases i e hi with ⟨e', he', hs, ht⟩ | ⟨hs, ht⟩
              · rw [hg3edges] at he'
                rw [← ht]
                exact (hg2ends i e' he').2
              · rw [ht]
                exact hb
            have hvals : ∀ q ∈ [(a, newFromIdx)], g.nodes.length ≤ q.2 := by
              intro q hq
              rw [List.mem_singleton] at hq
              rw [hq]
              show g.nodes.length ≤ newFromIdx
              rw [hnfi2]
            have hH1 : ∀ i e, g5.edges.get? i = some (some e) →
                stepRel g1 (chi [(a, newFromIdx)] e.src) (chi [(a, newFromIdx)] e.tgt) := by
              intro i e hi
              rw [hg5e] at hi
              rcases hg4cases i e hi with ⟨e', he', hs, ht⟩ | ⟨hs, ht⟩
              · rw [hg3edges] at he'
                have hlt := hg2ends i e' he'
                have hstep : stepRel g1 e'.src e'.tgt :=
                  ⟨i, e', removeEdge_get g1 tempEdge i e' he', rfl, rfl⟩
                rw [← hs, ← ht]
                rw [chi_lt _ _ g.nodes.length hlt.1 hvals,
                  chi_lt _ _ g.nodes.length hlt.2 hvals]
                exact hstep
              · rw [hs, ht]
                rw [chi_head, chi_lt _ b g.nodes.length hb hvals]
                exact hins2
            have hInv0 : homInv (stepRel g1) g.nodes.length g5 [(a, newFromIdx)] := by
              refine ⟨hH1, by simp, ?_, ?_, hvals, ?_, ?_⟩
              · intro q hq
                rw [List.mem_singleton] at hq
                rw [hq]
                show newFromIdx < g5.nodes.length
                rw [hlen5, hnfi2]
                omega
              · intro i e hi
                rw [hg5e] at hi
                rw [hlen5]
                rcases hg4cases i e hi with ⟨e', he', hs, ht⟩ | ⟨hs, ht⟩
                · rw [hg3edges] at he'
                  have := hg2ends i e' he'
                  rw [← hs, ← ht]
                  omega
                · rw [hs, ht]
                  constructor
                  · rw [hnfi2]
                    omega
                  · omega
              · rw [hlen5]
                omega
              · intro q hq
                rw [List.mem_singleton] at hq
                rw [hq]
                show a < g.nodes.length
                exact ha
            have hpo : ∀ x ∈ g5.dfsPostOrder g5.rootIndex, x < g.nodes.length := by
              apply dfsPostOrder_lt g5 g.nodes.length htgtsL
              rw [hg5r, updateEdge_root, hg3root]
              exact hroot
            have hInvFinal := replaceReferencesAux_hom cs a (stepRel g1) g.nodes.length
              (g5.dfsPostOrder g5.rootIndex) g5 [(a, newFromIdx)] hpo hInv0
            rw [hg6] at hInvFinal
            have hmap : ∀ x y, stepRel g6 x y →
                stepRel g1
                  (chi (WorkspaceSnapshotGraph.replaceReferencesAux cs a
                    (g5.dfsPostOrder g5.rootIndex) g5 [(a, newFromIdx)]).2.1 x)
                  (chi (WorkspaceSnapshotGraph.replaceReferencesAux cs a
                    (g5.dfsPostOrder g5.rootIndex) g5 [(a, newFromIdx)]).2.1 y) := by
              intro x y hxy
              obtain ⟨i, e, hi, hs, ht⟩ := hxy
              rw [← hs, ← ht]
              exact hInvFinal.1 i e hi
            exact acyclic_of_hom g6 g1 _ hmap hacyc1

lemma addEdge_cycle_eval (g : WorkspaceSnapshotGraph) (cs : ChangeSet) (a b : Nat)
    (w : EdgeWeight)
    (hfind : g.activeEdges.find? (fun p => p.2.src = a && p.2.tgt = b) = none)
    (hcycF : ({ g with edges := g.edges ++ [some ⟨a, b, w⟩] } :
      WorkspaceSnapshotGraph).isAcyclicDirected = false) :
    g.addEdge cs a w b =
      ({ g with edges := g.edges ++ [none] }, .error GraphError.createGraphCycle) := by
  have hupd : g.updateEdge a b w =
      ({ g with edges := g.edges ++ [some ⟨a, b, w⟩] }, g.edges.length) := by
    unfold WorkspaceSnapshotGraph.updateEdge
    rw [hfind]
  unfold WorkspaceSnapshotGraph.addEdge
  rw [hupd]
  have hcond : (!({ g with edges := g.edges ++ [some ⟨a, b, w⟩] } :
      WorkspaceSnapshotGraph).isAcyclicDirected) = true := by
    rw [hcycF]
    rfl
  show (if (!({ g with edges := g.edges ++ [some ⟨a, b, w⟩] } :
        WorkspaceSnapshotGraph).isAcyclicDirected) = true then
      (({ g with edges := g.edges ++ [some ⟨a, b, w⟩] } :
        WorkspaceSnapshotGraph).removeEdge g.edges.length,
       (Except.error GraphError.createGraphCycle : Except GraphError Nat))
    else _) = _
  rw [if_pos hcond]
  show (({ g with edges := g.edges ++ [some ⟨a, b, w⟩] } :
      WorkspaceSnapshotGraph).removeEdge g.edges.length,
    (Except.error GraphError.createGraphCycle : Except GraphError Nat)) = _
  unfold WorkspaceSnapshotGraph.removeEdge
  simp only
  rw [list_set_concat_length]

/-- C1: for a well-formed acyclic snapshot (edge endpoints and root in
range), if inserting the tentative edge from `a` to `b` makes the graph
cyclic then add_edge returns the CreateGraphCycle error and leaves the graph
as it was (same node slots with their weights and Merkle hashes, same live
edges, same root index); and whenever add_edge succeeds the resulting graph
is again acyclic. -/
theorem add_edge_rejects_cycles_and_preserves_acyclicity
    (g : WorkspaceSnapshotGraph) (cs : ChangeSet) (a : Nat) (w : EdgeWeight) (b : Nat)
    (hend : (g.activeEdges.all (fun p =>
      p.2.src < g.nodes.length && p.2.tgt < g.nodes.length)) = true)
    (ha : a < g.nodes.length) (hb : b < g.nodes.length)
    (hroot : g.rootIndex < g.nodes.length)
    (hacyc : g.isAcyclicDirected = true) :
    ((((g.updateEdge a b w).1).isAcyclicDirected = false) →
      (g.addEdge cs a w b).2 = .error GraphError.createGraphCycle ∧
      (g.addEdge cs a w b).1.nodes = g.nodes ∧
      (g.addEdge cs a w b).1.activeEdges = g.activeEdges ∧
      (g.addEdge cs a w b).1.rootIndex = g.rootIndex) ∧
    (∀ n, (g.addEdge cs a w b).2 = .ok n →
      ((g.addEdge cs a w b).1).isAcyclicDirected = true) := by
  have hend2 : ∀ i e, g.edges.get? i = some (some e) →
      e.src < g.nodes.length ∧ e.tgt < g.nodes.length := by
    intro i e hi
    have := (List.all_eq_true.mp hend) (i, e) ((activeEdges_mem_iff g i e).mpr hi)
    simpa using this
  constructor
  · intro hcyc
    cases hfind : g.activeEdges.find? (fun p => p.2.src = a && p.2.tgt = b) with
    | some q =>
      exfalso
      obtain ⟨i0, e0⟩ := q
      have hpred := List.find?_some hfind
      simp only [Bool.and_eq_true, decide_eq_true_eq] at hpred
      have hget : g.edges.get? i0 = some (some e0) :=
        (activeEdges_mem_iff g i0 e0).mp (List.mem_of_find?_eq_some hfind)
      have hupd : (g.updateEdge a b w).1 =
          { g with edges := g.edges.set i0 (some ⟨a, b, w⟩) } := by
        unfold WorkspaceSnapshotGraph.updateEdge
        rw [hfind]
      have hcong := stepRel_set_samePair g i0 e0 ⟨a, b, w⟩ hget
        (by show a = e0.src; rw [hpred.1]) (by show b = e0.tgt; rw [hpred.2])
      have htrue : (g.updateEdge a b w).1.isAcyclicDirected = true := by
        rw [hupd]
        exact isAcyclic_of_stepRel_congr g _ hcong (by simp) hacyc
      rw [htrue] at hcyc
      cases hcyc
    | none =>
      have hcycF : ({ g with edges := g.edges ++ [some ⟨a, b, w⟩] } :
          WorkspaceSnapshotGraph).isAcyclicDirected = false := by
        have hupd : g.updateEdge a b w =
            ({ g with edges := g.edges ++ [some ⟨a, b, w⟩] }, g.edges.length) := by
          unfold WorkspaceSnapshotGraph.updateEdge
          rw [hfind]
        rw [hupd] at hcyc
        exact hcyc
      rw [addEdge_cycle_eval g cs a b w hfind hcycF]
      exact ⟨rfl, rfl, activeEdges_append_none g, rfl⟩
  · intro n hok
    exact addEdge_ok_acyclic g cs a b w n hend2 ha hb hroot hok

theorem add_edge_rejects_cycles_and_preserves_acyclicity_witness :
    ((baseGraph.addEdge csBase 2 (EdgeWeight.new csBase .uses) 8).2 =
        .error GraphError.createGraphCycle ∧
      (baseGraph.addEdge csBase 2 (EdgeWeight.new csBase .uses) 8).1.nodes =
        baseGraph.nodes ∧
      (baseGraph.addEdge csBase 2 (EdgeWeight.new csBase .uses) 8).1.activeEdges =
        baseGraph.activeEdges ∧
      (baseGraph.addEdge csBase 2 (EdgeWeight.new csBase .uses) 8).1.rootIndex =
        baseGraph.rootIndex) ∧
    ((baseGraph.addEdge csBase 9 (EdgeWeight.new csBase .uses) 2).1).isAcyclicDirected
      = true :=
  ⟨(add_edge_rejects_cycles_and_preserves_acyclicity baseGraph csBase 2
      (EdgeWeight.new csBase .uses) 8 (by decide) (by decide) (by decide)
      (by decide) (by decide)).1 (by decide),
   (add_edge_rejects_cycles_and_preserves_acyclicity baseGraph csBase 9
      (EdgeWeight.new csBase .uses) 2 (by decide) (by decide) (by decide)
      (by decide) (by decide)).2 13 rfl⟩

/-- C2: the Merkle invariant fails already for `WorkspaceSnapshotGraph::new`:
the root content node is inserted with the raw petgraph add_node (no
update_merkle_tree_hash), so the root — reachable from root_index and
without outgoing neighbors — keeps its initial merkle hash, which differs
from the recomputation over its content hash prescribed by the claim. -/
theorem new_graph_root_merkle_not_recomputed :
    ∀ (cs : ChangeSet) (rootId : Ulid), ∃ w,
      (WorkspaceSnapshotGraph.newGraph cs rootId).getNodeWeight
        (WorkspaceSnapshotGraph.newGraph cs rootId).rootIndex = .ok w ∧
      (WorkspaceSnapshotGraph.newGraph cs rootId).edgesDirectedOut
        (WorkspaceSnapshotGraph.newGraph cs rootId).rootIndex = [] ∧
      (WorkspaceSnapshotGraph.newGraph cs rootId).hasPathToRoot
        (WorkspaceSnapshotGraph.newGraph cs rootId).rootIndex = true ∧
      w.merkleTreeHash ≠ contentOnlyMerkleHash w := by
  intro cs rootId
  refine ⟨NodeWeight.newContent cs rootId ContentAddress.root, rfl, rfl, rfl, ?_⟩
  have h1 : (NodeWeight.newContent cs rootId ContentAddress.root).merkleTreeHash =
      ContentHash.new [] := rfl
  have h2 : contentOnlyMerkleHash (NodeWeight.newContent cs rootId ContentAddress.root) =
      ContentHash.new [0] := rfl
  rw [h1, h2]
  decide
